import Mathlib

/-!
Verification of the schema normalizer of a JSON-schema-to-TypeScript compiler.

The development shallowly embeds `src/normalizer.ts`: JSON values are an
inductive type, JS objects are ordered association lists (insertion order,
update-in-place, append-on-new-key), and each normalizer rule is translated
from the source.  The traversal engine (`traverse` in `utils`, not part of
`src/`) is modelled from the specification: one full pre-order pass per rule,
visiting children through `properties`/`definitions`/`$defs` values, `items`
(single or array), `additionalItems`, `additionalProperties`, combinators
(`allOf`/`anyOf`/`oneOf`) and `not`, with only the entry node marked as root.
The only failure point of the normalizer is the JS `Array(len)` constructor,
which throws on a negative numeric length; rules are therefore embedded in
`Except Unit`.  Traversal recursion is driven by an explicit fuel which the
entry point instantiates with `jsize t + 1`; the totality theorems show this
fuel is never exhausted by the built-in rules.
-/

namespace JS2TS

/-- JSON values.  Numbers are modelled as integers (the fields the normalizer
inspects numerically, `minItems`/`maxItems`, are specified as integers). -/
inductive JSON where
  | null
  | bool (b : Bool)
  | num (n : Int)
  | str (s : String)
  | arr (elems : List JSON)
  | obj (fields : List (String × JSON))

mutual

/-- Size of a JSON value, used as traversal fuel. -/
def jsize : JSON → Nat
  | .null => 1
  | .bool _ => 1
  | .num _ => 1
  | .str _ => 1
  | .arr l => 1 + jsizeL l
  | .obj l => 1 + jsizeO l

/-- Size of a list of JSON values. -/
def jsizeL : List JSON → Nat
  | [] => 0
  | x :: xs => jsize x + jsizeL xs

/-- Size of a JSON field list. -/
def jsizeO : List (String × JSON) → Nat
  | [] => 0
  | (_, v) :: xs => jsize v + jsizeO xs

end

/-- Is this value a JS object (a schema node)? -/
def isObj : JSON → Bool
  | .obj _ => true
  | _ => false

/-- Is this value a JS array? -/
def isArr : JSON → Bool
  | .arr _ => true
  | _ => false

/-- Property lookup on an association list (first binding wins). -/
def lookupF : List (String × JSON) → String → Option JSON
  | [], _ => none
  | (k', v) :: rest, k => if k' = k then some v else lookupF rest k

/-- JS property read `s[k]`: `none` plays the role of `undefined`. -/
def getF : JSON → String → Option JSON
  | .obj fields, k => lookupF fields k
  | _, _ => none

/-- Does the object have the key (JS `k in s`)? -/
def hasKey (s : JSON) (k : String) : Bool :=
  match s with
  | .obj fields => fields.any (fun p => p.1 = k)
  | _ => false

/-- Property write on an association list: update the first binding in place,
append when the key is new (JS object insertion-order semantics). -/
def setFL : List (String × JSON) → String → JSON → List (String × JSON)
  | [], k, v => [(k, v)]
  | (k', v') :: rest, k, v =>
    if k' = k then (k, v) :: rest else (k', v') :: setFL rest k v

/-- JS property write `s[k] = v`.  Writing a property on a primitive is a
silent no-op in non-strict JS. -/
def setF : JSON → String → JSON → JSON
  | .obj fields, k, v => .obj (setFL fields k v)
  | s, _, _ => s

/-- Property delete on an association list. -/
def delFL : List (String × JSON) → String → List (String × JSON)
  | [], _ => []
  | (k', v') :: rest, k =>
    if k' = k then delFL rest k else (k', v') :: delFL rest k

/-- JS `delete s[k]`. -/
def delF : JSON → String → JSON
  | .obj fields, k => .obj (delFL fields k)
  | s, _ => s

/-- JS truthiness of a value. -/
def truthy : JSON → Bool
  | .null => false
  | .bool b => b
  | .num n => n != 0
  | .str s => s != ""
  | .arr _ => true
  | .obj _ => true

/-- JS truthiness of a possibly-undefined value. -/
def truthyO : Option JSON → Bool
  | none => false
  | some v => truthy v

/-- Keys whose values are maps from names to child schemas. -/
def mapChildKeys : List String := ["properties", "definitions", "$defs"]

/-- Keys holding a single child schema or an array of child schemas. -/
def listChildKeys : List String := ["items", "allOf", "anyOf", "oneOf"]

/-- Keys holding a single child schema. -/
def oneChildKeys : List String := ["additionalItems", "additionalProperties", "not"]

/-- All keys through which the traversal reaches child schema nodes. -/
def childKeys : List String := mapChildKeys ++ listChildKeys ++ oneChildKeys

/-- Child schema nodes reached through one field, as visited by the traversal
(only objects are schema nodes and get visited). -/
def fieldChildVals (k : String) (v : JSON) : List JSON :=
  if k ∈ mapChildKeys then
    match v with
    | .obj m => (m.map Prod.snd).filter isObj
    | _ => []
  else if k ∈ listChildKeys then
    match v with
    | .obj _ => [v]
    | .arr l => l.filter isObj
    | _ => []
  else if k ∈ oneChildKeys then
    match v with
    | .obj _ => [v]
    | _ => []
  else []

/-- Child schema nodes of one field list. -/
def fieldsChildVals (fields : List (String × JSON)) : List JSON :=
  fields.flatMap (fun p => fieldChildVals p.1 p.2)

/-- Child schema nodes of a node, exactly the nodes the traversal recurses
into. -/
def childVals : JSON → List JSON
  | .obj fields => fieldsChildVals fields
  | _ => []

theorem jsize_pos (s : JSON) : 0 < jsize s := by
  cases s <;> simp [jsize]

theorem jsizeL_mem_le {x : JSON} {l : List JSON} (h : x ∈ l) :
    jsize x ≤ jsizeL l := by
  induction l with
  | nil => cases h
  | cons y ys ih =>
    rcases List.mem_cons.1 h with rfl | h2
    · simp [jsizeL]
    · have := ih h2
      simp [jsizeL]
      omega

theorem jsizeO_mem_le {k : String} {v : JSON} {l : List (String × JSON)}
    (h : (k, v) ∈ l) : jsize v ≤ jsizeO l := by
  induction l with
  | nil => cases h
  | cons p ps ih =>
    rcases List.mem_cons.1 h with heq | h2
    · obtain ⟨k', v'⟩ := p
      cases heq
      simp [jsizeO]
    · have := ih h2
      obtain ⟨k', v'⟩ := p
      simp [jsizeO]
      omega

theorem jsize_fieldChildVals_le {c : JSON} {k : String} {v : JSON}
    (h : c ∈ fieldChildVals k v) : jsize c ≤ jsize v := by
  unfold fieldChildVals at h
  split at h
  · match v, h with
    | .obj m, h =>
      have hc := List.mem_of_mem_filter h
      obtain ⟨⟨k', v'⟩, hp, hpv⟩ := List.mem_map.1 hc
      have h1 : jsize v' ≤ jsizeO m := jsizeO_mem_le hp
      rw [← hpv]
      simp [jsize]
      omega
  · split at h
    · match v, h with
      | .obj m, h =>
        simp at h
        rw [h]
      | .arr l, h =>
        have hc := List.mem_of_mem_filter h
        have h1 : jsize c ≤ jsizeL l := jsizeL_mem_le hc
        simp [jsize]
        omega
    · split at h
      · match v, h with
        | .obj m, h =>
          simp at h
          rw [h]
      · simp at h

theorem jsize_childVals_lt {c s : JSON} (h : c ∈ childVals s) :
    jsize c < jsize s := by
  match s with
  | .obj fields =>
    simp only [childVals, fieldsChildVals] at h
    obtain ⟨p, hp, hc⟩ := List.mem_flatMap.1 h
    obtain ⟨k, v⟩ := p
    have h1 : jsize c ≤ jsize v := jsize_fieldChildVals_le hc
    have h2 : jsize v ≤ jsizeO fields := jsizeO_mem_le hp
    simp [jsize]
    omega
  | .null | .bool _ | .num _ | .str _ | .arr _ => simp [childVals] at h

theorem list_all_congr {α : Type} {l : List α} {f g : α → Bool}
    (h : ∀ x ∈ l, f x = g x) : l.all f = l.all g := by
  induction l with
  | nil => rfl
  | cons x xs ih =>
    simp only [List.all_cons]
    rw [h x (by simp), ih (fun y hy => h y (by simp [hy]))]

/-- Fueled check that a node predicate holds on every node of the tree
reachable by the traversal. -/
def allNodesF (p : JSON → Bool) : Nat → JSON → Bool
  | 0, _ => false
  | fuel + 1, s => p s && (childVals s).all (fun c => allNodesF p fuel c)

/-- The predicate `p` holds on every traversal-reachable node of `s`. -/
def AllNodes (p : JSON → Bool) (s : JSON) : Bool :=
  allNodesF p (jsize s) s

theorem allNodesF_congr (p : JSON → Bool) :
    ∀ (m n : Nat) (s : JSON), jsize s ≤ m → jsize s ≤ n →
      allNodesF p m s = allNodesF p n s := by
  intro m
  induction m with
  | zero => intro n s h; have := jsize_pos s; omega
  | succ m ih =>
    intro n s hm hn
    match n, hn with
    | n + 1, hn =>
      simp only [allNodesF]
      congr 1
      apply list_all_congr
      intro c hc
      have hlt := jsize_childVals_lt hc
      exact ih n c (by omega) (by omega)
    | 0, hn => exact absurd hn (by have := jsize_pos s; omega)

theorem allNodes_unfold (p : JSON → Bool) (s : JSON) :
    AllNodes p s = (p s && (childVals s).all (fun c => AllNodes p c)) := by
  unfold AllNodes
  have hpos := jsize_pos s
  rw [allNodesF_congr p (jsize s) (jsize s - 1 + 1) s (by omega) (by omega)]
  simp only [allNodesF]
  congr 1
  apply list_all_congr
  intro c hc
  have hlt := jsize_childVals_lt hc
  exact allNodesF_congr p (jsize s - 1) (jsize c) c (by omega) (by omega)

theorem allNodes_node {p : JSON → Bool} {s : JSON} (h : AllNodes p s = true) :
    p s = true := by
  rw [allNodes_unfold] at h
  simp only [Bool.and_eq_true] at h
  exact h.1

theorem allNodes_child {p : JSON → Bool} {s c : JSON} (h : AllNodes p s = true)
    (hc : c ∈ childVals s) : AllNodes p c = true := by
  rw [allNodes_unfold] at h
  simp only [Bool.and_eq_true, List.all_eq_true] at h
  exact h.2 c hc

theorem allNodes_intro {p : JSON → Bool} {s : JSON} (h : p s = true)
    (hc : ∀ c ∈ childVals s, AllNodes p c = true) : AllNodes p s = true := by
  rw [allNodes_unfold]
  simp only [Bool.and_eq_true, List.all_eq_true]
  exact ⟨h, hc⟩

/-! ### The traversal engine

Modelled from the spec: `traverse` lives in `utils`, outside `src/`.  Per the
spec it performs, for each rule, one full pre-order traversal "invoking the
rule on every node reachable through `properties` values, `items` (array or
single), `additionalItems`, `additionalProperties` (when itself a node),
`definitions`/`$defs` values, and schema-combinator children
(`allOf`/`anyOf`/`oneOf`/`not`), marking only the single entry node of the
traversal as is-root", and it "must not skip nodes added by earlier rules
within the same rule's pass", so the children of the transformed node are
visited.  Recursion is fueled; the entry point supplies `jsize` of the tree,
which the totality lemmas show is enough for the built-in rules. -/

/-- Visit a candidate child: only objects are schema nodes. -/
def goElem (g : JSON → Except Unit JSON) (v : JSON) : Except Unit JSON :=
  if isObj v then g v else .ok v

/-- Visit the object elements of a child array. -/
def goList (g : JSON → Except Unit JSON) : List JSON → Except Unit (List JSON)
  | [] => .ok []
  | x :: xs =>
    match goElem g x, goList g xs with
    | .ok y, .ok ys => .ok (y :: ys)
    | .error e, _ => .error e
    | _, .error e => .error e

/-- Visit the object values of a name-to-schema map. -/
def goMap (g : JSON → Except Unit JSON) :
    List (String × JSON) → Except Unit (List (String × JSON))
  | [] => .ok []
  | (k, v) :: xs =>
    match goElem g v, goMap g xs with
    | .ok y, .ok ys => .ok ((k, y) :: ys)
    | .error e, _ => .error e
    | _, .error e => .error e

/-- Visit the children reachable through one field of a node. -/
def travField (g : JSON → Except Unit JSON) (k : String) (v : JSON) :
    Except Unit JSON :=
  if k ∈ mapChildKeys then
    match v with
    | .obj m =>
      match goMap g m with
      | .ok m' => .ok (.obj m')
      | .error e => .error e
    | _ => .ok v
  else if k ∈ listChildKeys then
    match v with
    | .obj _ => g v
    | .arr l =>
      match goList g l with
      | .ok l' => .ok (.arr l')
      | .error e => .error e
    | _ => .ok v
  else if k ∈ oneChildKeys then goElem g v
  else .ok v

/-- Visit the children reachable through a field list. -/
def goFields (g : JSON → Except Unit JSON) :
    List (String × JSON) → Except Unit (List (String × JSON))
  | [] => .ok []
  | (k, v) :: xs =>
    match travField g k v, goFields g xs with
    | .ok v', .ok xs' => .ok ((k, v') :: xs')
    | .error e, _ => .error e
    | _, .error e => .error e

/-- Pre-order traversal applying `f` to the node first (with the is-root
flag), then recursing into the children of the transformed node. -/
def traverse (f : JSON → Bool → Except Unit JSON) :
    Nat → JSON → Bool → Except Unit JSON
  | 0, _, _ => .error ()
  | fuel + 1, s, isRoot =>
    match f s isRoot with
    | .error e => .error e
    | .ok s' =>
      match s' with
      | .obj fields =>
        match goFields (fun c => traverse f fuel c false) fields with
        | .ok fields' => .ok (.obj fields')
        | .error e => .error e
      | x => .ok x

/-! ### The rules of `src/normalizer.ts` -/

/-- Options consumed by the normalizer.  The other options of the source
`Options` interface do not affect normalization and are omitted; the
`normalizerRules` member is passed to `normalize` as a separate argument to
break the type-level circularity between `Options` and `Rule`. -/
structure Options where
  ignoreMinAndMaxItems : Bool := false

/-- The source `Rule` type: (schema, rootSchema, fileName, options, isRoot).
The result is in `Except` because the items rule can throw (invalid JS array
length). -/
abbrev RuleFn := JSON → JSON → String → Options → Bool → Except Unit JSON

/-- Source `hasType`: `schema.type === type || (Array.isArray(schema.type) &&
schema.type.includes(type))`. -/
def hasType (schema : JSON) (t : String) : Bool :=
  (match getF schema "type" with
   | some (.str s) => s == t
   | _ => false) ||
  (match getF schema "type" with
   | some (.arr l) => l.any (fun v => match v with | .str s => s == t | _ => false)
   | _ => false)

/-- Source `isObjectType`. -/
def isObjectType (schema : JSON) : Bool :=
  (getF schema "properties").isSome || hasType schema "object" || hasType schema "any"

/-- Source `isArrayType`. -/
def isArrayType (schema : JSON) : Bool :=
  (getF schema "items").isSome || hasType schema "array" || hasType schema "any"

/-- Rule `Remove type=["null"] if enum=[null]`. -/
def ruleRemoveNullFromType : RuleFn := fun schema _root _file _o _isRoot =>
  match getF schema "enum", getF schema "type" with
  | some (.arr es), some (.arr ts) =>
    if es.any (fun e => match e with | .null => true | _ => false) &&
        ts.any (fun t => match t with | .str s => s == "null" | _ => false) then
      .ok (setF schema "type"
        (.arr (ts.filter (fun t => match t with | .str s => s != "null" | _ => true))))
    else .ok schema
  | _, _ => .ok schema

/-- Rule `Destructure unary types`.  The source guard is `schema.type &&
Array.isArray(schema.type) && schema.type.length === 1`; the truthiness test
is subsumed since arrays are truthy. -/
def ruleDestructureUnaryTypes : RuleFn := fun schema _root _file _o _isRoot =>
  match getF schema "type" with
  | some (.arr [x]) => .ok (setF schema "type" x)
  | _ => .ok schema

/-- Rule `Add empty required property if none is defined`. -/
def ruleAddEmptyRequired : RuleFn := fun schema _root _file _o _isRoot =>
  if isObjectType schema && !(hasKey schema "required") then
    .ok (setF schema "required" (.arr []))
  else .ok schema

/-- Rule `Transform required=false to required=[]`. -/
def ruleRequiredFalseToEmpty : RuleFn := fun schema _root _file _o _isRoot =>
  match getF schema "required" with
  | some (.bool false) => .ok (setF schema "required" (.arr []))
  | _ => .ok schema

/-- Rule `Default additionalProperties to true`. -/
def ruleDefaultAdditionalProps : RuleFn := fun schema _root _file _o _isRoot =>
  if isObjectType schema && !(hasKey schema "additionalProperties") &&
      (getF schema "patternProperties").isNone then
    .ok (setF schema "additionalProperties" (.bool true))
  else .ok schema

/-- Modelled from the spec: `justName` in `utils` is not part of `src/`.  The
spec says the root id is derived "from a caller-supplied file name"; take the
part after the last path separator up to the extension. -/
def justName (fileName : String) : String :=
  .mk ((fileName.data.foldl
    (fun acc c => if c = '/' then [] else acc ++ [c]) []).takeWhile
      (fun c => c != '.'))

/-- Modelled from the spec: `toSafeString` in `utils` is not part of `src/`.
The spec says the file name is "transformed into an identifier-safe string";
keep the alphanumeric characters. -/
def toSafeString (s : String) : String := .mk (s.data.filter Char.isAlphanum)

/-- Rule `Default top level id`. -/
def ruleDefaultTopLevelId : RuleFn := fun schema _root file _o isRoot =>
  if isRoot && !(truthyO (getF schema "id")) then
    .ok (setF schema "id" (.str (toSafeString (justName file))))
  else .ok schema

/-- Escape every occurrence of the two-character block-comment terminator. -/
def escChars : List Char → List Char
  | [] => []
  | '*' :: '/' :: rest => '*' :: '\\' :: '/' :: escChars rest
  | c :: rest => c :: escChars rest

/-- Modelled from the spec: `escapeBlockComment` in `utils` is not part of
`src/`.  Per spec rule 7 it escapes "any token sequence inside descriptive
text fields that would prematurely terminate a block-style comment". -/
def escapeBlockComment (s : String) : String := .mk (escChars s.data)

/-- Rule `Escape closing JSDoc Comment`, applied to the descriptive text
field `description`. -/
def ruleEscapeBlockComment : RuleFn := fun schema _root _file _o _isRoot =>
  match getF schema "description" with
  | some (.str d) => .ok (setF schema "description" (.str (escapeBlockComment d)))
  | _ => .ok schema

/-- Rule `Optionally remove maxItems and minItems`. -/
def ruleRemoveMaxMinItems : RuleFn := fun schema _root _file o _isRoot =>
  if o.ignoreMinAndMaxItems then
    .ok (delF (delF schema "maxItems") "minItems")
  else .ok schema

/-- Rule `Normalise schema.minItems`. -/
def ruleNormaliseMinItems : RuleFn := fun schema _root _file o _isRoot =>
  if o.ignoreMinAndMaxItems then .ok schema
  else if isArrayType schema then
    .ok (setF schema "minItems"
      (match getF schema "minItems" with
       | some (.num m) => .num m
       | _ => .num 0))
  else .ok schema

/-- JS `a || b` restricted to the shapes the items rule uses. -/
def jsOr (a : Option JSON) (b : JSON) : JSON :=
  match a with
  | some v => if truthy v then v else b
  | none => b

/-- JS `Array(len).fill(x)`: a numeric length builds that many copies (and
throws on a negative length); any other argument builds the one-element
array holding it, whose single slot `fill` then overwrites. -/
def jsArrayFill (len : JSON) (x : JSON) : Except Unit (List JSON) :=
  match len with
  | .num n => if n < 0 then .error () else .ok (List.replicate n.toNat x)
  | _ => .ok [x]

/-- Rule `Normalize schema.items`. -/
def ruleNormalizeItems : RuleFn := fun schema _root _file o _isRoot =>
  if o.ignoreMinAndMaxItems then .ok schema
  else
    let maxItems := getF schema "maxItems"
    let minItems := getF schema "minItems"
    let hasMaxItems : Bool :=
      match maxItems with | some (.num n) => decide (0 ≤ n) | _ => false
    let hasMinItems : Bool :=
      match minItems with | some (.num m) => decide (0 < m) | _ => false
    let step1 : Except Unit JSON :=
      match getF schema "items" with
      | some items =>
        if truthy items && !(isArr items) && (hasMaxItems || hasMinItems) then
          match jsArrayFill (jsOr maxItems (jsOr minItems (.num 0))) items with
          | .error e => .error e
          | .ok newItems =>
            let schema1 :=
              if !hasMaxItems then setF schema "additionalItems" items else schema
            .ok (setF schema1 "items" (.arr newItems))
        else .ok schema
      | none => .ok schema
    match step1 with
    | .error e => .error e
    | .ok schema1 =>
      match getF schema1 "items", maxItems with
      | some (.arr l), some (.num n) =>
        if hasMaxItems && decide (n < (l.length : Int)) then
          .ok (setF schema1 "items" (.arr (l.take n.toNat)))
        else .ok schema1
      | _, _ => .ok schema1

/-- Rule `Transform $defs to definitions`. -/
def ruleDefsToDefinitions : RuleFn := fun schema _root _file _o _isRoot =>
  match getF schema "$defs" with
  | some d =>
    if truthy d then .ok (delF (setF schema "definitions" d) "$defs")
    else .ok schema
  | none => .ok schema

/-- Rule `Transform const to singleton enum`. -/
def ruleConstToEnum : RuleFn := fun schema _root _file _o _isRoot =>
  match getF schema "const" with
  | some c =>
    if truthy c then .ok (delF (setF schema "enum" (.arr [c])) "const")
    else .ok schema
  | none => .ok schema

/-! ### The rule registry and the normalizer entry point -/

/-- JS `Map.set` on an insertion-ordered map: update in place when the key
exists, append otherwise. -/
def mapSet {α : Type} (m : List (String × α)) (k : String) (v : α) :
    List (String × α) :=
  if m.any (fun p => p.1 = k) then
    m.map (fun p => if p.1 = k then (k, v) else p)
  else m ++ [(k, v)]

/-- The built-in rule registry, built by the `rules.set` calls of the source
in their order. -/
def rules : List (String × RuleFn) :=
  mapSet (mapSet (mapSet (mapSet (mapSet (mapSet (mapSet (mapSet (mapSet
    (mapSet (mapSet (mapSet []
      "Remove `type=[\"null\"]` if `enum=[null]`" ruleRemoveNullFromType)
      "Destructure unary types" ruleDestructureUnaryTypes)
      "Add empty `required` property if none is defined" ruleAddEmptyRequired)
      "Transform `required`=false to `required`=[]" ruleRequiredFalseToEmpty)
      "Default additionalProperties to true" ruleDefaultAdditionalProps)
      "Default top level `id`" ruleDefaultTopLevelId)
      "Escape closing JSDoc Comment" ruleEscapeBlockComment)
      "Optionally remove maxItems and minItems" ruleRemoveMaxMinItems)
      "Normalise schema.minItems" ruleNormaliseMinItems)
      "Normalize schema.items" ruleNormalizeItems)
      "Transform $defs to definitions" ruleDefsToDefinitions)
      "Transform const to singleton enum" ruleConstToEnum

/-- Deep copy of the input; the identity on immutable values. -/
def cloneDeep (s : JSON) : JSON := s

/-- One full pass of one rule over the tree (`apply` in the source): the rule
receives the pass-start tree as the root schema. -/
def applyRule (file : String) (o : Options) (r : RuleFn) (t : JSON) :
    Except Unit JSON :=
  traverse (fun s isRoot => r s t file o isRoot) (jsize t) t true

/-- Apply the rules of a registry in order, one full pass each. -/
def runRules (file : String) (o : Options) :
    List (String × RuleFn) → JSON → Except Unit JSON
  | [], t => .ok t
  | (_, r) :: rest, t =>
    match applyRule file o r t with
    | .ok t' => runRules file o rest t'
    | .error e => .error e

/-- Source `normalize`: deep-copy the input, apply every built-in rule, then
every caller-supplied rule (`options.normalizerRules`, here an explicit
argument). -/
def normalize (schema : JSON) (filename : String) (o : Options)
    (normalizerRules : List (String × RuleFn)) : Except Unit JSON :=
  match runRules filename o rules (cloneDeep schema) with
  | .ok t => runRules filename o normalizerRules t
  | .error e => .error e

/-- The default options of the source, restricted to the modelled fields. -/
def defaultOptions : Options := {}

/-! ### Basic lemmas about the JS object operations -/

theorem isObj_of_getF {s : JSON} {k : String} {v : JSON}
    (h : getF s k = some v) : isObj s = true := by
  cases s <;> simp_all [getF, isObj]

theorem lookupF_setFL_self (l : List (String × JSON)) (k : String) (v : JSON) :
    lookupF (setFL l k v) k = some v := by
  induction l with
  | nil => simp [setFL, lookupF]
  | cons p rest ih =>
    obtain ⟨k', v'⟩ := p
    by_cases hk : k' = k
    · simp [setFL, hk, lookupF]
    · simp [setFL, hk, lookupF, ih]

theorem lookupF_setFL_ne (l : List (String × JSON)) (k k' : String) (v : JSON)
    (h : k' ≠ k) : lookupF (setFL l k v) k' = lookupF l k' := by
  have hkk : ¬ k = k' := fun h2 => h h2.symm
  induction l with
  | nil => simp [setFL, lookupF, hkk]
  | cons p rest ih =>
    obtain ⟨k0, v0⟩ := p
    by_cases hk : k0 = k
    · subst hk
      simp [setFL, lookupF, hkk]
    · simp [setFL, hk, lookupF, ih]

theorem getF_setF_self {s : JSON} (hs : isObj s = true) (k : String) (v : JSON) :
    getF (setF s k v) k = some v := by
  cases s
  case obj fields => simp [setF, getF, lookupF_setFL_self]
  all_goals simp [isObj] at hs

theorem getF_setF_ne (s : JSON) {k k' : String} (v : JSON) (h : k' ≠ k) :
    getF (setF s k v) k' = getF s k' := by
  cases s <;> simp [setF, getF, lookupF_setFL_ne _ _ _ _ h]

theorem lookupF_delFL_self (l : List (String × JSON)) (k : String) :
    lookupF (delFL l k) k = none := by
  induction l with
  | nil => simp [delFL, lookupF]
  | cons p rest ih =>
    obtain ⟨k', v'⟩ := p
    by_cases hk : k' = k
    · simp [delFL, hk, ih]
    · simp [delFL, hk, lookupF, ih]

theorem lookupF_delFL_ne (l : List (String × JSON)) (k k' : String)
    (h : k' ≠ k) : lookupF (delFL l k) k' = lookupF l k' := by
  have hkk : ¬ k = k' := fun h2 => h h2.symm
  induction l with
  | nil => simp [delFL, lookupF]
  | cons p rest ih =>
    obtain ⟨k0, v0⟩ := p
    by_cases hk : k0 = k
    · subst hk
      simp [delFL, lookupF, hkk, ih]
    · simp [delFL, hk, lookupF, ih]

theorem getF_delF_self (s : JSON) (k : String) : getF (delF s k) k = none := by
  cases s <;> simp [delF, getF, lookupF_delFL_self]

theorem getF_delF_ne (s : JSON) {k k' : String} (h : k' ≠ k) :
    getF (delF s k) k' = getF s k' := by
  cases s <;> simp [delF, getF, lookupF_delFL_ne _ _ _ h]

theorem setFL_lookupF_self {l : List (String × JSON)} {k : String} {v : JSON}
    (h : lookupF l k = some v) : setFL l k v = l := by
  induction l with
  | nil => simp [lookupF] at h
  | cons p rest ih =>
    obtain ⟨k', v'⟩ := p
    by_cases hk : k' = k
    · subst hk
      simp [lookupF] at h
      simp [setFL, h]
    · simp [lookupF, hk] at h
      simp [setFL, hk, ih h]

theorem setF_of_getF_eq {s : JSON} {k : String} {v : JSON}
    (h : getF s k = some v) : setF s k v = s := by
  cases s
  case obj fields =>
    simp [getF] at h
    simp [setF, setFL_lookupF_self h]
  all_goals simp [getF] at h

theorem hasKey_eq_isSome_getF (s : JSON) (k : String) :
    hasKey s k = (getF s k).isSome := by
  cases s
  case obj fields =>
    simp only [hasKey, getF]
    induction fields with
    | nil => simp [lookupF]
    | cons p rest ih =>
      obtain ⟨k', v'⟩ := p
      by_cases hk : k' = k
      · simp [lookupF, hk]
      · simp [lookupF, hk, ih]
  all_goals simp [hasKey, getF]

theorem delFL_of_lookupF_none {l : List (String × JSON)} {k : String}
    (h : lookupF l k = none) : delFL l k = l := by
  induction l with
  | nil => simp [delFL]
  | cons p rest ih =>
    obtain ⟨k', v'⟩ := p
    by_cases hk : k' = k
    · simp [lookupF, hk] at h
    · simp [lookupF, hk] at h
      simp [delFL, hk, ih h]

theorem delF_of_getF_none {s : JSON} {k : String} (h : getF s k = none) :
    delF s k = s := by
  cases s
  case obj fields =>
    simp [getF] at h
    simp [delF, delFL_of_lookupF_none h]
  all_goals rfl

theorem isObj_setF (s : JSON) (k : String) (v : JSON) :
    isObj (setF s k v) = isObj s := by
  cases s <;> simp [setF, isObj]

theorem isObj_delF (s : JSON) (k : String) :
    isObj (delF s k) = isObj s := by
  cases s <;> simp [delF, isObj]

/-! ### Claim C3: const folding -/

/-- Claim C3, counterexample: a falsy `const` (here `0`) is not folded into
`enum` by normalization: the `const` key survives and no `enum` is added,
because the rule's guard `if (schema.const)` tests JS truthiness rather than
key presence. -/
theorem c3_const_falsy_cex :
    (normalize (.obj [("const", .num 0)]) "f" defaultOptions []).map
        (fun t => (getF t "const", getF t "enum")) =
      .ok (some (.num 0), none) := rfl

/-- Claim C3 (amended): for a schema node whose `const` value is truthy, the
const rule replaces it by the singleton `enum` and deletes `const`; for a
falsy `const` value (0, the empty string, `false`, `null`) the node is left
unchanged, so a falsy `const` can coexist with `enum` after normalization. -/
theorem c3_const_to_enum_amended (s root : JSON) (file : String) (o : Options)
    (isRoot : Bool) (c : JSON) (h : getF s "const" = some c) :
    (truthy c = true →
      ruleConstToEnum s root file o isRoot =
        .ok (delF (setF s "enum" (.arr [c])) "const")) ∧
    (truthy c = false → ruleConstToEnum s root file o isRoot = .ok s) := by
  constructor <;> intro ht <;> simp [ruleConstToEnum, h, ht]

/-- Witness for `c3_const_to_enum_amended` at `const: "red"`: the rule yields
`enum: ["red"]` with the `const` key removed. -/
theorem c3_const_to_enum_amended_witness :
    getF (.obj [("const", .str "red")]) "const" = some (.str "red") ∧
    ruleConstToEnum (.obj [("const", .str "red")]) .null "f" defaultOptions
        false =
      .ok (.obj [("enum", .arr [.str "red"])]) :=
  ⟨rfl, (c3_const_to_enum_amended (.obj [("const", .str "red")]) .null "f"
    defaultOptions false (.str "red") rfl).1 rfl⟩

/-! ### Claim C4: $defs renaming -/

/-- Claim C4, counterexample: `$defs` is assigned over `definitions`
wholesale: the pre-existing, non-colliding `definitions` entry `b` is
discarded rather than merged. -/
theorem c4_defs_overwrite_cex :
    (normalize (.obj [("$defs", .obj [("a", .obj [("type", .str "string")])]),
        ("definitions", .obj [("b", .obj [("type", .str "number")])])])
        "f" defaultOptions []).map (fun t => getF t "definitions") =
      .ok (some (.obj [("a", .obj [("type", .str "string")])])) := rfl

/-- Claim C4 (amended): for a schema node with a truthy `$defs`, the rule
assigns `definitions := $defs` wholesale — discarding every pre-existing
`definitions` entry, colliding or not — and deletes `$defs`; a falsy `$defs`
is left alone. -/
theorem c4_defs_to_definitions_amended (s root : JSON) (file : String)
    (o : Options) (isRoot : Bool) (d : JSON) (h : getF s "$defs" = some d) :
    (truthy d = true →
      ruleDefsToDefinitions s root file o isRoot =
        .ok (delF (setF s "definitions" d) "$defs")) ∧
    (truthy d = false → ruleDefsToDefinitions s root file o isRoot = .ok s) := by
  constructor <;> intro ht <;> simp [ruleDefsToDefinitions, h, ht]

/-- Witness for `c4_defs_to_definitions_amended`: with both `$defs: {a: {}}`
and `definitions: {b: {}}` present, the rule leaves `definitions: {a: {}}`,
dropping the non-colliding entry `b`. -/
theorem c4_defs_to_definitions_amended_witness :
    getF (.obj [("$defs", .obj [("a", .obj [])]),
        ("definitions", .obj [("b", .obj [])])]) "$defs" =
      some (.obj [("a", .obj [])]) ∧
    ruleDefsToDefinitions (.obj [("$defs", .obj [("a", .obj [])]),
        ("definitions", .obj [("b", .obj [])])]) .null "f" defaultOptions
        false =
      .ok (.obj [("definitions", .obj [("a", .obj [])])]) :=
  ⟨rfl, (c4_defs_to_definitions_amended (.obj [("$defs", .obj [("a", .obj [])]),
    ("definitions", .obj [("b", .obj [])])]) .null "f" defaultOptions false
    (.obj [("a", .obj [])]) rfl).1 rfl⟩

/-! ### Claim C6: enum-null plus unary type destructuring -/

/-- Claim C6: a node with `enum: [null]` and `type: ["string","null"]`
normalizes to `type: "string"` (the enum-null rule removes `"null"` from the
type array and the unary-type rule then destructures the singleton array),
while `enum: [null]` is preserved unchanged. -/
theorem c6_enum_null_type_destructure :
    (normalize (.obj [("enum", .arr [.null]),
        ("type", .arr [.str "string", .str "null"])]) "file" defaultOptions
        []).map (fun t => (getF t "type", getF t "enum")) =
      .ok (some (.str "string"), some (.arr [.null])) := rfl

/-! ### Claim C10: default top-level id -/

/-- Claim C10: the default-id rule overwrites the root id whenever it is
falsy — in particular when it is the empty string, not only when absent —
with the identifier derived from the file name, and never assigns an id to a
non-root node. -/
theorem c10_default_id_rule (s root : JSON) (file : String) (o : Options) :
    (truthyO (getF s "id") = false →
      ruleDefaultTopLevelId s root file o true =
        .ok (setF s "id" (.str (toSafeString (justName file))))) ∧
    ruleDefaultTopLevelId s root file o false = .ok s := by
  constructor
  · intro h
    simp [ruleDefaultTopLevelId, h]
  · simp [ruleDefaultTopLevelId]

/-- Witness for `c10_default_id_rule`: a root with `id: ""` is overwritten
with the file-derived identifier; the same node as a non-root is untouched. -/
theorem c10_default_id_rule_witness :
    truthyO (getF (.obj [("id", .str "")]) "id") = false ∧
    ruleDefaultTopLevelId (.obj [("id", .str "")]) .null "dir/file.json"
        defaultOptions true = .ok (.obj [("id", .str "file")]) ∧
    ruleDefaultTopLevelId (.obj [("id", .str "")]) .null "dir/file.json"
        defaultOptions false = .ok (.obj [("id", .str "")]) :=
  ⟨rfl,
    (c10_default_id_rule (.obj [("id", .str "")]) .null "dir/file.json"
      defaultOptions).1 rfl,
    (c10_default_id_rule (.obj [("id", .str "")]) .null "dir/file.json"
      defaultOptions).2⟩

/-! ### Claim C5: tuple expansion with minItems only -/

/-- Claim C5: for a node whose `items` is a single (truthy, non-array)
schema, whose `minItems` is a positive number `m`, and which has no
`maxItems`, the items rule (with `ignoreMinAndMaxItems` unset) replaces
`items` with `m` copies of that schema and sets `additionalItems` to the
original single schema. -/
theorem c5_items_minItems_tuple (s root : JSON) (file : String) (o : Options)
    (isRoot : Bool) (it : JSON) (m : Int)
    (ho : o.ignoreMinAndMaxItems = false)
    (hit : getF s "items" = some it) (htr : truthy it = true)
    (hna : isArr it = false)
    (hmin : getF s "minItems" = some (.num m)) (hm : 0 < m)
    (hmax : getF s "maxItems" = none) :
    ruleNormalizeItems s root file o isRoot =
      .ok (setF (setF s "additionalItems" it) "items"
        (.arr (List.replicate m.toNat it))) := by
  have hobj : isObj s = true := isObj_of_getF hit
  have htm : truthy (.num m) = true := by simp [truthy]; omega
  have hdm : decide (0 < m) = true := by simp [hm]
  have hmneg : ¬ m < 0 := by omega
  have hget : getF (setF (setF s "additionalItems" it) "items"
      (.arr (List.replicate m.toNat it))) "items" =
      some (.arr (List.replicate m.toNat it)) :=
    getF_setF_self (by rw [isObj_setF]; exact hobj) _ _
  simp only [ruleNormalizeItems, ho, hit, htr, hna, hmin, hmax, jsOr,
    jsArrayFill, htm, hdm, hget, Bool.false_eq_true, if_false, if_true,
    Bool.not_false, Bool.true_and, Bool.and_true, Bool.or_true,
    Bool.false_or, Bool.or_false, if_neg hmneg]

/-- Witness for `c5_items_minItems_tuple`: `items: {type: "string"},
minItems: 2` (no `maxItems`) becomes a 2-tuple with
`additionalItems: {type: "string"}`. -/
theorem c5_items_minItems_tuple_witness :
    ruleNormalizeItems
        (.obj [("items", .obj [("type", .str "string")]), ("minItems", .num 2)])
        .null "f" defaultOptions false =
      .ok (.obj [("items",
          .arr [.obj [("type", .str "string")], .obj [("type", .str "string")]]),
        ("minItems", .num 2),
        ("additionalItems", .obj [("type", .str "string")])]) :=
  c5_items_minItems_tuple
    (.obj [("items", .obj [("type", .str "string")]), ("minItems", .num 2)])
    .null "f" defaultOptions false (.obj [("type", .str "string")]) 2
    rfl rfl rfl rfl rfl (by omega) rfl

/-! ### Claim C2: tuple expansion with maxItems -/

theorem c2_items_concl_one (s : JSON) (hobj : isObj s = true) (l : List JSON) :
    getF (setF s "items" (.arr l)) "items" = some (.arr l) ∧
    getF (setF s "items" (.arr l)) "additionalItems" = getF s "additionalItems" :=
  ⟨getF_setF_self hobj _ _, getF_setF_ne s _ (by decide)⟩

theorem c2_items_concl_two (s : JSON) (hobj : isObj s = true)
    (l l2 : List JSON) :
    getF (setF (setF s "items" (.arr l)) "items" (.arr l2)) "items" =
      some (.arr l2) ∧
    getF (setF (setF s "items" (.arr l)) "items" (.arr l2))
        "additionalItems" = getF s "additionalItems" := by
  refine ⟨getF_setF_self (by rw [isObj_setF]; exact hobj) _ _, ?_⟩
  rw [getF_setF_ne _ _ (by decide), getF_setF_ne _ _ (by decide)]

/-- Claim C2: for a node whose `items` is a single (truthy, non-array)
schema and whose `maxItems` is a non-negative number `n`, whenever the items
rule (with `ignoreMinAndMaxItems` unset) succeeds it replaces `items` with
exactly `n` copies of that schema and leaves `additionalItems` untouched —
in particular `maxItems = 0` yields an empty `items` array (via the
truncation step) even when `minItems` is positive. -/
theorem c2_items_maxItems_copies (s root : JSON) (file : String) (o : Options)
    (isRoot : Bool) (it : JSON) (n : Int) (s' : JSON)
    (ho : o.ignoreMinAndMaxItems = false)
    (hit : getF s "items" = some it) (htr : truthy it = true)
    (hna : isArr it = false)
    (hmax : getF s "maxItems" = some (.num n)) (hn : 0 ≤ n)
    (hok : ruleNormalizeItems s root file o isRoot = .ok s') :
    getF s' "items" = some (.arr (List.replicate n.toNat it)) ∧
    getF s' "additionalItems" = getF s "additionalItems" := by
  have hobj : isObj s = true := isObj_of_getF hit
  rcases eq_or_lt_of_le hn with hzero | hpos
  · -- maxItems = 0: the expansion length falls back to minItems (or 0) and
    -- the truncation step then cuts the items array to length 0.
    subst hzero
    have ht0 : truthy (.num 0) = false := rfl
    rcases hminv : getF s "minItems" with _ | v
    ·
      simp only [ruleNormalizeItems, ho, hit, htr, hna, hmax, jsOr,
        jsArrayFill, List.length_nil, List.length_cons, List.replicate_zero,
        List.length_replicate, Int.toNat_zero, List.take_zero,
        Bool.not_true, Bool.not_false, Bool.true_and, Bool.and_true,
        Bool.false_and, Bool.and_false, Bool.or_false, Bool.false_or,
        Bool.true_or, Bool.or_true, Bool.false_eq_true, eq_self_iff_true,
        if_false, if_true,
        ht0, hminv,
        show decide ((0:Int) ≤ 0) = true from rfl,
        show ¬ ((0:Int) < 0) from by omega,
        show decide ((0:Int) < ((0:Nat):Int)) = false from rfl,
        getF_setF_self hobj] at hok
      cases hok
      exact c2_items_concl_one s hobj []
    · match v with
      | .num m =>
        by_cases hm0 : m = 0
        · subst hm0
          simp only [ruleNormalizeItems, ho, hit, htr, hna, hmax, jsOr,
            jsArrayFill, List.length_nil, List.length_cons, List.replicate_zero,
            List.length_replicate, Int.toNat_zero, List.take_zero,
            Bool.not_true, Bool.not_false, Bool.true_and, Bool.and_true,
            Bool.false_and, Bool.and_false, Bool.or_false, Bool.false_or,
            Bool.true_or, Bool.or_true, Bool.false_eq_true, eq_self_iff_true,
            if_false, if_true,
            ht0, hminv,
            show decide ((0:Int) ≤ 0) = true from rfl,
            show ¬ ((0:Int) < 0) from by omega,
            show decide ((0:Int) < ((0:Nat):Int)) = false from rfl,
            getF_setF_self hobj] at hok
          cases hok
          exact c2_items_concl_one s hobj []
        · by_cases hmneg : m < 0
          · -- a negative numeric minItems with maxItems = 0 makes the rule
            -- throw, contradicting the success hypothesis
            have htm : truthy (.num m) = true := by simp [truthy]; omega
            simp only [ruleNormalizeItems, ho, hit, htr, hna, hmax, jsOr,
              jsArrayFill, List.length_nil, List.length_cons, List.replicate_zero,
              List.length_replicate, Int.toNat_zero, List.take_zero,
              Bool.not_true, Bool.not_false, Bool.true_and, Bool.and_true,
              Bool.false_and, Bool.and_false, Bool.or_false, Bool.false_or,
              Bool.true_or, Bool.or_true, Bool.false_eq_true, eq_self_iff_true,
              if_false, if_true,
              ht0, hminv,
              show decide ((0:Int) ≤ 0) = true from rfl,
              htm, hmneg] at hok
            cases hok
          · have hmpos : 0 < m := by omega
            have htm : truthy (.num m) = true := by simp [truthy]; omega
            have hgt : decide ((0:Int) < ((m.toNat : Nat) : Int)) = true := by
              simp
              omega
            simp only [ruleNormalizeItems, ho, hit, htr, hna, hmax, jsOr,
              jsArrayFill, List.length_nil, List.length_cons, List.replicate_zero,
              List.length_replicate, Int.toNat_zero, List.take_zero,
              Bool.not_true, Bool.not_false, Bool.true_and, Bool.and_true,
              Bool.false_and, Bool.and_false, Bool.or_false, Bool.false_or,
              Bool.true_or, Bool.or_true, Bool.false_eq_true, eq_self_iff_true,
              if_false, if_true,
              ht0, hminv,
              show decide ((0:Int) ≤ 0) = true from rfl,
              htm, show ¬ m < 0 from by omega, getF_setF_self hobj, hgt] at hok
            cases hok
            exact c2_items_concl_two s hobj _ []
      | .null =>
        simp only [ruleNormalizeItems, ho, hit, htr, hna, hmax, jsOr,
          jsArrayFill, List.length_nil, List.length_cons, List.replicate_zero,
          List.length_replicate, Int.toNat_zero, List.take_zero,
          Bool.not_true, Bool.not_false, Bool.true_and, Bool.and_true,
          Bool.false_and, Bool.and_false, Bool.or_false, Bool.false_or,
          Bool.true_or, Bool.or_true, Bool.false_eq_true, eq_self_iff_true,
          if_false, if_true,
          ht0, hminv,
          show decide ((0:Int) ≤ 0) = true from rfl,
          show truthy JSON.null = false from rfl,
          show ¬ ((0:Int) < 0) from by omega,
          show decide ((0:Int) < ((0:Nat):Int)) = false from rfl,
          getF_setF_self hobj] at hok
        cases hok
        exact c2_items_concl_one s hobj []
      | .bool b =>
        match b with
        | false =>
          simp only [ruleNormalizeItems, ho, hit, htr, hna, hmax, jsOr,
            jsArrayFill, List.length_nil, List.length_cons, List.replicate_zero,
            List.length_replicate, Int.toNat_zero, List.take_zero,
            Bool.not_true, Bool.not_false, Bool.true_and, Bool.and_true,
            Bool.false_and, Bool.and_false, Bool.or_false, Bool.false_or,
            Bool.true_or, Bool.or_true, Bool.false_eq_true, eq_self_iff_true,
            if_false, if_true,
            ht0, hminv,
            show decide ((0:Int) ≤ 0) = true from rfl,
            show truthy (JSON.bool false) = false from rfl,
            show ¬ ((0:Int) < 0) from by omega,
            show decide ((0:Int) < ((0:Nat):Int)) = false from rfl,
            getF_setF_self hobj] at hok
          cases hok
          exact c2_items_concl_one s hobj []
        | true =>
          simp only [ruleNormalizeItems, ho, hit, htr, hna, hmax, jsOr,
            jsArrayFill, List.length_nil, List.length_cons, List.replicate_zero,
            List.length_replicate, Int.toNat_zero, List.take_zero,
            Bool.not_true, Bool.not_false, Bool.true_and, Bool.and_true,
            Bool.false_and, Bool.and_false, Bool.or_false, Bool.false_or,
            Bool.true_or, Bool.or_true, Bool.false_eq_true, eq_self_iff_true,
            if_false, if_true,
            ht0, hminv,
            show decide ((0:Int) ≤ 0) = true from rfl,
            show truthy (JSON.bool true) = true from rfl,
            getF_setF_self hobj,
            show decide ((0:Int) < ((1:Nat):Int)) = true from rfl] at hok
          cases hok
          exact c2_items_concl_two s hobj _ []
      | .str st =>
        by_cases hst : st = ""
        · subst hst
          simp only [ruleNormalizeItems, ho, hit, htr, hna, hmax, jsOr,
            jsArrayFill, List.length_nil, List.length_cons, List.replicate_zero,
            List.length_replicate, Int.toNat_zero, List.take_zero,
            Bool.not_true, Bool.not_false, Bool.true_and, Bool.and_true,
            Bool.false_and, Bool.and_false, Bool.or_false, Bool.false_or,
            Bool.true_or, Bool.or_true, Bool.false_eq_true, eq_self_iff_true,
            if_false, if_true,
            ht0, hminv,
            show decide ((0:Int) ≤ 0) = true from rfl,
            show truthy (JSON.str "") = false from rfl,
            show ¬ ((0:Int) < 0) from by omega,
            show decide ((0:Int) < ((0:Nat):Int)) = false from rfl,
            getF_setF_self hobj] at hok
          cases hok
          exact c2_items_concl_one s hobj []
        · have hts : truthy (.str st) = true := by simp [truthy, hst]
          simp only [ruleNormalizeItems, ho, hit, htr, hna, hmax, jsOr,
            jsArrayFill, List.length_nil, List.length_cons, List.replicate_zero,
            List.length_replicate, Int.toNat_zero, List.take_zero,
            Bool.not_true, Bool.not_false, Bool.true_and, Bool.and_true,
            Bool.false_and, Bool.and_false, Bool.or_false, Bool.false_or,
            Bool.true_or, Bool.or_true, Bool.false_eq_true, eq_self_iff_true,
            if_false, if_true,
            ht0, hminv,
            show decide ((0:Int) ≤ 0) = true from rfl,
            hts,
            getF_setF_self hobj,
            show decide ((0:Int) < ((1:Nat):Int)) = true from rfl] at hok
          cases hok
          exact c2_items_concl_two s hobj _ []
      | .arr l =>
        simp only [ruleNormalizeItems, ho, hit, htr, hna, hmax, jsOr,
          jsArrayFill, List.length_nil, List.length_cons, List.replicate_zero,
          List.length_replicate, Int.toNat_zero, List.take_zero,
          Bool.not_true, Bool.not_false, Bool.true_and, Bool.and_true,
          Bool.false_and, Bool.and_false, Bool.or_false, Bool.false_or,
          Bool.true_or, Bool.or_true, Bool.false_eq_true, eq_self_iff_true,
          if_false, if_true,
          ht0, hminv,
          show decide ((0:Int) ≤ 0) = true from rfl,
          show truthy (JSON.arr l) = true from rfl,
          getF_setF_self hobj,
          show decide ((0:Int) < ((1:Nat):Int)) = true from rfl] at hok
        cases hok
        exact c2_items_concl_two s hobj _ []
      | .obj fl =>
        simp only [ruleNormalizeItems, ho, hit, htr, hna, hmax, jsOr,
          jsArrayFill, List.length_nil, List.length_cons, List.replicate_zero,
          List.length_replicate, Int.toNat_zero, List.take_zero,
          Bool.not_true, Bool.not_false, Bool.true_and, Bool.and_true,
          Bool.false_and, Bool.and_false, Bool.or_false, Bool.false_or,
          Bool.true_or, Bool.or_true, Bool.false_eq_true, eq_self_iff_true,
          if_false, if_true,
          ht0, hminv,
          show decide ((0:Int) ≤ 0) = true from rfl,
          show truthy (JSON.obj fl) = true from rfl,
          getF_setF_self hobj,
          show decide ((0:Int) < ((1:Nat):Int)) = true from rfl] at hok
        cases hok
        exact c2_items_concl_two s hobj _ []
  · -- 0 < n: Array(n) builds the n copies directly and no truncation fires.
    have htn : truthy (.num n) = true := by simp [truthy]; omega
    have hdn : decide (0 ≤ n) = true := by simp [hn]
    have hlt : decide (n < ((n.toNat : Nat) : Int)) = false := by
      simp
      omega
    simp only [ruleNormalizeItems, ho, hit, htr, hna, hmax, jsOr,
      jsArrayFill, List.length_nil, List.length_cons, List.replicate_zero,
      List.length_replicate, Int.toNat_zero, List.take_zero,
      Bool.not_true, Bool.not_false, Bool.true_and, Bool.and_true,
      Bool.false_and, Bool.and_false, Bool.or_false, Bool.false_or,
      Bool.true_or, Bool.or_true, Bool.false_eq_true, eq_self_iff_true,
      if_false, if_true,
      htn, hdn, show ¬ n < 0 from by omega, getF_setF_self hobj, hlt] at hok
    cases hok
    exact c2_items_concl_one s hobj _

/-- Witness for `c2_items_maxItems_copies` at `items: {type: "string"},
minItems: 2, maxItems: 0`: the result has an empty `items` array and no
`additionalItems`, despite the positive `minItems`. -/
theorem c2_items_maxItems_copies_witness :
    ruleNormalizeItems
        (.obj [("items", .obj [("type", .str "string")]), ("minItems", .num 2),
          ("maxItems", .num 0)]) .null "f" defaultOptions false =
      .ok (.obj [("items", .arr []), ("minItems", .num 2),
        ("maxItems", .num 0)]) ∧
    getF (.obj [("items", .arr []), ("minItems", .num 2),
        ("maxItems", .num 0)]) "items" = some (.arr []) ∧
    getF (.obj [("items", .arr []), ("minItems", .num 2),
        ("maxItems", .num 0)]) "additionalItems" = none :=
  ⟨rfl,
    (c2_items_maxItems_copies
      (.obj [("items", .obj [("type", .str "string")]), ("minItems", .num 2),
        ("maxItems", .num 0)]) .null "f" defaultOptions false
      (.obj [("type", .str "string")]) 0
      (.obj [("items", .arr []), ("minItems", .num 2), ("maxItems", .num 0)])
      rfl rfl rfl rfl rfl (by omega) rfl).1,
    (c2_items_maxItems_copies
      (.obj [("items", .obj [("type", .str "string")]), ("minItems", .num 2),
        ("maxItems", .num 0)]) .null "f" defaultOptions false
      (.obj [("type", .str "string")]) 0
      (.obj [("items", .arr []), ("minItems", .num 2), ("maxItems", .num 0)])
      rfl rfl rfl rfl rfl (by omega) rfl).2⟩

/-! ### Claim C9: caller-supplied rules with built-in names -/

/-- Claim C9: a caller-supplied rule whose name collides with a built-in
rule's name does not replace the built-in: the collision-named custom rule's
pass runs over the output of the complete built-in normalization (every
built-in rule at its original registry position), because the source applies
`rules.forEach(apply)` and then `options.normalizerRules?.forEach(apply)` on
two separate maps. -/
theorem c9_normalizer_rules_appended (nm : String) (f : RuleFn) (s : JSON)
    (file : String) (o : Options) (_h : nm ∈ rules.map Prod.fst) :
    normalize s file o [(nm, f)] =
      (normalize s file o []).bind (fun t => applyRule file o f t) := by
  unfold normalize
  cases runRules file o rules (cloneDeep s) with
  | error e => rfl
  | ok t =>
    show runRules file o [(nm, f)] t = (runRules file o [] t).bind _
    simp only [runRules, Except.bind]
    cases applyRule file o f t <;> rfl

/-- Witness for `c9_normalizer_rules_appended`: a custom rule named like the
built-in `Destructure unary types` runs after the whole built-in pipeline. -/
theorem c9_normalizer_rules_appended_witness :
    ("Destructure unary types" ∈ rules.map Prod.fst) ∧
    normalize (.obj []) "f" defaultOptions
        [("Destructure unary types",
          fun sc _ _ _ _ => .ok (setF sc "marker" (.bool true)))] =
      (normalize (.obj []) "f" defaultOptions []).bind
        (fun t => applyRule "f" defaultOptions
          (fun sc _ _ _ _ => .ok (setF sc "marker" (.bool true))) t) :=
  ⟨by decide, c9_normalizer_rules_appended "Destructure unary types"
    (fun sc _ _ _ _ => .ok (setF sc "marker" (.bool true))) (.obj []) "f"
    defaultOptions (by decide)⟩

/-! ### Shape of a rebuilt node

The traversal rebuilds a transformed node by mapping the child-visiting
function over its fields.  `NodeShapeEq y t` records what that rebuild
preserves: non-child fields verbatim, the key set, and for every field the
value's coarse shape (objects stay objects, arrays keep their length,
anything else is untouched). -/

/-- Coarse value shape preserved by the child rebuild. -/
def ValShape (v v' : JSON) : Prop :=
  (isObj v = true ∧ isObj v' = true) ∨
  (∃ l l', v = .arr l ∧ v' = .arr l' ∧ l.length = l'.length) ∨ v' = v

/-- Lift of `ValShape` to possibly-absent values. -/
def OptValShape : Option JSON → Option JSON → Prop
  | none, none => True
  | some v, some v' => ValShape v v'
  | _, _ => False

/-- What the traversal rebuild preserves between the rule-transformed node
`y` and the final visited node `t`. -/
def NodeShapeEq (y t : JSON) : Prop :=
  (∀ k, ¬ k ∈ childKeys → getF t k = getF y k) ∧
  (∀ k, hasKey t k = hasKey y k) ∧
  (∀ k, OptValShape (getF y k) (getF t k))

theorem valShape_refl (v : JSON) : ValShape v v := Or.inr (Or.inr rfl)

theorem nodeShapeEq_refl (v : JSON) : NodeShapeEq v v :=
  ⟨fun _ _ => rfl, fun _ => rfl, fun k => by
    cases getF v k <;> simp [OptValShape, valShape_refl]⟩

/-! ### Behaviour of the rebuild helpers -/

theorem goList_run {g : JSON → Except Unit JSON} {Q : JSON → Prop} :
    ∀ l : List JSON,
      (∀ c ∈ l.filter isObj, ∃ y, g c = .ok y ∧ Q y ∧ isObj y = true) →
      ∃ l', goList g l = .ok l' ∧ l'.length = l.length ∧
        (∀ c' ∈ l'.filter isObj, Q c') := by
  intro l
  induction l with
  | nil => intro _; exact ⟨[], rfl, rfl, by simp⟩
  | cons x xs ih =>
    intro hg
    obtain ⟨xs', hxs, hlen, hQ⟩ := ih (fun c hc => hg c (by
      rcases List.mem_filter.1 hc with ⟨h1, h2⟩
      exact List.mem_filter.2 ⟨List.mem_cons_of_mem _ h1, h2⟩))
    by_cases hx : isObj x = true
    · obtain ⟨y, hy, hQy, hyo⟩ := hg x (List.mem_filter.2 ⟨by simp, hx⟩)
      refine ⟨y :: xs', ?_, by simp [hlen], ?_⟩
      · simp [goList, goElem, hx, hy, hxs]
      · intro c' hc'
        rcases List.mem_filter.1 hc' with ⟨h1, h2⟩
        rcases List.mem_cons.1 h1 with rfl | h3
        · exact hQy
        · exact hQ c' (List.mem_filter.2 ⟨h3, h2⟩)
    · refine ⟨x :: xs', ?_, by simp [hlen], ?_⟩
      · simp [goList, goElem, hx, hxs]
      · intro c' hc'
        rcases List.mem_filter.1 hc' with ⟨h1, h2⟩
        rcases List.mem_cons.1 h1 with rfl | h3
        · exact absurd h2 (by simp [hx])
        · exact hQ c' (List.mem_filter.2 ⟨h3, h2⟩)

theorem goMap_run {g : JSON → Except Unit JSON} {Q : JSON → Prop} :
    ∀ m : List (String × JSON),
      (∀ c ∈ (m.map Prod.snd).filter isObj,
        ∃ y, g c = .ok y ∧ Q y ∧ isObj y = true) →
      ∃ m', goMap g m = .ok m' ∧
        (∀ c' ∈ (m'.map Prod.snd).filter isObj, Q c') := by
  intro m
  induction m with
  | nil => intro _; exact ⟨[], rfl, by simp⟩
  | cons p ps ih =>
    obtain ⟨k, v⟩ := p
    intro hg
    obtain ⟨ps', hps, hQ⟩ := ih (fun c hc => hg c (by
      rcases List.mem_filter.1 hc with ⟨h1, h2⟩
      exact List.mem_filter.2 ⟨by simp at h1 ⊢; tauto, h2⟩))
    by_cases hv : isObj v = true
    · obtain ⟨y, hy, hQy, hyo⟩ := hg v (List.mem_filter.2 ⟨by simp, hv⟩)
      refine ⟨(k, y) :: ps', ?_, ?_⟩
      · simp [goMap, goElem, hv, hy, hps]
      · intro c' hc'
        rcases List.mem_filter.1 hc' with ⟨h1, h2⟩
        simp only [List.map_cons, List.mem_cons] at h1
        rcases h1 with rfl | h3
        · exact hQy
        · exact hQ c' (List.mem_filter.2 ⟨h3, h2⟩)
    · refine ⟨(k, v) :: ps', ?_, ?_⟩
      · simp [goMap, goElem, hv, hps]
      · intro c' hc'
        rcases List.mem_filter.1 hc' with ⟨h1, h2⟩
        simp only [List.map_cons, List.mem_cons] at h1
        rcases h1 with rfl | h3
        · exact absurd h2 (by simp [hv])
        · exact hQ c' (List.mem_filter.2 ⟨h3, h2⟩)

theorem travField_run {g : JSON → Except Unit JSON} {Q : JSON → Prop}
    (k : String) (v : JSON)
    (hg : ∀ c ∈ fieldChildVals k v, ∃ y, g c = .ok y ∧ Q y ∧ isObj y = true) :
    ∃ v', travField g k v = .ok v' ∧ (¬ k ∈ childKeys → v' = v) ∧
      ValShape v v' ∧ (∀ c' ∈ fieldChildVals k v', Q c') := by
  by_cases hmap : k ∈ mapChildKeys
  · have hck : k ∈ childKeys := by simp [childKeys, hmap]
    cases v with
    | obj m =>
      obtain ⟨m', hm, hQ⟩ := goMap_run m (by
        intro c hc
        apply hg
        simpa [fieldChildVals, hmap] using hc)
      refine ⟨.obj m', ?_, fun h => absurd hck h, Or.inl ⟨rfl, rfl⟩, ?_⟩
      · simp [travField, hmap, hm]
      · intro c' hc'
        exact hQ c' (by simpa [fieldChildVals, hmap] using hc')
    | null =>
      exact ⟨.null, by simp [travField, hmap], fun _ => rfl,
        valShape_refl _, by simp [fieldChildVals, hmap]⟩
    | bool b =>
      exact ⟨.bool b, by simp [travField, hmap], fun _ => rfl,
        valShape_refl _, by simp [fieldChildVals, hmap]⟩
    | num n =>
      exact ⟨.num n, by simp [travField, hmap], fun _ => rfl,
        valShape_refl _, by simp [fieldChildVals, hmap]⟩
    | str c =>
      exact ⟨.str c, by simp [travField, hmap], fun _ => rfl,
        valShape_refl _, by simp [fieldChildVals, hmap]⟩
    | arr l =>
      exact ⟨.arr l, by simp [travField, hmap], fun _ => rfl,
        valShape_refl _, by simp [fieldChildVals, hmap]⟩
  · by_cases hlist : k ∈ listChildKeys
    · have hck : k ∈ childKeys := by simp [childKeys, hlist]
      cases v with
      | obj m =>
        obtain ⟨y, hy, hQy, hyo⟩ := hg (.obj m)
          (by simp [fieldChildVals, hmap, hlist])
        cases y with
        | obj my =>
          refine ⟨.obj my, ?_, fun h => absurd hck h, Or.inl ⟨rfl, rfl⟩, ?_⟩
          · simp [travField, hmap, hlist, hy]
          · intro c' hc'
            simp [fieldChildVals, hmap, hlist] at hc'
            subst hc'
            exact hQy
        | null => simp [isObj] at hyo
        | bool b => simp [isObj] at hyo
        | num n => simp [isObj] at hyo
        | str c => simp [isObj] at hyo
        | arr l => simp [isObj] at hyo
      | arr l =>
        obtain ⟨l', hl, hlen, hQ⟩ := goList_run l (by
          intro c hc
          apply hg
          simpa [fieldChildVals, hmap, hlist] using hc)
        refine ⟨.arr l', ?_, fun h => absurd hck h,
          Or.inr (Or.inl ⟨l, l', rfl, rfl, hlen.symm⟩), ?_⟩
        · simp [travField, hmap, hlist, hl]
        · intro c' hc'
          exact hQ c' (by simpa [fieldChildVals, hmap, hlist] using hc')
      | null =>
        exact ⟨.null, by simp [travField, hmap, hlist], fun _ => rfl,
          valShape_refl _, by simp [fieldChildVals, hmap, hlist]⟩
      | bool b =>
        exact ⟨.bool b, by simp [travField, hmap, hlist], fun _ => rfl,
          valShape_refl _, by simp [fieldChildVals, hmap, hlist]⟩
      | num n =>
        exact ⟨.num n, by simp [travField, hmap, hlist], fun _ => rfl,
          valShape_refl _, by simp [fieldChildVals, hmap, hlist]⟩
      | str c =>
        exact ⟨.str c, by simp [travField, hmap, hlist], fun _ => rfl,
          valShape_refl _, by simp [fieldChildVals, hmap, hlist]⟩
    · by_cases hone : k ∈ oneChildKeys
      · have hck : k ∈ childKeys := by simp [childKeys, hone]
        cases v with
        | obj m =>
          obtain ⟨y, hy, hQy, hyo⟩ := hg (.obj m)
            (by simp [fieldChildVals, hmap, hlist, hone])
          cases y with
          | obj my =>
            refine ⟨.obj my, ?_, fun h => absurd hck h, Or.inl ⟨rfl, rfl⟩, ?_⟩
            · simp [travField, hmap, hlist, hone, goElem, isObj, hy]
            · intro c' hc'
              simp [fieldChildVals, hmap, hlist, hone] at hc'
              subst hc'
              exact hQy
          | null => simp [isObj] at hyo
          | bool b => simp [isObj] at hyo
          | num n => simp [isObj] at hyo
          | str c => simp [isObj] at hyo
          | arr l => simp [isObj] at hyo
        | null =>
          exact ⟨.null, by simp [travField, hmap, hlist, hone, goElem, isObj],
            fun _ => rfl, valShape_refl _,
            by simp [fieldChildVals, hmap, hlist, hone]⟩
        | bool b =>
          exact ⟨.bool b, by simp [travField, hmap, hlist, hone, goElem, isObj],
            fun _ => rfl, valShape_refl _,
            by simp [fieldChildVals, hmap, hlist, hone]⟩
        | num n =>
          exact ⟨.num n, by simp [travField, hmap, hlist, hone, goElem, isObj],
            fun _ => rfl, valShape_refl _,
            by simp [fieldChildVals, hmap, hlist, hone]⟩
        | str c =>
          exact ⟨.str c, by simp [travField, hmap, hlist, hone, goElem, isObj],
            fun _ => rfl, valShape_refl _,
            by simp [fieldChildVals, hmap, hlist, hone]⟩
        | arr l =>
          exact ⟨.arr l, by simp [travField, hmap, hlist, hone, goElem, isObj],
            fun _ => rfl, valShape_refl _,
            by simp [fieldChildVals, hmap, hlist, hone]⟩
      · refine ⟨v, ?_, fun _ => rfl, valShape_refl v, ?_⟩
        · simp [travField, hmap, hlist, hone]
        · intro c' hc'
          simp [fieldChildVals, hmap, hlist, hone] at hc'

theorem fieldChildVals_isObj {c : JSON} {k : String} {v : JSON}
    (h : c ∈ fieldChildVals k v) : isObj c = true := by
  unfold fieldChildVals at h
  split at h
  · match v, h with
    | .obj m, h => exact (List.mem_filter.1 h).2
  · split at h
    · match v, h with
      | .obj m, h => simp at h; subst h; rfl
      | .arr l, h => exact (List.mem_filter.1 h).2
    · split at h
      · match v, h with
        | .obj m, h => simp at h; subst h; rfl
      · simp at h

theorem childVals_isObj {c s : JSON} (h : c ∈ childVals s) : isObj c = true := by
  cases s <;> simp [childVals, fieldsChildVals] at h
  case obj fields =>
    obtain ⟨a, b, hab, hc⟩ := h
    exact fieldChildVals_isObj hc

theorem goFields_run {g : JSON → Except Unit JSON} {Q : JSON → Prop} :
    ∀ fields : List (String × JSON),
      (∀ c ∈ fieldsChildVals fields, ∃ y, g c = .ok y ∧ Q y ∧ isObj y = true) →
      ∃ fields', goFields g fields = .ok fields' ∧
        NodeShapeEq (.obj fields) (.obj fields') ∧
        (∀ c' ∈ fieldsChildVals fields', Q c') := by
  intro fields
  induction fields with
  | nil =>
    intro _
    exact ⟨[], rfl, nodeShapeEq_refl _, by simp [fieldsChildVals]⟩
  | cons p rest ih =>
    obtain ⟨k, v⟩ := p
    intro hg
    have hgv : ∀ c ∈ fieldChildVals k v, ∃ y, g c = .ok y ∧ Q y ∧ isObj y = true := by
      intro c hc
      exact hg c (by simp [fieldsChildVals, List.flatMap_cons]; left; exact hc)
    have hgr : ∀ c ∈ fieldsChildVals rest, ∃ y, g c = .ok y ∧ Q y ∧ isObj y = true := by
      intro c hc
      exact hg c (by
        simp only [fieldsChildVals, List.flatMap_cons, List.mem_append]
        right
        simpa [fieldsChildVals] using hc)
    obtain ⟨v', hv, hnc, hvs, hQv⟩ := travField_run k v hgv
    obtain ⟨rest', hrest, hshape, hQr⟩ := ih hgr
    obtain ⟨hs1, hs2, hs3⟩ := hshape
    refine ⟨(k, v') :: rest', ?_, ⟨?_, ?_, ?_⟩, ?_⟩
    · simp [goFields, hv, hrest]
    · intro k0 hk0
      simp only [getF, lookupF]
      by_cases hkk : k = k0
      · subst hkk
        simp [hnc hk0]
      · simp only [hkk, if_false]
        exact hs1 k0 hk0
    · intro k0
      simp only [hasKey, List.any_cons]
      have := hs2 k0
      simp only [hasKey] at this
      rw [this]
    · intro k0
      simp only [getF, lookupF]
      by_cases hkk : k = k0
      · subst hkk
        simp [OptValShape, hvs]
      · simp only [hkk, if_false]
        exact hs3 k0
    · intro c' hc'
      simp only [fieldsChildVals, List.flatMap_cons, List.mem_append] at hc'
      rcases hc' with h1 | h2
      · exact hQv c' h1
      · exact hQr c' (by simpa [fieldsChildVals] using h2)

/-! ### The rebuild helpers are the identity on unchanged children -/

theorem goList_id {g : JSON → Except Unit JSON} :
    ∀ l : List JSON, (∀ c ∈ l.filter isObj, g c = .ok c) →
      goList g l = .ok l := by
  intro l
  induction l with
  | nil => intro _; rfl
  | cons x xs ih =>
    intro h
    have hxs : goList g xs = .ok xs := ih (fun c hc => h c (by
      rcases List.mem_filter.1 hc with ⟨h1, h2⟩
      exact List.mem_filter.2 ⟨List.mem_cons_of_mem _ h1, h2⟩))
    by_cases hx : isObj x = true
    · have := h x (List.mem_filter.2 ⟨by simp, hx⟩)
      simp [goList, goElem, hx, this, hxs]
    · simp [goList, goElem, hx, hxs]

theorem goMap_id {g : JSON → Except Unit JSON} :
    ∀ m : List (String × JSON),
      (∀ c ∈ (m.map Prod.snd).filter isObj, g c = .ok c) →
      goMap g m = .ok m := by
  intro m
  induction m with
  | nil => intro _; rfl
  | cons p ps ih =>
    obtain ⟨k, v⟩ := p
    intro h
    have hps : goMap g ps = .ok ps := ih (fun c hc => h c (by
      rcases List.mem_filter.1 hc with ⟨h1, h2⟩
      exact List.mem_filter.2 ⟨by simp at h1 ⊢; tauto, h2⟩))
    by_cases hv : isObj v = true
    · have := h v (List.mem_filter.2 ⟨by simp, hv⟩)
      simp [goMap, goElem, hv, this, hps]
    · simp [goMap, goElem, hv, hps]

theorem travField_id {g : JSON → Except Unit JSON} (k : String) (v : JSON)
    (h : ∀ c ∈ fieldChildVals k v, g c = .ok c) : travField g k v = .ok v := by
  by_cases hmap : k ∈ mapChildKeys
  · cases v with
    | obj m =>
      have := goMap_id m (fun c hc => h c (by simpa [fieldChildVals, hmap] using hc))
      simp [travField, hmap, this]
    | null => simp [travField, hmap]
    | bool b => simp [travField, hmap]
    | num n => simp [travField, hmap]
    | str c => simp [travField, hmap]
    | arr l => simp [travField, hmap]
  · by_cases hlist : k ∈ listChildKeys
    · cases v with
      | obj m =>
        have := h (.obj m) (by simp [fieldChildVals, hmap, hlist])
        simp [travField, hmap, hlist, this]
      | arr l =>
        have := goList_id l (fun c hc => h c (by
          simpa [fieldChildVals, hmap, hlist] using hc))
        simp [travField, hmap, hlist, this]
      | null => simp [travField, hmap, hlist]
      | bool b => simp [travField, hmap, hlist]
      | num n => simp [travField, hmap, hlist]
      | str c => simp [travField, hmap, hlist]
    · by_cases hone : k ∈ oneChildKeys
      · cases v with
        | obj m =>
          have := h (.obj m) (by simp [fieldChildVals, hmap, hlist, hone])
          simp [travField, hmap, hlist, hone, goElem, isObj, this]
        | null => simp [travField, hmap, hlist, hone, goElem, isObj]
        | bool b => simp [travField, hmap, hlist, hone, goElem, isObj]
        | num n => simp [travField, hmap, hlist, hone, goElem, isObj]
        | str c => simp [travField, hmap, hlist, hone, goElem, isObj]
        | arr l => simp [travField, hmap, hlist, hone, goElem, isObj]
      · simp [travField, hmap, hlist, hone]

theorem goFields_id {g : JSON → Except Unit JSON} :
    ∀ fields : List (String × JSON),
      (∀ c ∈ fieldsChildVals fields, g c = .ok c) →
      goFields g fields = .ok fields := by
  intro fields
  induction fields with
  | nil => intro _; rfl
  | cons p rest ih =>
    obtain ⟨k, v⟩ := p
    intro h
    have hv : travField g k v = .ok v := travField_id k v (fun c hc =>
      h c (by simp [fieldsChildVals, List.flatMap_cons]; left; exact hc))
    have hrest : goFields g rest = .ok rest := ih (fun c hc => h c (by
      simp only [fieldsChildVals, List.flatMap_cons, List.mem_append]
      right
      simpa [fieldsChildVals] using hc))
    simp [goFields, hv, hrest]

/-! ### Extraction from a given successful rebuild -/

theorem goList_sound {g : JSON → Except Unit JSON} :
    ∀ (l l' : List JSON), goList g l = .ok l' →
      l'.length = l.length ∧
      (∀ c' ∈ l'.filter isObj, ∃ c ∈ l.filter isObj, g c = .ok c') := by
  intro l
  induction l with
  | nil =>
    intro l' h
    simp only [goList] at h
    cases h
    exact ⟨rfl, by simp⟩
  | cons x xs ih =>
    intro l' h
    simp only [goList] at h
    cases hgx : goElem g x with
    | error e => cases hgxs : goList g xs <;> rw [hgx, hgxs] at h <;> cases h
    | ok y =>
      cases hgxs : goList g xs with
      | error e => rw [hgx, hgxs] at h; cases h
      | ok ys =>
        rw [hgx, hgxs] at h
        cases h
        obtain ⟨hlen, hprov⟩ := ih ys hgxs
        refine ⟨by simp [hlen], ?_⟩
        intro c' hc'
        rcases List.mem_filter.1 hc' with ⟨h1, h2⟩
        rcases List.mem_cons.1 h1 with rfl | h3
        · by_cases hx : isObj x = true
          · exact ⟨x, List.mem_filter.2 ⟨by simp, hx⟩,
              by simpa [goElem, hx] using hgx⟩
          · have hyx : c' = x := by
              simp only [goElem, hx, Bool.false_eq_true, if_false] at hgx
              cases hgx
              rfl
            rw [hyx] at h2
            exact absurd h2 (by simp [hx])
        · obtain ⟨c, hc, hgc⟩ := hprov c' (List.mem_filter.2 ⟨h3, h2⟩)
          rcases List.mem_filter.1 hc with ⟨hc1, hc2⟩
          exact ⟨c, List.mem_filter.2 ⟨List.mem_cons_of_mem _ hc1, hc2⟩, hgc⟩

theorem goMap_sound {g : JSON → Except Unit JSON} :
    ∀ (m m' : List (String × JSON)), goMap g m = .ok m' →
      (∀ c' ∈ (m'.map Prod.snd).filter isObj,
        ∃ c ∈ (m.map Prod.snd).filter isObj, g c = .ok c') := by
  intro m
  induction m with
  | nil =>
    intro m' h
    simp only [goMap] at h
    cases h
    simp
  | cons p ps ih =>
    obtain ⟨k, v⟩ := p
    intro m' h
    simp only [goMap] at h
    cases hgv : goElem g v with
    | error e => cases hgps : goMap g ps <;> rw [hgv, hgps] at h <;> cases h
    | ok y =>
      cases hgps : goMap g ps with
      | error e => rw [hgv, hgps] at h; cases h
      | ok ys =>
        rw [hgv, hgps] at h
        cases h
        intro c' hc'
        rcases List.mem_filter.1 hc' with ⟨h1, h2⟩
        simp only [List.map_cons, List.mem_cons] at h1
        rcases h1 with rfl | h3
        · by_cases hv : isObj v = true
          · exact ⟨v, List.mem_filter.2 ⟨by simp, hv⟩,
              by simpa [goElem, hv] using hgv⟩
          · have hyx : c' = v := by
              simp only [goElem, hv, Bool.false_eq_true, if_false] at hgv
              cases hgv
              rfl
            rw [hyx] at h2
            exact absurd h2 (by simp [hv])
        · obtain ⟨c, hc, hgc⟩ := ih ys hgps c' (List.mem_filter.2 ⟨h3, h2⟩)
          rcases List.mem_filter.1 hc with ⟨hc1, hc2⟩
          refine ⟨c, List.mem_filter.2 ⟨?_, hc2⟩, hgc⟩
          simp only [List.map_cons, List.mem_cons]
          right
          exact hc1

theorem travField_sound {g : JSON → Except Unit JSON}
    (hobjg : ∀ c y, isObj c = true → g c = .ok y → isObj y = true)
    (k : String) (v v' : JSON) (h : travField g k v = .ok v') :
    (¬ k ∈ childKeys → v' = v) ∧ ValShape v v' ∧
    (∀ c' ∈ fieldChildVals k v', ∃ c ∈ fieldChildVals k v, g c = .ok c') := by
  by_cases hmap : k ∈ mapChildKeys
  · have hck : k ∈ childKeys := by simp [childKeys, hmap]
    cases v with
    | obj m =>
      simp only [travField, hmap, if_pos, if_true] at h
      cases hgm : goMap g m with
      | error e => rw [hgm] at h; cases h
      | ok m2 =>
        rw [hgm] at h
        cases h
        refine ⟨fun hc => absurd hck hc, Or.inl ⟨rfl, rfl⟩, ?_⟩
        intro c' hc'
        simp only [fieldChildVals, if_pos hmap] at hc' ⊢
        exact goMap_sound m m2 hgm c' hc'
    | null => simp only [travField, hmap, if_pos] at h; cases h
              exact ⟨fun _ => rfl, valShape_refl _, by simp [fieldChildVals, hmap]⟩
    | bool b => simp only [travField, hmap, if_pos] at h; cases h
                exact ⟨fun _ => rfl, valShape_refl _, by simp [fieldChildVals, hmap]⟩
    | num n => simp only [travField, hmap, if_pos] at h; cases h
               exact ⟨fun _ => rfl, valShape_refl _, by simp [fieldChildVals, hmap]⟩
    | str c => simp only [travField, hmap, if_pos] at h; cases h
               exact ⟨fun _ => rfl, valShape_refl _, by simp [fieldChildVals, hmap]⟩
    | arr l => simp only [travField, hmap, if_pos] at h; cases h
               exact ⟨fun _ => rfl, valShape_refl _, by simp [fieldChildVals, hmap]⟩
  · by_cases hlist : k ∈ listChildKeys
    · have hck : k ∈ childKeys := by simp [childKeys, hlist]
      cases v with
      | obj m =>
        simp only [travField, hmap, hlist, if_false, if_pos, if_true] at h
        have hvo : isObj v' = true := hobjg (.obj m) v' rfl h
        refine ⟨fun hc => absurd hck hc, ?_, ?_⟩
        · exact Or.inl ⟨rfl, hvo⟩
        · intro c' hc'
          cases v' with
          | obj m2 =>
            simp only [fieldChildVals, hmap, hlist, if_false, if_pos] at hc' ⊢
            simp at hc'
            subst hc'
            exact ⟨.obj m, by simp, h⟩
          | null => simp [isObj] at hvo
          | bool b => simp [isObj] at hvo
          | num n => simp [isObj] at hvo
          | str c => simp [isObj] at hvo
          | arr l => simp [isObj] at hvo
      | arr l =>
        simp only [travField, hmap, hlist, if_false, if_pos, if_true] at h
        cases hgl : goList g l with
        | error e => rw [hgl] at h; cases h
        | ok l2 =>
          rw [hgl] at h
          cases h
          obtain ⟨hlen, hprov⟩ := goList_sound l l2 hgl
          refine ⟨fun hc => absurd hck hc,
            Or.inr (Or.inl ⟨l, l2, rfl, rfl, hlen.symm⟩), ?_⟩
          intro c' hc'
          simp only [fieldChildVals, hmap, hlist, if_false, if_pos] at hc' ⊢
          exact hprov c' hc'
      | null => simp only [travField, hmap, hlist, if_false, if_pos] at h; cases h
                exact ⟨fun _ => rfl, valShape_refl _,
                  by simp [fieldChildVals, hmap, hlist]⟩
      | bool b => simp only [travField, hmap, hlist, if_false, if_pos] at h; cases h
                  exact ⟨fun _ => rfl, valShape_refl _,
                    by simp [fieldChildVals, hmap, hlist]⟩
      | num n => simp only [travField, hmap, hlist, if_false, if_pos] at h; cases h
                 exact ⟨fun _ => rfl, valShape_refl _,
                   by simp [fieldChildVals, hmap, hlist]⟩
      | str c => simp only [travField, hmap, hlist, if_false, if_pos] at h; cases h
                 exact ⟨fun _ => rfl, valShape_refl _,
                   by simp [fieldChildVals, hmap, hlist]⟩
    · by_cases hone : k ∈ oneChildKeys
      · have hck : k ∈ childKeys := by simp [childKeys, hone]
        cases v with
        | obj m =>
          simp only [travField, hmap, hlist, hone, if_false, if_pos, if_true,
            goElem, isObj, if_true] at h
          have hvo : isObj v' = true := hobjg (.obj m) v' rfl h
          refine ⟨fun hc => absurd hck hc, Or.inl ⟨rfl, hvo⟩, ?_⟩
          intro c' hc'
          cases v' with
          | obj m2 =>
            simp only [fieldChildVals, hmap, hlist, hone, if_false, if_pos] at hc' ⊢
            simp at hc'
            subst hc'
            exact ⟨.obj m, by simp, h⟩
          | null => simp [isObj] at hvo
          | bool b => simp [isObj] at hvo
          | num n => simp [isObj] at hvo
          | str c => simp [isObj] at hvo
          | arr l => simp [isObj] at hvo
        | null =>
          simp only [travField, hmap, hlist, hone, if_false, if_pos, goElem,
            isObj, Bool.false_eq_true, if_true] at h
          cases h
          exact ⟨fun _ => rfl, valShape_refl _,
            by simp [fieldChildVals, hmap, hlist, hone]⟩
        | bool b =>
          simp only [travField, hmap, hlist, hone, if_false, if_pos, goElem,
            isObj, Bool.false_eq_true, if_true] at h
          cases h
          exact ⟨fun _ => rfl, valShape_refl _,
            by simp [fieldChildVals, hmap, hlist, hone]⟩
        | num n =>
          simp only [travField, hmap, hlist, hone, if_false, if_pos, goElem,
            isObj, Bool.false_eq_true, if_true] at h
          cases h
          exact ⟨fun _ => rfl, valShape_refl _,
            by simp [fieldChildVals, hmap, hlist, hone]⟩
        | str c =>
          simp only [travField, hmap, hlist, hone, if_false, if_pos, goElem,
            isObj, Bool.false_eq_true, if_true] at h
          cases h
          exact ⟨fun _ => rfl, valShape_refl _,
            by simp [fieldChildVals, hmap, hlist, hone]⟩
        | arr l =>
          simp only [travField, hmap, hlist, hone, if_false, if_pos, goElem,
            isObj, Bool.false_eq_true, if_true] at h
          cases h
          exact ⟨fun _ => rfl, valShape_refl _,
            by simp [fieldChildVals, hmap, hlist, hone]⟩
      · have hck : ¬ k ∈ childKeys := by simp [childKeys, hmap, hlist, hone]
        simp only [travField, hmap, hlist, hone, if_false] at h
        cases h
        exact ⟨fun _ => rfl, valShape_refl _,
          by simp [fieldChildVals, hmap, hlist, hone]⟩

theorem goFields_sound {g : JSON → Except Unit JSON}
    (hobjg : ∀ c y, isObj c = true → g c = .ok y → isObj y = true) :
    ∀ (fields fields' : List (String × JSON)),
      goFields g fields = .ok fields' →
      NodeShapeEq (.obj fields) (.obj fields') ∧
      (∀ c' ∈ fieldsChildVals fields',
        ∃ c ∈ fieldsChildVals fields, g c = .ok c') := by
  intro fields
  induction fields with
  | nil =>
    intro fields' h
    simp only [goFields] at h
    cases h
    exact ⟨nodeShapeEq_refl _, by simp [fieldsChildVals]⟩
  | cons p rest ih =>
    obtain ⟨k, v⟩ := p
    intro fields' h
    simp only [goFields] at h
    cases hv : travField g k v with
    | error e => cases hrest : goFields g rest <;> rw [hv, hrest] at h <;> cases h
    | ok v2 =>
      cases hrest : goFields g rest with
      | error e => rw [hv, hrest] at h; cases h
      | ok rest2 =>
        rw [hv, hrest] at h
        cases h
        obtain ⟨hnc, hvs, hprov⟩ := travField_sound hobjg k v v2 hv
        obtain ⟨⟨hs1, hs2, hs3⟩, hprovr⟩ := ih rest2 hrest
        refine ⟨⟨?_, ?_, ?_⟩, ?_⟩
        · intro k0 hk0
          simp only [getF, lookupF]
          by_cases hkk : k = k0
          · subst hkk
            simp [hnc hk0]
          · simp only [hkk, if_false]
            exact hs1 k0 hk0
        · intro k0
          simp only [hasKey, List.any_cons]
          have := hs2 k0
          simp only [hasKey] at this
          rw [this]
        · intro k0
          simp only [getF, lookupF]
          by_cases hkk : k = k0
          · subst hkk
            simp [OptValShape, hvs]
          · simp only [hkk, if_false]
            exact hs3 k0
        · intro c' hc'
          simp only [fieldsChildVals, List.flatMap_cons, List.mem_append] at hc'
          rcases hc' with h1 | h2
          · obtain ⟨c, hc, hgc⟩ := hprov c' h1
            exact ⟨c, by
              simp only [fieldsChildVals, List.flatMap_cons, List.mem_append]
              exact Or.inl hc, hgc⟩
          · obtain ⟨c, hc, hgc⟩ := hprovr c' (by simpa [fieldsChildVals] using h2)
            exact ⟨c, by
              simp only [fieldsChildVals, List.flatMap_cons, List.mem_append]
              right
              simpa [fieldsChildVals] using hc, hgc⟩

/-! ### Master lemmas about one traversal pass -/

theorem traverse_obj {f : JSON → Bool → Except Unit JSON}
    (hobjf : ∀ x r y, isObj x = true → f x r = .ok y → isObj y = true) :
    ∀ fuel (x : JSON) r t, isObj x = true → traverse f fuel x r = .ok t →
      isObj t = true := by
  intro fuel x r t hx h
  match fuel with
  | 0 => simp only [traverse] at h; cases h
  | n + 1 =>
    simp only [traverse] at h
    cases hfx : f x r with
    | error e => rw [hfx] at h; cases h
    | ok y =>
      rw [hfx] at h
      have hy : isObj y = true := hobjf x r y hx hfx
      cases y with
      | obj yfields =>
        cases hgo : goFields (fun c => traverse f n c false) yfields with
        | error e => simp only [hgo] at h; cases h
        | ok fields' => simp only [hgo] at h; cases h; rfl
      | null => simp [isObj] at hy
      | bool b => simp [isObj] at hy
      | num m => simp [isObj] at hy
      | str c => simp [isObj] at hy
      | arr l => simp [isObj] at hy

theorem traverse_run {f : JSON → Bool → Except Unit JSON} {C J : JSON → Bool}
    (hrule : ∀ x r, C x = true → ∃ y, f x r = .ok y ∧ C y = true ∧
      J y = true ∧ (∀ c ∈ childVals y, c ∈ childVals x) ∧
      (isObj x = true → isObj y = true))
    (hCshape : ∀ y t, NodeShapeEq y t → C y = true → C t = true)
    (hJshape : ∀ y t, NodeShapeEq y t → J y = true → J t = true) :
    ∀ fuel (x : JSON) r, jsize x ≤ fuel → AllNodes C x = true →
      ∃ t, traverse f fuel x r = .ok t ∧ AllNodes C t = true ∧
        AllNodes J t = true ∧ (isObj x = true → isObj t = true) := by
  intro fuel
  induction fuel with
  | zero =>
    intro x r hfuel _
    exact absurd hfuel (by have := jsize_pos x; omega)
  | succ n ih =>
    intro x r hfuel hC
    obtain ⟨y, hy, hCy, hJy, hchild, hobj⟩ := hrule x r (allNodes_node hC)
    cases y with
    | obj yfields =>
      obtain ⟨fields', hgo, hshape, hQ⟩ := goFields_run
        (Q := fun t => AllNodes C t = true ∧ AllNodes J t = true) yfields
        (by
          intro c hc
          have hcy : c ∈ childVals (.obj yfields) := by
            simpa [childVals] using hc
          have hcx : c ∈ childVals x := hchild c hcy
          have hsz : jsize c ≤ n := by
            have := jsize_childVals_lt hcx
            omega
          obtain ⟨t, ht, hCt, hJt, hot⟩ := ih c false hsz (allNodes_child hC hcx)
          exact ⟨t, ht, ⟨hCt, hJt⟩, hot (childVals_isObj hcx)⟩)
      refine ⟨.obj fields', ?_, ?_, ?_, fun _ => rfl⟩
      · simp only [traverse, hy, hgo]
      · apply allNodes_intro (hCshape _ _ hshape hCy)
        intro c hc
        exact (hQ c (by simpa [childVals] using hc)).1
      · apply allNodes_intro (hJshape _ _ hshape hJy)
        intro c hc
        exact (hQ c (by simpa [childVals] using hc)).2
    | null =>
      refine ⟨.null, by simp only [traverse, hy], ?_, ?_, ?_⟩
      · exact allNodes_intro hCy (by intro c hc; simp [childVals] at hc)
      · exact allNodes_intro hJy (by intro c hc; simp [childVals] at hc)
      · intro hx
        exact absurd (hobj hx) (by simp [isObj])
    | bool b =>
      refine ⟨.bool b, by simp only [traverse, hy], ?_, ?_, ?_⟩
      · exact allNodes_intro hCy (by intro c hc; simp [childVals] at hc)
      · exact allNodes_intro hJy (by intro c hc; simp [childVals] at hc)
      · intro hx
        exact absurd (hobj hx) (by simp [isObj])
    | num m =>
      refine ⟨.num m, by simp only [traverse, hy], ?_, ?_, ?_⟩
      · exact allNodes_intro hCy (by intro c hc; simp [childVals] at hc)
      · exact allNodes_intro hJy (by intro c hc; simp [childVals] at hc)
      · intro hx
        exact absurd (hobj hx) (by simp [isObj])
    | str c0 =>
      refine ⟨.str c0, by simp only [traverse, hy], ?_, ?_, ?_⟩
      · exact allNodes_intro hCy (by intro c hc; simp [childVals] at hc)
      · exact allNodes_intro hJy (by intro c hc; simp [childVals] at hc)
      · intro hx
        exact absurd (hobj hx) (by simp [isObj])
    | arr l =>
      refine ⟨.arr l, by simp only [traverse, hy], ?_, ?_, ?_⟩
      · exact allNodes_intro hCy (by intro c hc; simp [childVals] at hc)
      · exact allNodes_intro hJy (by intro c hc; simp [childVals] at hc)
      · intro hx
        exact absurd (hobj hx) (by simp [isObj])

theorem traverse_establish {f : JSON → Bool → Except Unit JSON}
    {C J : JSON → Bool}
    (hrule : ∀ x r y, C x = true → f x r = .ok y → C y = true ∧ J y = true ∧
      (∀ c ∈ childVals y, c ∈ childVals x))
    (hobjf : ∀ x r y, isObj x = true → f x r = .ok y → isObj y = true)
    (hCshape : ∀ y t, NodeShapeEq y t → C y = true → C t = true)
    (hJshape : ∀ y t, NodeShapeEq y t → J y = true → J t = true) :
    ∀ fuel (x : JSON) r t, jsize x ≤ fuel → AllNodes C x = true →
      traverse f fuel x r = .ok t →
      AllNodes C t = true ∧ AllNodes J t = true := by
  intro fuel
  induction fuel with
  | zero =>
    intro x r t hfuel _ _
    exact absurd hfuel (by have := jsize_pos x; omega)
  | succ n ih =>
    intro x r t hfuel hC hok
    simp only [traverse] at hok
    cases hfx : f x r with
    | error e => rw [hfx] at hok; cases hok
    | ok y =>
      rw [hfx] at hok
      obtain ⟨hCy, hJy, hchild⟩ := hrule x r y (allNodes_node hC) hfx
      cases y with
      | obj yfields =>
        cases hgo : goFields (fun c => traverse f n c false) yfields with
        | error e => simp only [hgo] at hok; cases hok
        | ok fields' =>
          simp only [hgo] at hok
          cases hok
          obtain ⟨hshape, hprov⟩ := goFields_sound
            (fun c y2 hc hgc => traverse_obj hobjf n c false y2 hc hgc)
            yfields fields' hgo
          have hkid : ∀ c' ∈ fieldsChildVals fields',
              AllNodes C c' = true ∧ AllNodes J c' = true := by
            intro c' hc'
            obtain ⟨c, hc, hgc⟩ := hprov c' hc'
            have hcx : c ∈ childVals x := hchild c (by simpa [childVals] using hc)
            have hsz : jsize c ≤ n := by
              have := jsize_childVals_lt hcx
              omega
            exact ih c false c' hsz (allNodes_child hC hcx) hgc
          constructor
          · apply allNodes_intro (hCshape _ _ hshape hCy)
            intro c hc
            exact (hkid c (by simpa [childVals] using hc)).1
          · apply allNodes_intro (hJshape _ _ hshape hJy)
            intro c hc
            exact (hkid c (by simpa [childVals] using hc)).2
      | null =>
        cases hok
        exact ⟨allNodes_intro hCy (by intro c hc; simp [childVals] at hc),
          allNodes_intro hJy (by intro c hc; simp [childVals] at hc)⟩
      | bool b =>
        cases hok
        exact ⟨allNodes_intro hCy (by intro c hc; simp [childVals] at hc),
          allNodes_intro hJy (by intro c hc; simp [childVals] at hc)⟩
      | num m =>
        cases hok
        exact ⟨allNodes_intro hCy (by intro c hc; simp [childVals] at hc),
          allNodes_intro hJy (by intro c hc; simp [childVals] at hc)⟩
      | str c0 =>
        cases hok
        exact ⟨allNodes_intro hCy (by intro c hc; simp [childVals] at hc),
          allNodes_intro hJy (by intro c hc; simp [childVals] at hc)⟩
      | arr l =>
        cases hok
        exact ⟨allNodes_intro hCy (by intro c hc; simp [childVals] at hc),
          allNodes_intro hJy (by intro c hc; simp [childVals] at hc)⟩

theorem traverse_noop {f : JSON → Bool → Except Unit JSON} {P : JSON → Bool}
    (hrule : ∀ x, P x = true → f x false = .ok x) :
    ∀ fuel (x : JSON), jsize x ≤ fuel → AllNodes P x = true →
      traverse f fuel x false = .ok x := by
  intro fuel
  induction fuel with
  | zero =>
    intro x hfuel _
    exact absurd hfuel (by have := jsize_pos x; omega)
  | succ n ih =>
    intro x hfuel hP
    have hfx : f x false = .ok x := hrule x (allNodes_node hP)
    cases x with
    | obj fields =>
      have hgo : goFields (fun c => traverse f n c false) fields = .ok fields :=
        goFields_id fields (by
          intro c hc
          have hcx : c ∈ childVals (.obj fields) := by simpa [childVals] using hc
          have hsz : jsize c ≤ n := by
            have := jsize_childVals_lt hcx
            have := jsize_pos (JSON.obj fields)
            omega
          exact ih c hsz (allNodes_child hP hcx))
      simp only [traverse, hfx, hgo]
    | null => simp only [traverse, hfx]
    | bool b => simp only [traverse, hfx]
    | num m => simp only [traverse, hfx]
    | str c => simp only [traverse, hfx]
    | arr l => simp only [traverse, hfx]

theorem traverse_noop_root {f : JSON → Bool → Except Unit JSON}
    {P : JSON → Bool}
    (hrule : ∀ x, P x = true → f x false = .ok x)
    (s : JSON) (hroot : f s true = .ok s)
    (fuel : Nat) (hfuel : jsize s ≤ fuel) (hP : AllNodes P s = true) :
    traverse f fuel s true = .ok s := by
  match fuel, hfuel with
  | 0, hfuel => exact absurd hfuel (by have := jsize_pos s; omega)
  | n + 1, hfuel =>
    cases s with
    | obj fields =>
      have hgo : goFields (fun c => traverse f n c false) fields = .ok fields :=
        goFields_id fields (by
          intro c hc
          have hcx : c ∈ childVals (.obj fields) := by simpa [childVals] using hc
          have hsz : jsize c ≤ n := by
            have := jsize_childVals_lt hcx
            have := jsize_pos (JSON.obj fields)
            omega
          exact traverse_noop hrule n c hsz (allNodes_child hP hcx))
      simp only [traverse, hroot, hgo]
    | null => simp only [traverse, hroot]
    | bool b => simp only [traverse, hroot]
    | num m => simp only [traverse, hroot]
    | str c => simp only [traverse, hroot]
    | arr l => simp only [traverse, hroot]

theorem traverse_root_shape {f : JSON → Bool → Except Unit JSON}
    (hobjf : ∀ x r y, isObj x = true → f x r = .ok y → isObj y = true) :
    ∀ fuel (x : JSON) r t, traverse f fuel x r = .ok t →
      ∃ y, f x r = .ok y ∧ NodeShapeEq y t ∧ isObj t = isObj y := by
  intro fuel x r t h
  match fuel with
  | 0 => simp only [traverse] at h; cases h
  | n + 1 =>
    simp only [traverse] at h
    cases hfx : f x r with
    | error e => rw [hfx] at h; cases h
    | ok y =>
      rw [hfx] at h
      cases y with
      | obj yfields =>
        cases hgo : goFields (fun c => traverse f n c false) yfields with
        | error e => simp only [hgo] at h; cases h
        | ok fields' =>
          simp only [hgo] at h
          cases h
          exact ⟨.obj yfields, rfl,
            (goFields_sound
              (fun c y2 hc hgc => traverse_obj hobjf n c false y2 hc hgc)
              yfields fields' hgo).1, rfl⟩
      | null => cases h; exact ⟨.null, rfl, nodeShapeEq_refl _, rfl⟩
      | bool b => cases h; exact ⟨.bool b, rfl, nodeShapeEq_refl _, rfl⟩
      | num m => cases h; exact ⟨.num m, rfl, nodeShapeEq_refl _, rfl⟩
      | str c => cases h; exact ⟨.str c, rfl, nodeShapeEq_refl _, rfl⟩
      | arr l => cases h; exact ⟨.arr l, rfl, nodeShapeEq_refl _, rfl⟩

/-! ### Child bookkeeping for the rule outputs -/

theorem lookupF_mem {l : List (String × JSON)} {k : String} {v : JSON}
    (h : lookupF l k = some v) : (k, v) ∈ l := by
  induction l with
  | nil => simp [lookupF] at h
  | cons p rest ih =>
    obtain ⟨k0, v0⟩ := p
    by_cases hk : k0 = k
    · subst hk
      simp [lookupF] at h
      simp [h]
    · simp [lookupF, hk] at h
      exact List.mem_cons_of_mem _ (ih h)

theorem mem_childVals_of_getF {x : JSON} {k : String} {v c : JSON}
    (h : getF x k = some v) (hc : c ∈ fieldChildVals k v) : c ∈ childVals x := by
  cases x with
  | obj fields =>
    simp only [getF] at h
    simp only [childVals, fieldsChildVals, List.mem_flatMap]
    exact ⟨(k, v), lookupF_mem h, hc⟩
  | null => simp [getF] at h
  | bool b => simp [getF] at h
  | num n => simp [getF] at h
  | str c0 => simp [getF] at h
  | arr l => simp [getF] at h

theorem fieldsChildVals_setFL_sub {c : JSON} {k : String} {v : JSON} :
    ∀ fields : List (String × JSON),
      c ∈ fieldsChildVals (setFL fields k v) →
      c ∈ fieldsChildVals fields ∨ c ∈ fieldChildVals k v := by
  intro fields
  induction fields with
  | nil =>
    intro h
    simp only [setFL, fieldsChildVals, List.flatMap_cons, List.flatMap_nil,
      List.append_nil] at h
    exact Or.inr h
  | cons p rest ih =>
    obtain ⟨k0, v0⟩ := p
    intro h
    by_cases hk : k0 = k
    · subst hk
      simp only [setFL, eq_self_iff_true, if_true, fieldsChildVals,
        List.flatMap_cons, List.mem_append] at h ⊢
      rcases h with h | h
      · exact Or.inr h
      · exact Or.inl (Or.inr h)
    · simp only [setFL, hk, if_false, fieldsChildVals, List.flatMap_cons,
        List.mem_append] at h ⊢
      rcases h with h | h
      · exact Or.inl (Or.inl h)
      · rcases ih h with h2 | h2
        · exact Or.inl (Or.inr h2)
        · exact Or.inr h2

theorem childVals_setF_sub {c x : JSON} {k : String} {v : JSON}
    (h : c ∈ childVals (setF x k v)) :
    c ∈ childVals x ∨ c ∈ fieldChildVals k v := by
  cases x with
  | obj fields =>
    simp only [setF, childVals] at h
    exact fieldsChildVals_setFL_sub fields h
  | null => exact Or.inl h
  | bool b => exact Or.inl h
  | num n => exact Or.inl h
  | str c0 => exact Or.inl h
  | arr l => exact Or.inl h

theorem fieldsChildVals_delFL_sub {c : JSON} {k : String} :
    ∀ fields : List (String × JSON),
      c ∈ fieldsChildVals (delFL fields k) → c ∈ fieldsChildVals fields := by
  intro fields
  induction fields with
  | nil => intro h; simpa [delFL] using h
  | cons p rest ih =>
    obtain ⟨k0, v0⟩ := p
    intro h
    by_cases hk : k0 = k
    · subst hk
      simp only [delFL, eq_self_iff_true, if_true] at h
      simp only [fieldsChildVals, List.flatMap_cons, List.mem_append]
      exact Or.inr (ih h)
    · simp only [delFL, hk, if_false, fieldsChildVals, List.flatMap_cons,
        List.mem_append] at h ⊢
      rcases h with h | h
      · exact Or.inl h
      · exact Or.inr (ih h)

theorem childVals_delF_sub {c x : JSON} {k : String}
    (h : c ∈ childVals (delF x k)) : c ∈ childVals x := by
  cases x with
  | obj fields =>
    simp only [delF, childVals] at h
    exact fieldsChildVals_delFL_sub fields h
  | null => exact h
  | bool b => exact h
  | num n => exact h
  | str c0 => exact h
  | arr l => exact h

theorem fieldChildVals_nonchild {k : String} (hk : ¬ k ∈ childKeys)
    (v : JSON) : fieldChildVals k v = [] := by
  have h1 : ¬ k ∈ mapChildKeys := fun h => hk (by simp [childKeys, h])
  have h2 : ¬ k ∈ listChildKeys := fun h => hk (by simp [childKeys, h])
  have h3 : ¬ k ∈ oneChildKeys := fun h => hk (by simp [childKeys, h])
  simp [fieldChildVals, h1, h2, h3]

/-! ### Well-formedness: numeric minItems and maxItems are non-negative -/

/-- The field, when a number, is non-negative. -/
def numNonNeg : Option JSON → Bool
  | some (.num n) => decide (0 ≤ n)
  | _ => true

/-- Node-level well-formedness from the data model: `minItems`/`maxItems`
are non-negative when numeric.  The only throw of the normalizer is
`Array(len)` with a negative numeric length, which this excludes. -/
def wnnB (x : JSON) : Bool :=
  numNonNeg (getF x "minItems") && numNonNeg (getF x "maxItems")

theorem wnnB_shape {y t : JSON} (h : NodeShapeEq y t) (hw : wnnB y = true) :
    wnnB t = true := by
  obtain ⟨h1, _, _⟩ := h
  unfold wnnB at hw ⊢
  rw [h1 "minItems" (by decide), h1 "maxItems" (by decide)]
  exact hw

theorem wnnB_setF {x : JSON} (k : String) (v : JSON)
    (h1 : k ≠ "minItems") (h2 : k ≠ "maxItems") (hw : wnnB x = true) :
    wnnB (setF x k v) = true := by
  unfold wnnB at hw ⊢
  rw [getF_setF_ne _ _ (Ne.symm h1), getF_setF_ne _ _ (Ne.symm h2)]
  exact hw

/-- The standard bundle a rule step must provide for the totality proof. -/
def StepOK (x y : JSON) : Prop :=
  wnnB y = true ∧ (∀ c ∈ childVals y, c ∈ childVals x) ∧
    (isObj x = true → isObj y = true)

theorem stepOK_self {x : JSON} (hw : wnnB x = true) : StepOK x x :=
  ⟨hw, fun _ h => h, fun h => h⟩

theorem stepOK_setF_nonchild {x : JSON} (k : String) (v : JSON)
    (hk : ¬ k ∈ childKeys) (h1 : k ≠ "minItems") (h2 : k ≠ "maxItems")
    (hw : wnnB x = true) : StepOK x (setF x k v) := by
  refine ⟨wnnB_setF k v h1 h2 hw, ?_, ?_⟩
  · intro c hc
    rcases childVals_setF_sub hc with h | h
    · exact h
    · rw [fieldChildVals_nonchild hk] at h
      cases h
  · intro h
    rw [isObj_setF]
    exact h

theorem wnnB_delF (x : JSON) (k : String) (hw : wnnB x = true) :
    wnnB (delF x k) = true := by
  unfold wnnB at hw ⊢
  simp only [Bool.and_eq_true] at hw ⊢
  by_cases h1 : ("minItems" : String) = k
  · subst h1
    rw [getF_delF_self, getF_delF_ne _ (by decide)]
    exact ⟨by simp [numNonNeg], hw.2⟩
  · by_cases h2 : ("maxItems" : String) = k
    · subst h2
      rw [getF_delF_self, getF_delF_ne _ h1]
      exact ⟨hw.1, by simp [numNonNeg]⟩
    · rw [getF_delF_ne _ h1, getF_delF_ne _ h2]
      exact hw

theorem stepOK_trans {x y z : JSON} (h1 : StepOK x y) (h2 : StepOK y z) :
    StepOK x z :=
  ⟨h2.1, fun c hc => h1.2.1 c (h2.2.1 c hc), fun h => h2.2.2 (h1.2.2 h)⟩

theorem stepOK_setF_emptyChild {x : JSON} (k : String) (v : JSON)
    (hv : fieldChildVals k v = []) (h1 : k ≠ "minItems") (h2 : k ≠ "maxItems")
    (hw : wnnB x = true) : StepOK x (setF x k v) := by
  refine ⟨wnnB_setF k v h1 h2 hw, ?_, ?_⟩
  · intro c hc
    rcases childVals_setF_sub hc with h | h
    · exact h
    · rw [hv] at h
      cases h
  · intro h
    rw [isObj_setF]
    exact h

theorem stepOK_delF {x y : JSON} (k : String) (h : StepOK x y) :
    StepOK x (delF y k) := by
  refine ⟨wnnB_delF y k h.1, ?_, ?_⟩
  · intro c hc
    exact h.2.1 c (childVals_delF_sub hc)
  · intro hx
    rw [isObj_delF]
    exact h.2.2 hx

theorem ruleRemoveNullFromType_wnn (x root : JSON) (file : String)
    (o : Options) (isRoot : Bool) (hw : wnnB x = true) :
    ∃ y, ruleRemoveNullFromType x root file o isRoot = .ok y ∧ StepOK x y := by
  unfold ruleRemoveNullFromType
  split
  · split
    · exact ⟨_, rfl,
        stepOK_setF_nonchild "type" _ (by decide) (by decide) (by decide) hw⟩
    · exact ⟨x, rfl, stepOK_self hw⟩
  · exact ⟨x, rfl, stepOK_self hw⟩

theorem ruleDestructureUnaryTypes_wnn (x root : JSON) (file : String)
    (o : Options) (isRoot : Bool) (hw : wnnB x = true) :
    ∃ y, ruleDestructureUnaryTypes x root file o isRoot = .ok y ∧ StepOK x y := by
  unfold ruleDestructureUnaryTypes
  split
  · exact ⟨_, rfl,
      stepOK_setF_nonchild "type" _ (by decide) (by decide) (by decide) hw⟩
  · exact ⟨x, rfl, stepOK_self hw⟩

theorem ruleAddEmptyRequired_wnn (x root : JSON) (file : String)
    (o : Options) (isRoot : Bool) (hw : wnnB x = true) :
    ∃ y, ruleAddEmptyRequired x root file o isRoot = .ok y ∧ StepOK x y := by
  unfold ruleAddEmptyRequired
  split
  · exact ⟨_, rfl,
      stepOK_setF_nonchild "required" _ (by decide) (by decide) (by decide) hw⟩
  · exact ⟨x, rfl, stepOK_self hw⟩

theorem ruleRequiredFalseToEmpty_wnn (x root : JSON) (file : String)
    (o : Options) (isRoot : Bool) (hw : wnnB x = true) :
    ∃ y, ruleRequiredFalseToEmpty x root file o isRoot = .ok y ∧ StepOK x y := by
  unfold ruleRequiredFalseToEmpty
  split
  · exact ⟨_, rfl,
      stepOK_setF_nonchild "required" _ (by decide) (by decide) (by decide) hw⟩
  · exact ⟨x, rfl, stepOK_self hw⟩

theorem ruleDefaultAdditionalProps_wnn (x root : JSON) (file : String)
    (o : Options) (isRoot : Bool) (hw : wnnB x = true) :
    ∃ y, ruleDefaultAdditionalProps x root file o isRoot = .ok y ∧ StepOK x y := by
  unfold ruleDefaultAdditionalProps
  split
  · exact ⟨_, rfl, stepOK_setF_emptyChild "additionalProperties" _ rfl
      (by decide) (by decide) hw⟩
  · exact ⟨x, rfl, stepOK_self hw⟩

theorem ruleDefaultTopLevelId_wnn (x root : JSON) (file : String)
    (o : Options) (isRoot : Bool) (hw : wnnB x = true) :
    ∃ y, ruleDefaultTopLevelId x root file o isRoot = .ok y ∧ StepOK x y := by
  unfold ruleDefaultTopLevelId
  split
  · exact ⟨_, rfl,
      stepOK_setF_nonchild "id" _ (by decide) (by decide) (by decide) hw⟩
  · exact ⟨x, rfl, stepOK_self hw⟩

theorem ruleEscapeBlockComment_wnn (x root : JSON) (file : String)
    (o : Options) (isRoot : Bool) (hw : wnnB x = true) :
    ∃ y, ruleEscapeBlockComment x root file o isRoot = .ok y ∧ StepOK x y := by
  unfold ruleEscapeBlockComment
  split
  · exact ⟨_, rfl,
      stepOK_setF_nonchild "description" _ (by decide) (by decide) (by decide) hw⟩
  · exact ⟨x, rfl, stepOK_self hw⟩

theorem ruleRemoveMaxMinItems_wnn (x root : JSON) (file : String)
    (o : Options) (isRoot : Bool) (hw : wnnB x = true) :
    ∃ y, ruleRemoveMaxMinItems x root file o isRoot = .ok y ∧ StepOK x y := by
  unfold ruleRemoveMaxMinItems
  split
  · exact ⟨_, rfl, stepOK_delF "minItems"
      (stepOK_delF "maxItems" (stepOK_self hw))⟩
  · exact ⟨x, rfl, stepOK_self hw⟩

theorem ruleNormaliseMinItems_wnn (x root : JSON) (file : String)
    (o : Options) (isRoot : Bool) (hw : wnnB x = true) :
    ∃ y, ruleNormaliseMinItems x root file o isRoot = .ok y ∧ StepOK x y := by
  unfold ruleNormaliseMinItems
  split
  · exact ⟨x, rfl, stepOK_self hw⟩
  · split
    · refine ⟨_, rfl, ?_, ?_, ?_⟩
      · cases x with
        | obj fields =>
          unfold wnnB at hw ⊢
          rw [getF_setF_self (show isObj (JSON.obj fields) = true from rfl),
            getF_setF_ne _ _ (by decide)]
          simp only [Bool.and_eq_true] at hw ⊢
          refine ⟨?_, hw.2⟩
          cases hmin : getF (JSON.obj fields) "minItems" with
          | none => simp [numNonNeg]
          | some v =>
            cases v with
            | num m =>
              have hm := hw.1
              rw [hmin] at hm
              simpa [numNonNeg] using hm
            | null => simp [numNonNeg]
            | bool b => simp [numNonNeg]
            | str c => simp [numNonNeg]
            | arr l => simp [numNonNeg]
            | obj m => simp [numNonNeg]
        | null => exact hw
        | bool b => exact hw
        | num n => exact hw
        | str c => exact hw
        | arr l => exact hw
      · intro c hc
        rcases childVals_setF_sub hc with h | h
        · exact h
        · rw [fieldChildVals_nonchild (by decide)] at h
          cases h
      · intro h
        rw [isObj_setF]
        exact h
    · exact ⟨x, rfl, stepOK_self hw⟩

theorem ruleDefsToDefinitions_wnn (x root : JSON) (file : String)
    (o : Options) (isRoot : Bool) (hw : wnnB x = true) :
    ∃ y, ruleDefsToDefinitions x root file o isRoot = .ok y ∧ StepOK x y := by
  unfold ruleDefsToDefinitions
  cases hdefs : getF x "$defs" with
  | none => exact ⟨x, rfl, stepOK_self hw⟩
  | some d =>
    by_cases htr : truthy d = true
    · simp only [htr, eq_self_iff_true, if_true]
      refine ⟨_, rfl, stepOK_delF "$defs" ⟨wnnB_setF "definitions" d
        (by decide) (by decide) hw, ?_, ?_⟩⟩
      · intro c hc
        rcases childVals_setF_sub hc with h | h
        · exact h
        · apply mem_childVals_of_getF hdefs
          have : fieldChildVals "definitions" d = fieldChildVals "$defs" d := by
            simp [fieldChildVals, mapChildKeys]
          rw [← this]
          exact h
      · intro h
        rw [isObj_setF]
        exact h
    · simp only [htr, if_false]
      exact ⟨x, rfl, stepOK_self hw⟩

theorem ruleConstToEnum_wnn (x root : JSON) (file : String)
    (o : Options) (isRoot : Bool) (hw : wnnB x = true) :
    ∃ y, ruleConstToEnum x root file o isRoot = .ok y ∧ StepOK x y := by
  unfold ruleConstToEnum
  cases hconst : getF x "const" with
  | none => exact ⟨x, rfl, stepOK_self hw⟩
  | some c =>
    by_cases htr : truthy c = true
    · simp only [htr, eq_self_iff_true, if_true]
      exact ⟨_, rfl, stepOK_delF "const"
        (stepOK_setF_nonchild "enum" _ (by decide) (by decide) (by decide) hw)⟩
    · simp only [htr, if_false]
      exact ⟨x, rfl, stepOK_self hw⟩

theorem jsArrayFill_of_numNonNeg (v it : JSON) (hv : numNonNeg (some v) = true) :
    ∃ l, jsArrayFill v it = .ok l ∧ ∀ c ∈ l, c = it := by
  cases v with
  | num n =>
    have hn : ¬ n < 0 := by
      simp only [numNonNeg, decide_eq_true_eq] at hv
      omega
    exact ⟨List.replicate n.toNat it, by simp [jsArrayFill, hn],
      fun c hc => List.eq_of_mem_replicate hc⟩
  | null => exact ⟨[it], rfl, by simp⟩
  | bool b => exact ⟨[it], rfl, by simp⟩
  | str c => exact ⟨[it], rfl, by simp⟩
  | arr l => exact ⟨[it], rfl, by simp⟩
  | obj m => exact ⟨[it], rfl, by simp⟩

theorem jsOr_numNonNeg (x : JSON) (hw : wnnB x = true) :
    numNonNeg (some (jsOr (getF x "maxItems")
      (jsOr (getF x "minItems") (.num 0)))) = true := by
  unfold wnnB at hw
  simp only [Bool.and_eq_true] at hw
  obtain ⟨hmin, hmax⟩ := hw
  unfold jsOr
  cases hM : getF x "maxItems" with
  | some v =>
    rw [hM] at hmax
    by_cases htv : truthy v = true
    · simp only [htv, eq_self_iff_true, if_true]
      exact hmax
    · simp only [htv, if_false]
      cases hm : getF x "minItems" with
      | some w =>
        rw [hm] at hmin
        by_cases htw : truthy w = true
        · simp only [htw, eq_self_iff_true, if_true]
          exact hmin
        · simp only [htw, if_false, numNonNeg]
          rfl
      | none => simp [numNonNeg]
  | none =>
    cases hm : getF x "minItems" with
    | some w =>
      rw [hm] at hmin
      by_cases htw : truthy w = true
      · simp only [htw, eq_self_iff_true, if_true]
        exact hmin
      · simp only [htw, if_false, numNonNeg]
        rfl
    | none => simp [numNonNeg]

theorem items_child {x items : JSON} (hit : getF x "items" = some items)
    (ho : isObj items = true) : items ∈ childVals x := by
  apply mem_childVals_of_getF hit
  cases items with
  | obj m => simp [fieldChildVals, mapChildKeys, listChildKeys]
  | null => simp [isObj] at ho
  | bool b => simp [isObj] at ho
  | num n => simp [isObj] at ho
  | str c => simp [isObj] at ho
  | arr l => simp [isObj] at ho

theorem stepOK_expand {x items : JSON} (l : List JSON)
    (hit : getF x "items" = some items) (hl : ∀ c ∈ l, c = items)
    (hw : wnnB x = true) (z : JSON)
    (hz : z = setF x "additionalItems" items ∨ z = x) :
    StepOK x (setF z "items" (.arr l)) := by
  have hzw : wnnB z = true := by
    rcases hz with rfl | rfl
    · exact wnnB_setF _ _ (by decide) (by decide) hw
    · exact hw
  have hzc : ∀ c ∈ childVals z, c ∈ childVals x := by
    rcases hz with rfl | rfl
    · intro c hc
      rcases childVals_setF_sub hc with h | h
      · exact h
      · have hco : isObj c = true := fieldChildVals_isObj h
        have hci : c = items := by
          cases items with
          | obj m =>
            simpa [fieldChildVals, mapChildKeys, listChildKeys, oneChildKeys]
              using h
          | null => simp [fieldChildVals, mapChildKeys, listChildKeys,
              oneChildKeys] at h
          | bool b => simp [fieldChildVals, mapChildKeys, listChildKeys,
              oneChildKeys] at h
          | num n => simp [fieldChildVals, mapChildKeys, listChildKeys,
              oneChildKeys] at h
          | str c0 => simp [fieldChildVals, mapChildKeys, listChildKeys,
              oneChildKeys] at h
          | arr l0 => simp [fieldChildVals, mapChildKeys, listChildKeys,
              oneChildKeys] at h
        subst hci
        exact items_child hit hco
    · intro c hc
      exact hc
  have hzo : isObj x = true → isObj z = true := by
    rcases hz with rfl | rfl
    · intro h
      rw [isObj_setF]
      exact h
    · intro h
      exact h
  refine ⟨wnnB_setF _ _ (by decide) (by decide) hzw, ?_, ?_⟩
  · intro c hc
    rcases childVals_setF_sub hc with h | h
    · exact hzc c h
    · have hco : isObj c = true := fieldChildVals_isObj h
      have hcl : c ∈ l := by
        have : c ∈ l.filter isObj := by
          simpa [fieldChildVals, mapChildKeys, listChildKeys] using h
        exact (List.mem_filter.1 this).1
      have hci : c = items := hl c hcl
      subst hci
      exact items_child hit hco
  · intro h
    rw [isObj_setF]
    exact hzo h

theorem stepOK_truncate {x s1 : JSON} (l : List JSON) (n : Int)
    (h1 : StepOK x s1) (hti : getF s1 "items" = some (.arr l)) :
    StepOK x (setF s1 "items" (.arr (l.take n.toNat))) := by
  refine ⟨wnnB_setF _ _ (by decide) (by decide) h1.1, ?_, ?_⟩
  · intro c hc
    rcases childVals_setF_sub hc with h | h
    · exact h1.2.1 c h
    · have hco : isObj c = true := fieldChildVals_isObj h
      have hcl : c ∈ l.take n.toNat := by
        have : c ∈ (l.take n.toNat).filter isObj := by
          simpa [fieldChildVals, mapChildKeys, listChildKeys] using h
        exact (List.mem_filter.1 this).1
      have hcl2 : c ∈ l := List.take_subset _ _ hcl
      have : c ∈ fieldChildVals "items" (.arr l) := by
        simp [fieldChildVals, mapChildKeys, listChildKeys, List.mem_filter,
          hcl2, hco]
      exact h1.2.1 c (mem_childVals_of_getF hti this)
  · intro h
    rw [isObj_setF]
    exact h1.2.2 h

theorem ruleNormalizeItems_wnn (x root : JSON) (file : String) (o : Options)
    (isRoot : Bool) (hw : wnnB x = true) :
    ∃ y, ruleNormalizeItems x root file o isRoot = .ok y ∧ StepOK x y := by
  unfold ruleNormalizeItems
  by_cases hig : o.ignoreMinAndMaxItems = true
  · simp only [hig, eq_self_iff_true, if_true]
    exact ⟨x, rfl, stepOK_self hw⟩
  · simp only [hig, if_false]
    cases hit : getF x "items" with
    | none =>
      cases hM : getF x "maxItems" with
      | none =>
        simp only [hit, hM]
        exact ⟨x, rfl, stepOK_self hw⟩
      | some v =>
        cases v <;> simp only [hit, hM] <;> exact ⟨x, rfl, stepOK_self hw⟩
    | some items =>
      simp only [hit]
      cases hcond : (truthy items && !isArr items &&
          ((match getF x "maxItems" with
            | some (JSON.num n) => decide (0 ≤ n)
            | _ => false) ||
           (match getF x "minItems" with
            | some (JSON.num m) => decide (0 < m)
            | _ => false))) with
      | true =>
        obtain ⟨l, hfill, hl⟩ :=
          jsArrayFill_of_numNonNeg _ items (jsOr_numNonNeg x hw)
        simp only [hfill, Bool.false_eq_true, eq_self_iff_true, if_true, if_false,
          Bool.not_false, Bool.not_true, Bool.false_and, Bool.and_false,
          Bool.true_and, Bool.and_true, Bool.false_or, Bool.or_false,
          Bool.true_or, Bool.or_true]
        cases hM : getF x "maxItems" with
        | none =>
          have hti : getF (setF (setF x "additionalItems" items) "items"
              (.arr l)) "items" = some (.arr l) :=
            getF_setF_self (by rw [isObj_setF]; exact isObj_of_getF hit) _ _
          simp only [hti, Bool.false_eq_true, eq_self_iff_true, if_true, if_false,
          Bool.not_false, Bool.not_true, Bool.false_and, Bool.and_false,
          Bool.true_and, Bool.and_true, Bool.false_or, Bool.or_false,
          Bool.true_or, Bool.or_true]
          exact ⟨_, rfl, stepOK_expand l hit hl hw _ (Or.inl rfl)⟩
        | some v =>
          cases v with
          | num n =>
            have h0n : decide (0 ≤ n) = true := by
              unfold wnnB at hw
              simp only [Bool.and_eq_true] at hw
              have hx2 := hw.2
              rw [hM] at hx2
              simpa [numNonNeg] using hx2
            have hti : getF (setF x "items" (.arr l)) "items" =
                some (.arr l) := getF_setF_self (isObj_of_getF hit) _ _
            simp only [h0n, hti, Bool.false_eq_true, eq_self_iff_true, if_true, if_false,
          Bool.not_false, Bool.not_true, Bool.false_and, Bool.and_false,
          Bool.true_and, Bool.and_true, Bool.false_or, Bool.or_false,
          Bool.true_or, Bool.or_true]
            cases hlt : decide (n < (l.length : Int)) with
            | true =>
              simp only [hlt, Bool.false_eq_true, eq_self_iff_true, if_true, if_false,
          Bool.not_false, Bool.not_true, Bool.false_and, Bool.and_false,
          Bool.true_and, Bool.and_true, Bool.false_or, Bool.or_false,
          Bool.true_or, Bool.or_true]
              exact ⟨_, rfl, stepOK_truncate l n
                (stepOK_expand l hit hl hw x (Or.inr rfl)) hti⟩
            | false =>
              simp only [hlt, Bool.false_eq_true, eq_self_iff_true, if_true, if_false,
          Bool.not_false, Bool.not_true, Bool.false_and, Bool.and_false,
          Bool.true_and, Bool.and_true, Bool.false_or, Bool.or_false,
          Bool.true_or, Bool.or_true]
              exact ⟨_, rfl, stepOK_expand l hit hl hw x (Or.inr rfl)⟩
          | null =>
            have hti : getF (setF (setF x "additionalItems" items) "items"
                (.arr l)) "items" = some (.arr l) :=
              getF_setF_self (by rw [isObj_setF]; exact isObj_of_getF hit) _ _
            simp only [hti, Bool.false_eq_true, eq_self_iff_true, if_true, if_false,
          Bool.not_false, Bool.not_true, Bool.false_and, Bool.and_false,
          Bool.true_and, Bool.and_true, Bool.false_or, Bool.or_false,
          Bool.true_or, Bool.or_true]
            exact ⟨_, rfl, stepOK_expand l hit hl hw _ (Or.inl rfl)⟩
          | bool b =>
            have hti : getF (setF (setF x "additionalItems" items) "items"
                (.arr l)) "items" = some (.arr l) :=
              getF_setF_self (by rw [isObj_setF]; exact isObj_of_getF hit) _ _
            simp only [hti, Bool.false_eq_true, eq_self_iff_true, if_true, if_false,
          Bool.not_false, Bool.not_true, Bool.false_and, Bool.and_false,
          Bool.true_and, Bool.and_true, Bool.false_or, Bool.or_false,
          Bool.true_or, Bool.or_true]
            exact ⟨_, rfl, stepOK_expand l hit hl hw _ (Or.inl rfl)⟩
          | str c =>
            have hti : getF (setF (setF x "additionalItems" items) "items"
                (.arr l)) "items" = some (.arr l) :=
              getF_setF_self (by rw [isObj_setF]; exact isObj_of_getF hit) _ _
            simp only [hti, Bool.false_eq_true, eq_self_iff_true, if_true, if_false,
          Bool.not_false, Bool.not_true, Bool.false_and, Bool.and_false,
          Bool.true_and, Bool.and_true, Bool.false_or, Bool.or_false,
          Bool.true_or, Bool.or_true]
            exact ⟨_, rfl, stepOK_expand l hit hl hw _ (Or.inl rfl)⟩
          | arr l0 =>
            have hti : getF (setF (setF x "additionalItems" items) "items"
                (.arr l)) "items" = some (.arr l) :=
              getF_setF_self (by rw [isObj_setF]; exact isObj_of_getF hit) _ _
            simp only [hti, Bool.false_eq_true, eq_self_iff_true, if_true, if_false,
          Bool.not_false, Bool.not_true, Bool.false_and, Bool.and_false,
          Bool.true_and, Bool.and_true, Bool.false_or, Bool.or_false,
          Bool.true_or, Bool.or_true]
            exact ⟨_, rfl, stepOK_expand l hit hl hw _ (Or.inl rfl)⟩
          | obj m0 =>
            have hti : getF (setF (setF x "additionalItems" items) "items"
                (.arr l)) "items" = some (.arr l) :=
              getF_setF_self (by rw [isObj_setF]; exact isObj_of_getF hit) _ _
            simp only [hti, Bool.false_eq_true, eq_self_iff_true, if_true, if_false,
          Bool.not_false, Bool.not_true, Bool.false_and, Bool.and_false,
          Bool.true_and, Bool.and_true, Bool.false_or, Bool.or_false,
          Bool.true_or, Bool.or_true]
            exact ⟨_, rfl, stepOK_expand l hit hl hw _ (Or.inl rfl)⟩
      | false =>
        simp only [Bool.false_eq_true, eq_self_iff_true, if_true, if_false,
          Bool.not_false, Bool.not_true, Bool.false_and, Bool.and_false,
          Bool.true_and, Bool.and_true, Bool.false_or, Bool.or_false,
          Bool.true_or, Bool.or_true]
        cases hM : getF x "maxItems" with
        | none =>
          simp only [hit, Bool.false_eq_true, eq_self_iff_true, if_true, if_false,
          Bool.not_false, Bool.not_true, Bool.false_and, Bool.and_false,
          Bool.true_and, Bool.and_true, Bool.false_or, Bool.or_false,
          Bool.true_or, Bool.or_true]
          exact ⟨x, rfl, stepOK_self hw⟩
        | some v =>
          cases v with
          | num n =>
            cases items with
            | arr l =>
              simp only [hit, Bool.false_eq_true, eq_self_iff_true, if_true, if_false,
          Bool.not_false, Bool.not_true, Bool.false_and, Bool.and_false,
          Bool.true_and, Bool.and_true, Bool.false_or, Bool.or_false,
          Bool.true_or, Bool.or_true]
              cases hcc : (decide (0 ≤ n) &&
                  decide (n < (l.length : Int))) with
              | true =>
                simp only [hcc, Bool.false_eq_true, eq_self_iff_true, if_true, if_false,
          Bool.not_false, Bool.not_true, Bool.false_and, Bool.and_false,
          Bool.true_and, Bool.and_true, Bool.false_or, Bool.or_false,
          Bool.true_or, Bool.or_true]
                exact ⟨_, rfl, stepOK_truncate l n (stepOK_self hw) hit⟩
              | false =>
                simp only [hcc, Bool.false_eq_true, eq_self_iff_true, if_true, if_false,
          Bool.not_false, Bool.not_true, Bool.false_and, Bool.and_false,
          Bool.true_and, Bool.and_true, Bool.false_or, Bool.or_false,
          Bool.true_or, Bool.or_true]
                exact ⟨x, rfl, stepOK_self hw⟩
            | null =>
              simp only [hit, Bool.false_eq_true, eq_self_iff_true, if_true, if_false,
          Bool.not_false, Bool.not_true, Bool.false_and, Bool.and_false,
          Bool.true_and, Bool.and_true, Bool.false_or, Bool.or_false,
          Bool.true_or, Bool.or_true]
              exact ⟨x, rfl, stepOK_self hw⟩
            | bool b =>
              simp only [hit, Bool.false_eq_true, eq_self_iff_true, if_true, if_false,
          Bool.not_false, Bool.not_true, Bool.false_and, Bool.and_false,
          Bool.true_and, Bool.and_true, Bool.false_or, Bool.or_false,
          Bool.true_or, Bool.or_true]
              exact ⟨x, rfl, stepOK_self hw⟩
            | num n0 =>
              simp only [hit, Bool.false_eq_true, eq_self_iff_true, if_true, if_false,
          Bool.not_false, Bool.not_true, Bool.false_and, Bool.and_false,
          Bool.true_and, Bool.and_true, Bool.false_or, Bool.or_false,
          Bool.true_or, Bool.or_true]
              exact ⟨x, rfl, stepOK_self hw⟩
            | str c =>
              simp only [hit, Bool.false_eq_true, eq_self_iff_true, if_true, if_false,
          Bool.not_false, Bool.not_true, Bool.false_and, Bool.and_false,
          Bool.true_and, Bool.and_true, Bool.false_or, Bool.or_false,
          Bool.true_or, Bool.or_true]
              exact ⟨x, rfl, stepOK_self hw⟩
            | obj m0 =>
              simp only [hit, Bool.false_eq_true, eq_self_iff_true, if_true, if_false,
          Bool.not_false, Bool.not_true, Bool.false_and, Bool.and_false,
          Bool.true_and, Bool.and_true, Bool.false_or, Bool.or_false,
          Bool.true_or, Bool.or_true]
              exact ⟨x, rfl, stepOK_self hw⟩
          | null =>
            simp only [hit, Bool.false_eq_true, eq_self_iff_true, if_true, if_false,
          Bool.not_false, Bool.not_true, Bool.false_and, Bool.and_false,
          Bool.true_and, Bool.and_true, Bool.false_or, Bool.or_false,
          Bool.true_or, Bool.or_true]
            exact ⟨x, rfl, stepOK_self hw⟩
          | bool b =>
            simp only [hit, Bool.false_eq_true, eq_self_iff_true, if_true, if_false,
          Bool.not_false, Bool.not_true, Bool.false_and, Bool.and_false,
          Bool.true_and, Bool.and_true, Bool.false_or, Bool.or_false,
          Bool.true_or, Bool.or_true]
            exact ⟨x, rfl, stepOK_self hw⟩
          | str c =>
            simp only [hit, Bool.false_eq_true, eq_self_iff_true, if_true, if_false,
          Bool.not_false, Bool.not_true, Bool.false_and, Bool.and_false,
          Bool.true_and, Bool.and_true, Bool.false_or, Bool.or_false,
          Bool.true_or, Bool.or_true]
            exact ⟨x, rfl, stepOK_self hw⟩
          | arr l0 =>
            simp only [hit, Bool.false_eq_true, eq_self_iff_true, if_true, if_false,
          Bool.not_false, Bool.not_true, Bool.false_and, Bool.and_false,
          Bool.true_and, Bool.and_true, Bool.false_or, Bool.or_false,
          Bool.true_or, Bool.or_true]
            exact ⟨x, rfl, stepOK_self hw⟩
          | obj m0 =>
            simp only [hit, Bool.false_eq_true, eq_self_iff_true, if_true, if_false,
          Bool.not_false, Bool.not_true, Bool.false_and, Bool.and_false,
          Bool.true_and, Bool.and_true, Bool.false_or, Bool.or_false,
          Bool.true_or, Bool.or_true]
            exact ⟨x, rfl, stepOK_self hw⟩

/-! ### Claim C8: the normalizer is total on well-formed input -/

theorem applyRule_wnn (file : String) (o : Options) (r : RuleFn)
    (hr : ∀ x root isRoot, wnnB x = true →
      ∃ y, r x root file o isRoot = .ok y ∧ StepOK x y)
    (t : JSON) (hW : AllNodes wnnB t = true) :
    ∃ t', applyRule file o r t = .ok t' ∧ AllNodes wnnB t' = true := by
  unfold applyRule
  obtain ⟨t', h1, h2, _, _⟩ := traverse_run
    (f := fun s isRoot => r s t file o isRoot) (C := wnnB) (J := wnnB)
    (fun x r0 hx => by
      obtain ⟨y, hy, hOK⟩ := hr x t r0 hx
      exact ⟨y, hy, hOK.1, hOK.1, hOK.2.1, hOK.2.2⟩)
    (fun y t2 hsh hw2 => wnnB_shape hsh hw2)
    (fun y t2 hsh hw2 => wnnB_shape hsh hw2)
    (jsize t) t true (le_refl _) hW
  exact ⟨t', h1, h2⟩

/-- Every rule of the list is total and well-behaved on well-formed nodes. -/
def RulesWnnOK (file : String) (o : Options)
    (rs : List (String × RuleFn)) : Prop :=
  ∀ p ∈ rs, ∀ (x root : JSON) (isRoot : Bool), wnnB x = true →
    ∃ y, p.2 x root file o isRoot = .ok y ∧ StepOK x y

theorem runRules_wnn (file : String) (o : Options) :
    ∀ rs : List (String × RuleFn), RulesWnnOK file o rs →
      ∀ t, AllNodes wnnB t = true →
        ∃ t', runRules file o rs t = .ok t' ∧ AllNodes wnnB t' = true := by
  intro rs
  induction rs with
  | nil => intro _ t hW; exact ⟨t, rfl, hW⟩
  | cons p rest ih =>
    obtain ⟨nm, r⟩ := p
    intro hok t hW
    obtain ⟨t1, h1, hW1⟩ := applyRule_wnn file o r
      (fun x root isRoot hx => hok (nm, r) (by simp) x root isRoot hx) t hW
    obtain ⟨t2, h2, hW2⟩ := ih
      (fun q hq x root isRoot hx => hok q (List.mem_cons_of_mem _ hq) x root isRoot hx)
      t1 hW1
    exact ⟨t2, by simp only [runRules, h1, h2], hW2⟩

theorem rules_eq : rules =
    [("Remove `type=[\"null\"]` if `enum=[null]`", ruleRemoveNullFromType),
     ("Destructure unary types", ruleDestructureUnaryTypes),
     ("Add empty `required` property if none is defined", ruleAddEmptyRequired),
     ("Transform `required`=false to `required`=[]", ruleRequiredFalseToEmpty),
     ("Default additionalProperties to true", ruleDefaultAdditionalProps),
     ("Default top level `id`", ruleDefaultTopLevelId),
     ("Escape closing JSDoc Comment", ruleEscapeBlockComment),
     ("Optionally remove maxItems and minItems", ruleRemoveMaxMinItems),
     ("Normalise schema.minItems", ruleNormaliseMinItems),
     ("Normalize schema.items", ruleNormalizeItems),
     ("Transform $defs to definitions", ruleDefsToDefinitions),
     ("Transform const to singleton enum", ruleConstToEnum)] := rfl

theorem rulesWnnOK (file : String) (o : Options) :
    RulesWnnOK file o rules := by
  intro p hp
  rw [rules_eq] at hp
  simp only [List.mem_cons, List.not_mem_nil, or_false] at hp
  rcases hp with rfl | rfl | rfl | rfl | rfl | rfl | rfl | rfl | rfl | rfl | rfl | rfl
  · exact fun x root isRoot hx => ruleRemoveNullFromType_wnn x root file o isRoot hx
  · exact fun x root isRoot hx => ruleDestructureUnaryTypes_wnn x root file o isRoot hx
  · exact fun x root isRoot hx => ruleAddEmptyRequired_wnn x root file o isRoot hx
  · exact fun x root isRoot hx => ruleRequiredFalseToEmpty_wnn x root file o isRoot hx
  · exact fun x root isRoot hx => ruleDefaultAdditionalProps_wnn x root file o isRoot hx
  · exact fun x root isRoot hx => ruleDefaultTopLevelId_wnn x root file o isRoot hx
  · exact fun x root isRoot hx => ruleEscapeBlockComment_wnn x root file o isRoot hx
  · exact fun x root isRoot hx => ruleRemoveMaxMinItems_wnn x root file o isRoot hx
  · exact fun x root isRoot hx => ruleNormaliseMinItems_wnn x root file o isRoot hx
  · exact fun x root isRoot hx => ruleNormalizeItems_wnn x root file o isRoot hx
  · exact fun x root isRoot hx => ruleDefsToDefinitions_wnn x root file o isRoot hx
  · exact fun x root isRoot hx => ruleConstToEnum_wnn x root file o isRoot hx

/-- Claim C8: on well-formed input — every numeric `minItems`/`maxItems` in
the tree non-negative, per the data model — the normalizer (with the built-in
rules) terminates successfully and never raises: the rules' guards leave
uninterpretable nodes unchanged, and the only JS throw site, `Array(len)`,
is unreachable. -/
theorem c8_normalize_total (s : JSON) (file : String) (o : Options)
    (h : AllNodes wnnB s = true) : ∃ t, normalize s file o [] = .ok t := by
  obtain ⟨t, ht, _⟩ := runRules_wnn file o rules (rulesWnnOK file o) s h
  refine ⟨t, ?_⟩
  unfold normalize cloneDeep
  rw [ht]
  rfl

/-- Witness for `c8_normalize_total` on a concrete well-formed schema. -/
theorem c8_normalize_total_witness :
    AllNodes wnnB (.obj [("items", .obj [("type", .str "string")]),
      ("minItems", .num 2)]) = true ∧
    (normalize (.obj [("items", .obj [("type", .str "string")]),
      ("minItems", .num 2)]) "f" defaultOptions []).isOk = true := by
  constructor
  · rfl
  · obtain ⟨t, ht⟩ := c8_normalize_total
      (.obj [("items", .obj [("type", .str "string")]), ("minItems", .num 2)])
      "f" defaultOptions rfl
    rw [ht]
    rfl

/-! ### Claim C1: the node invariants of a normalized tree

`ctB` is the well-formedness condition the idempotence counterexample forces:
elements of a `type` array are not themselves arrays (the data model says
type names).  `j1B` .. `j12B` state that the corresponding rule has nothing
left to do at the node. -/

/-- Elements of a `type` array are not arrays (type names per the data
model). -/
def ctB (x : JSON) : Bool :=
  match getF x "type" with
  | some (.arr l) => l.all (fun v => !(isArr v))
  | _ => true

/-- The enum-null rule is settled: not both `null ∈ enum` and `"null"` in a
`type` array. -/
def j1B (x : JSON) : Bool :=
  match getF x "enum", getF x "type" with
  | some (.arr es), some (.arr ts) =>
    !(es.any (fun e => match e with | .null => true | _ => false) &&
      ts.any (fun t => match t with | .str s => s == "null" | _ => false))
  | _, _ => true

/-- The unary-type rule is settled: `type` is not a one-element array. -/
def j2B (x : JSON) : Bool :=
  match getF x "type" with
  | some (.arr [_]) => false
  | _ => true

/-- The required-default rule is settled. -/
def j3B (x : JSON) : Bool :=
  !(isObjectType x && !(hasKey x "required"))

/-- The required-false rule is settled. -/
def j4B (x : JSON) : Bool :=
  match getF x "required" with
  | some (.bool false) => false
  | _ => true

/-- The additionalProperties-default rule is settled. -/
def j5B (x : JSON) : Bool :=
  !(isObjectType x && !(hasKey x "additionalProperties") &&
    (getF x "patternProperties").isNone)

/-- The escape rule is settled: the description is already escaped. -/
def j7B (x : JSON) : Bool :=
  match getF x "description" with
  | some (.str d) => escapeBlockComment d == d
  | _ => true

/-- The min/max removal rule is settled. -/
def j8B (o : Options) (x : JSON) : Bool :=
  !o.ignoreMinAndMaxItems || (!(hasKey x "maxItems") && !(hasKey x "minItems"))

/-- The minItems default rule is settled. -/
def j9B (o : Options) (x : JSON) : Bool :=
  o.ignoreMinAndMaxItems ||
    (!(isArrayType x) ||
      match getF x "minItems" with
      | some (.num _) => true
      | _ => false)

/-- Source `hasMaxItems` of the items rule. -/
def hasMaxB (x : JSON) : Bool :=
  match getF x "maxItems" with
  | some (.num n) => decide (0 ≤ n)
  | _ => false

/-- Source `hasMinItems` of the items rule. -/
def hasMinB (x : JSON) : Bool :=
  match getF x "minItems" with
  | some (.num m) => decide (0 < m)
  | _ => false

/-- First half of the items-rule invariant: no pending expansion. -/
def j10fst (x : JSON) : Bool :=
  match getF x "items" with
  | some items => !(truthy items && !(isArr items) && (hasMaxB x || hasMinB x))
  | none => true

/-- Second half of the items-rule invariant: no pending truncation. -/
def j10snd (x : JSON) : Bool :=
  match getF x "items", getF x "maxItems" with
  | some (.arr l), some (.num n) =>
    !(decide (0 ≤ n) && decide (n < (l.length : Int)))
  | _, _ => true

/-- The items rule is settled: no pending expansion and no pending
truncation. -/
def j10B (o : Options) (x : JSON) : Bool :=
  o.ignoreMinAndMaxItems || (j10fst x && j10snd x)

/-- The $defs rule is settled. -/
def j11B (x : JSON) : Bool := !(truthyO (getF x "$defs"))

/-- The const rule is settled. -/
def j12B (x : JSON) : Bool := !(truthyO (getF x "const"))

/-- Invariants accumulated after each of the twelve passes. -/
def acc1 (x : JSON) : Bool := ctB x && j1B x
def acc2 (x : JSON) : Bool := acc1 x && j2B x
def acc3 (x : JSON) : Bool := acc2 x && j3B x
def acc4 (x : JSON) : Bool := acc3 x && j4B x
def acc5 (x : JSON) : Bool := acc4 x && j5B x
def acc7 (x : JSON) : Bool := acc5 x && j7B x
def acc8 (o : Options) (x : JSON) : Bool := acc7 x && j8B o x
def acc9 (o : Options) (x : JSON) : Bool := acc8 o x && j9B o x
def acc10 (o : Options) (x : JSON) : Bool := acc9 o x && j10B o x
def acc11 (o : Options) (x : JSON) : Bool := acc10 o x && j11B x

/-- Every rule has nothing left to do at the node. -/
def invAll (o : Options) (x : JSON) : Bool := acc11 o x && j12B x

/-- The root either has a truthy id, the file-derived id, or is not an
object (rule assignments on primitives are silent no-ops). -/
def RootIdP (file : String) (t : JSON) : Prop :=
  truthyO (getF t "id") = true ∨
    getF t "id" = some (.str (toSafeString (justName file))) ∨ isObj t = false

/-! ### Idempotence of the block-comment escape -/

theorem escChars_nil : escChars [] = [] := rfl

theorem escChars_star_slash (l : List Char) :
    escChars ('*' :: '/' :: l) = '*' :: '\\' :: '/' :: escChars l := rfl

theorem escChars_cons_ne (c : Char) (l : List Char) (h : ¬ c = '*') :
    escChars (c :: l) = c :: escChars l := by
  cases l with
  | nil => simp [escChars, h]
  | cons c2 r => simp [escChars, h]

theorem escChars_star (l : List Char) (h : ¬ l.head? = some '/') :
    escChars ('*' :: l) = '*' :: escChars l := by
  cases l with
  | nil => rfl
  | cons c2 r =>
    have hc2 : ¬ c2 = '/' := by
      intro h2
      exact h (by rw [h2]; rfl)
    simp [escChars, hc2]


theorem escChars_head : ∀ l : List Char, (escChars l).head? = l.head? := by
  intro l
  cases l with
  | nil => rfl
  | cons c r =>
    by_cases hc : c = '*'
    · subst hc
      by_cases hr : r.head? = some '/'
      · cases r with
        | nil => simp at hr
        | cons c2 r2 =>
          simp only [List.head?] at hr
          cases hr
          rw [escChars_star_slash]
          rfl
      · rw [escChars_star r hr]
        rfl
    · rw [escChars_cons_ne c r hc]
      rfl

theorem escChars_idem_n : ∀ n (l : List Char), l.length ≤ n →
    escChars (escChars l) = escChars l := by
  intro n
  induction n with
  | zero =>
    intro l h
    cases l with
    | nil => rfl
    | cons c r => simp at h
  | succ n ih =>
    intro l hlen
    cases l with
    | nil => rfl
    | cons c r =>
      by_cases hc : c = '*'
      · subst hc
        cases r with
        | nil => rfl
        | cons c2 r2 =>
          by_cases hc2 : c2 = '/'
          · subst hc2
            rw [escChars_star_slash]
            rw [escChars_star ('\\' :: '/' :: escChars r2) (by simp)]
            rw [escChars_cons_ne '\\' _ (by decide)]
            rw [escChars_cons_ne '/' _ (by decide)]
            have hr2 : r2.length ≤ n := by
              simp only [List.length_cons] at hlen ⊢
              omega
            rw [ih r2 hr2]
          · have hh : ¬ (c2 :: r2).head? = some '/' := by
              simp only [List.head?]
              intro h2
              cases h2
              exact hc2 rfl
            rw [escChars_star _ hh]
            have hh2 : ¬ (escChars (c2 :: r2)).head? = some '/' := by
              rw [escChars_head]
              exact hh
            rw [escChars_star _ hh2]
            have : (c2 :: r2).length ≤ n := by
              simp only [List.length_cons] at hlen ⊢
              omega
            rw [ih _ this]
      · rw [escChars_cons_ne c r hc]
        rw [escChars_cons_ne c _ hc]
        have : r.length ≤ n := by
          simp only [List.length_cons] at hlen ⊢
          omega
        rw [ih r this]

theorem escChars_idem (l : List Char) : escChars (escChars l) = escChars l :=
  escChars_idem_n l.length l (le_refl _)

theorem escapeBlockComment_idem (s : String) :
    escapeBlockComment (escapeBlockComment s) = escapeBlockComment s :=
  congrArg String.mk (escChars_idem s.data)

theorem escapeBlockComment_beq_idem (d : String) :
    (escapeBlockComment (escapeBlockComment d) == escapeBlockComment d) = true := by
  rw [escapeBlockComment_idem]
  exact beq_self_eq_true _

/-! ### Further field bookkeeping for the idempotence proof -/

theorem setF_nonobj {s : JSON} (h : isObj s = false) (k : String) (v : JSON) :
    setF s k v = s := by
  cases s <;> simp [setF] <;> simp [isObj] at h

theorem hasKey_setF_ne (s : JSON) {k k' : String} (v : JSON) (h : k' ≠ k) :
    hasKey (setF s k v) k' = hasKey s k' := by
  rw [hasKey_eq_isSome_getF, hasKey_eq_isSome_getF, getF_setF_ne _ _ h]

theorem hasKey_delF_ne (s : JSON) {k k' : String} (h : k' ≠ k) :
    hasKey (delF s k) k' = hasKey s k' := by
  rw [hasKey_eq_isSome_getF, hasKey_eq_isSome_getF, getF_delF_ne _ h]

theorem hasKey_setF_self {s : JSON} (hs : isObj s = true) (k : String)
    (v : JSON) : hasKey (setF s k v) k = true := by
  rw [hasKey_eq_isSome_getF, getF_setF_self hs]
  rfl

theorem hasKey_delF_self (s : JSON) (k : String) :
    hasKey (delF s k) k = false := by
  rw [hasKey_eq_isSome_getF, getF_delF_self]
  rfl

theorem getF_none_of_hasKey_false {s : JSON} {k : String}
    (h : hasKey s k = false) : getF s k = none := by
  rw [hasKey_eq_isSome_getF] at h
  cases hg : getF s k
  · rfl
  · rw [hg] at h
    cases h

theorem hasKey_congr_getF {x y : JSON} {k : String}
    (h : getF y k = getF x k) : hasKey y k = hasKey x k := by
  rw [hasKey_eq_isSome_getF, hasKey_eq_isSome_getF, h]

theorem childSub_setF_nonchild (x : JSON) (k : String) (v : JSON)
    (hk : ¬ k ∈ childKeys) :
    ∀ c ∈ childVals (setF x k v), c ∈ childVals x := by
  intro c hc
  rcases childVals_setF_sub hc with h | h
  · exact h
  · rw [fieldChildVals_nonchild hk] at h
    cases h

theorem childSub_delF (x : JSON) (k : String) :
    ∀ c ∈ childVals (delF x k), c ∈ childVals x :=
  fun _ hc => childVals_delF_sub hc

theorem jsArrayFill_elems {v it : JSON} {l : List JSON}
    (h : jsArrayFill v it = .ok l) : ∀ c ∈ l, c = it := by
  unfold jsArrayFill at h
  cases v with
  | num n =>
    by_cases hn : n < 0
    · simp [hn] at h
    · simp only [hn, if_false] at h
      cases h
      intro c hc
      exact List.eq_of_mem_replicate hc
  | null => cases h; intro c hc; simpa using hc
  | bool b => cases h; intro c hc; simpa using hc
  | str s => cases h; intro c hc; simpa using hc
  | arr l0 => cases h; intro c hc; simpa using hc
  | obj m => cases h; intro c hc; simpa using hc

/-! ### Congruence of the node invariants in the fields they read -/

theorem hasType_congr {x y : JSON} (ht : getF y "type" = getF x "type")
    (t : String) : hasType y t = hasType x t := by
  unfold hasType
  rw [ht]

theorem isObjectType_congr {x y : JSON}
    (hp : (getF y "properties").isSome = (getF x "properties").isSome)
    (ht : getF y "type" = getF x "type") :
    isObjectType y = isObjectType x := by
  unfold isObjectType
  rw [hp, hasType_congr ht, hasType_congr ht]

theorem isArrayType_congr {x y : JSON}
    (hi : (getF y "items").isSome = (getF x "items").isSome)
    (ht : getF y "type" = getF x "type") :
    isArrayType y = isArrayType x := by
  unfold isArrayType
  rw [hi, hasType_congr ht, hasType_congr ht]

theorem ctB_congr {x y : JSON} (ht : getF y "type" = getF x "type") :
    ctB y = ctB x := by
  unfold ctB
  rw [ht]

theorem j1B_congr {x y : JSON} (he : getF y "enum" = getF x "enum")
    (ht : getF y "type" = getF x "type") : j1B y = j1B x := by
  unfold j1B
  rw [he, ht]

theorem j2B_congr {x y : JSON} (ht : getF y "type" = getF x "type") :
    j2B y = j2B x := by
  unfold j2B
  rw [ht]

theorem j3B_congr {x y : JSON} (ho : isObjectType y = isObjectType x)
    (hr : hasKey y "required" = hasKey x "required") : j3B y = j3B x := by
  unfold j3B
  rw [ho, hr]

theorem j4B_congr {x y : JSON} (hr : getF y "required" = getF x "required") :
    j4B y = j4B x := by
  unfold j4B
  rw [hr]

theorem j5B_congr {x y : JSON} (ho : isObjectType y = isObjectType x)
    (ha : hasKey y "additionalProperties" = hasKey x "additionalProperties")
    (hp : getF y "patternProperties" = getF x "patternProperties") :
    j5B y = j5B x := by
  unfold j5B
  rw [ho, ha, hp]

theorem j7B_congr {x y : JSON}
    (hd : getF y "description" = getF x "description") : j7B y = j7B x := by
  unfold j7B
  rw [hd]

theorem j8B_congr (o : Options) {x y : JSON}
    (hx : hasKey y "maxItems" = hasKey x "maxItems")
    (hn : hasKey y "minItems" = hasKey x "minItems") : j8B o y = j8B o x := by
  unfold j8B
  rw [hx, hn]

theorem j9B_congr (o : Options) {x y : JSON}
    (hA : isArrayType y = isArrayType x)
    (hm : getF y "minItems" = getF x "minItems") : j9B o y = j9B o x := by
  unfold j9B
  rw [hA, hm]

theorem j10B_congr (o : Options) {x y : JSON}
    (hi : getF y "items" = getF x "items")
    (hx : getF y "maxItems" = getF x "maxItems")
    (hn : getF y "minItems" = getF x "minItems") : j10B o y = j10B o x := by
  unfold j10B j10fst j10snd hasMaxB hasMinB
  rw [hi, hx, hn]

theorem j11B_congr {x y : JSON} (hd : getF y "$defs" = getF x "$defs") :
    j11B y = j11B x := by
  unfold j11B
  rw [hd]

theorem j12B_congr {x y : JSON} (hc : getF y "const" = getF x "const") :
    j12B y = j12B x := by
  unfold j12B
  rw [hc]

theorem isObj_of_isObjectType {x : JSON} (h : isObjectType x = true) :
    isObj x = true := by
  cases x <;> simp [isObjectType, hasType, getF, isObj] at h ⊢

theorem isObj_of_isArrayType {x : JSON} (h : isArrayType x = true) :
    isObj x = true := by
  cases x <;> simp [isArrayType, hasType, getF, isObj] at h ⊢

/-! ### Shape robustness of the node invariants

The traversal rebuild only replaces child values by same-shaped values
(`NodeShapeEq`); every node invariant survives that. -/

theorem truthy_of_isObj {v : JSON} (h : isObj v = true) : truthy v = true := by
  cases v <;> simp [isObj, truthy] at h ⊢

theorem isArr_of_isObj {v : JSON} (h : isObj v = true) : isArr v = false := by
  cases v <;> simp [isObj, isArr] at h ⊢

theorem valShape_truthy {v v' : JSON} (h : ValShape v v') :
    truthy v' = truthy v := by
  rcases h with ⟨h1, h2⟩ | ⟨la, lb, rfl, rfl, _⟩ | rfl
  · rw [truthy_of_isObj h1, truthy_of_isObj h2]
  · rfl
  · rfl

theorem valShape_isArr {v v' : JSON} (h : ValShape v v') :
    isArr v' = isArr v := by
  rcases h with ⟨h1, h2⟩ | ⟨la, lb, rfl, rfl, _⟩ | rfl
  · rw [isArr_of_isObj h1, isArr_of_isObj h2]
  · rfl
  · rfl

theorem optValShape_truthyO {a b : Option JSON} (h : OptValShape a b) :
    truthyO b = truthyO a := by
  cases a with
  | none =>
    cases b with
    | none => rfl
    | some v' => exact absurd h (by simp [OptValShape])
  | some v =>
    cases b with
    | none => exact absurd h (by simp [OptValShape])
    | some v' =>
      simp only [OptValShape] at h
      simp only [truthyO]
      exact valShape_truthy h

theorem isSome_getF_shape {y t : JSON} (h : NodeShapeEq y t) (k : String) :
    (getF t k).isSome = (getF y k).isSome := by
  rw [← hasKey_eq_isSome_getF, ← hasKey_eq_isSome_getF, h.2.1 k]

theorem ctB_shape {y t : JSON} (h : NodeShapeEq y t) (hy : ctB y = true) :
    ctB t = true := by
  rw [ctB_congr (h.1 "type" (by decide))]
  exact hy

theorem j1B_shape {y t : JSON} (h : NodeShapeEq y t) (hy : j1B y = true) :
    j1B t = true := by
  rw [j1B_congr (h.1 "enum" (by decide)) (h.1 "type" (by decide))]
  exact hy

theorem j2B_shape {y t : JSON} (h : NodeShapeEq y t) (hy : j2B y = true) :
    j2B t = true := by
  rw [j2B_congr (h.1 "type" (by decide))]
  exact hy

theorem isObjectType_shape {y t : JSON} (h : NodeShapeEq y t) :
    isObjectType t = isObjectType y :=
  isObjectType_congr (isSome_getF_shape h "properties") (h.1 "type" (by decide))

theorem isArrayType_shape {y t : JSON} (h : NodeShapeEq y t) :
    isArrayType t = isArrayType y :=
  isArrayType_congr (isSome_getF_shape h "items") (h.1 "type" (by decide))

theorem j3B_shape {y t : JSON} (h : NodeShapeEq y t) (hy : j3B y = true) :
    j3B t = true := by
  rw [j3B_congr (isObjectType_shape h) (h.2.1 "required")]
  exact hy

theorem j4B_shape {y t : JSON} (h : NodeShapeEq y t) (hy : j4B y = true) :
    j4B t = true := by
  rw [j4B_congr (h.1 "required" (by decide))]
  exact hy

theorem j5B_shape {y t : JSON} (h : NodeShapeEq y t) (hy : j5B y = true) :
    j5B t = true := by
  rw [j5B_congr (isObjectType_shape h) (h.2.1 "additionalProperties")
    (h.1 "patternProperties" (by decide))]
  exact hy

theorem j7B_shape {y t : JSON} (h : NodeShapeEq y t) (hy : j7B y = true) :
    j7B t = true := by
  rw [j7B_congr (h.1 "description" (by decide))]
  exact hy

theorem j8B_shape (o : Options) {y t : JSON} (h : NodeShapeEq y t)
    (hy : j8B o y = true) : j8B o t = true := by
  rw [j8B_congr o (h.2.1 "maxItems") (h.2.1 "minItems")]
  exact hy

theorem j9B_shape (o : Options) {y t : JSON} (h : NodeShapeEq y t)
    (hy : j9B o y = true) : j9B o t = true := by
  rw [j9B_congr o (isArrayType_shape h) (h.1 "minItems" (by decide))]
  exact hy

theorem hasMaxB_shape {y t : JSON} (h : NodeShapeEq y t) :
    hasMaxB t = hasMaxB y := by
  unfold hasMaxB
  rw [h.1 "maxItems" (by decide)]

theorem hasMinB_shape {y t : JSON} (h : NodeShapeEq y t) :
    hasMinB t = hasMinB y := by
  unfold hasMinB
  rw [h.1 "minItems" (by decide)]

theorem j10fst_shape {y t : JSON} (h : NodeShapeEq y t)
    (hj : j10fst y = true) : j10fst t = true := by
  unfold j10fst at hj ⊢
  rw [hasMaxB_shape h, hasMinB_shape h]
  have hvs := h.2.2 "items"
  cases hy : getF y "items" with
  | none =>
    cases ht : getF t "items" with
    | none => rfl
    | some v' =>
      rw [hy, ht] at hvs
      exact absurd hvs (by simp [OptValShape])
  | some v =>
    rw [hy] at hj
    cases ht : getF t "items" with
    | none => rfl
    | some v' =>
      rw [hy, ht] at hvs
      simp only [OptValShape] at hvs
      have hj2 : (!(truthy v && !isArr v && (hasMaxB y || hasMinB y))) = true := hj
      show (!(truthy v' && !isArr v' && (hasMaxB y || hasMinB y))) = true
      rw [valShape_truthy hvs, valShape_isArr hvs]
      exact hj2

theorem j10snd_shape {y t : JSON} (h : NodeShapeEq y t)
    (hj : j10snd y = true) : j10snd t = true := by
  unfold j10snd at hj ⊢
  rw [h.1 "maxItems" (by decide)]
  have hvs := h.2.2 "items"
  cases ht : getF t "items" with
  | none => rfl
  | some v' =>
    cases hy : getF y "items" with
    | none =>
      rw [hy, ht] at hvs
      exact absurd hvs (by simp [OptValShape])
    | some v =>
      rw [hy] at hj
      rw [hy, ht] at hvs
      simp only [OptValShape] at hvs
      cases v' with
      | arr l2 =>
        rcases hvs with ⟨h1, h2⟩ | ⟨la, lb, hva, hvb, hlen⟩ | rfl
        · simp [isObj] at h2
        · cases hvb
          subst hva
          cases hM : getF y "maxItems" with
          | none => rfl
          | some w =>
            rw [hM] at hj
            cases w with
            | num n =>
              have hj2 : (!(decide (0 ≤ n) &&
                  decide (n < (la.length : Int)))) = true := hj
              show (!(decide (0 ≤ n) && decide (n < (l2.length : Int)))) = true
              rw [← hlen]
              exact hj2
            | null => rfl
            | bool b => rfl
            | str s => rfl
            | arr l0 => rfl
            | obj m0 => rfl
        · exact hj
      | null =>
        cases getF y "maxItems" with
        | none => rfl
        | some w => cases w <;> rfl
      | bool b =>
        cases getF y "maxItems" with
        | none => rfl
        | some w => cases w <;> rfl
      | num n =>
        cases getF y "maxItems" with
        | none => rfl
        | some w => cases w <;> rfl
      | str s =>
        cases getF y "maxItems" with
        | none => rfl
        | some w => cases w <;> rfl
      | obj m =>
        cases getF y "maxItems" with
        | none => rfl
        | some w => cases w <;> rfl

theorem j10B_shape (o : Options) {y t : JSON} (h : NodeShapeEq y t)
    (hy : j10B o y = true) : j10B o t = true := by
  unfold j10B at hy ⊢
  cases hig : o.ignoreMinAndMaxItems with
  | true => rfl
  | false =>
    rw [hig] at hy
    simp only [Bool.false_or, Bool.and_eq_true] at hy ⊢
    exact ⟨j10fst_shape h hy.1, j10snd_shape h hy.2⟩

theorem j11B_shape {y t : JSON} (h : NodeShapeEq y t) (hy : j11B y = true) :
    j11B t = true := by
  unfold j11B at hy ⊢
  rw [optValShape_truthyO (h.2.2 "$defs")]
  exact hy

theorem j12B_shape {y t : JSON} (h : NodeShapeEq y t) (hy : j12B y = true) :
    j12B t = true := by
  rw [j12B_congr (h.1 "const" (by decide))]
  exact hy

theorem acc1_shape {y t : JSON} (h : NodeShapeEq y t) (hy : acc1 y = true) :
    acc1 t = true := by
  simp only [acc1, Bool.and_eq_true] at hy ⊢
  exact ⟨ctB_shape h hy.1, j1B_shape h hy.2⟩

theorem acc2_shape {y t : JSON} (h : NodeShapeEq y t) (hy : acc2 y = true) :
    acc2 t = true := by
  simp only [acc2, Bool.and_eq_true] at hy ⊢
  exact ⟨acc1_shape h hy.1, j2B_shape h hy.2⟩

theorem acc3_shape {y t : JSON} (h : NodeShapeEq y t) (hy : acc3 y = true) :
    acc3 t = true := by
  simp only [acc3, Bool.and_eq_true] at hy ⊢
  exact ⟨acc2_shape h hy.1, j3B_shape h hy.2⟩

theorem acc4_shape {y t : JSON} (h : NodeShapeEq y t) (hy : acc4 y = true) :
    acc4 t = true := by
  simp only [acc4, Bool.and_eq_true] at hy ⊢
  exact ⟨acc3_shape h hy.1, j4B_shape h hy.2⟩

theorem acc5_shape {y t : JSON} (h : NodeShapeEq y t) (hy : acc5 y = true) :
    acc5 t = true := by
  simp only [acc5, Bool.and_eq_true] at hy ⊢
  exact ⟨acc4_shape h hy.1, j5B_shape h hy.2⟩

theorem acc7_shape {y t : JSON} (h : NodeShapeEq y t) (hy : acc7 y = true) :
    acc7 t = true := by
  simp only [acc7, Bool.and_eq_true] at hy ⊢
  exact ⟨acc5_shape h hy.1, j7B_shape h hy.2⟩

theorem acc8_shape (o : Options) {y t : JSON} (h : NodeShapeEq y t)
    (hy : acc8 o y = true) : acc8 o t = true := by
  simp only [acc8, Bool.and_eq_true] at hy ⊢
  exact ⟨acc7_shape h hy.1, j8B_shape o h hy.2⟩

theorem acc9_shape (o : Options) {y t : JSON} (h : NodeShapeEq y t)
    (hy : acc9 o y = true) : acc9 o t = true := by
  simp only [acc9, Bool.and_eq_true] at hy ⊢
  exact ⟨acc8_shape o h hy.1, j9B_shape o h hy.2⟩

theorem acc10_shape (o : Options) {y t : JSON} (h : NodeShapeEq y t)
    (hy : acc10 o y = true) : acc10 o t = true := by
  simp only [acc10, Bool.and_eq_true] at hy ⊢
  exact ⟨acc9_shape o h hy.1, j10B_shape o h hy.2⟩

theorem acc11_shape (o : Options) {y t : JSON} (h : NodeShapeEq y t)
    (hy : acc11 o y = true) : acc11 o t = true := by
  simp only [acc11, Bool.and_eq_true] at hy ⊢
  exact ⟨acc10_shape o h hy.1, j11B_shape h hy.2⟩

theorem invAll_shape (o : Options) {y t : JSON} (h : NodeShapeEq y t)
    (hy : invAll o y = true) : invAll o t = true := by
  simp only [invAll, Bool.and_eq_true] at hy ⊢
  exact ⟨acc11_shape o h hy.1, j12B_shape h hy.2⟩

/-! ### Per-rule step lemmas: each pass preserves the invariants already
established and establishes its own -/

theorem j1B_of_type_nonarr {y v : JSON} (ht : getF y "type" = some v)
    (hv : isArr v = false) : j1B y = true := by
  unfold j1B
  rw [ht]
  cases v with
  | arr l => simp [isArr] at hv
  | null =>
    cases getF y "enum" with
    | none => rfl
    | some w => cases w <;> rfl
  | bool b =>
    cases getF y "enum" with
    | none => rfl
    | some w => cases w <;> rfl
  | num n =>
    cases getF y "enum" with
    | none => rfl
    | some w => cases w <;> rfl
  | str s =>
    cases getF y "enum" with
    | none => rfl
    | some w => cases w <;> rfl
  | obj m =>
    cases getF y "enum" with
    | none => rfl
    | some w => cases w <;> rfl

theorem j2B_of_type_nonarr {y v : JSON} (ht : getF y "type" = some v)
    (hv : isArr v = false) : j2B y = true := by
  unfold j2B
  rw [ht]
  cases v with
  | arr l => simp [isArr] at hv
  | null => rfl
  | bool b => rfl
  | num n => rfl
  | str s => rfl
  | obj m => rfl

theorem nstep1 (x root : JSON) (file : String) (o : Options) (r : Bool)
    (y : JSON) (hx : ctB x = true)
    (hok : ruleRemoveNullFromType x root file o r = .ok y) :
    acc1 y = true ∧ ∀ c ∈ childVals y, c ∈ childVals x := by
  unfold ruleRemoveNullFromType at hok
  cases he : getF x "enum" with
  | none =>
    simp only [he] at hok
    cases hok
    exact ⟨by simp only [acc1, Bool.and_eq_true]
              exact ⟨hx, by simp [j1B, he]⟩,
           fun c hc => hc⟩
  | some v =>
    cases v with
    | arr es =>
      cases ht : getF x "type" with
      | none =>
        simp only [he, ht] at hok
        cases hok
        exact ⟨by simp only [acc1, Bool.and_eq_true]
                  exact ⟨hx, by simp [j1B, he, ht]⟩,
               fun c hc => hc⟩
      | some w =>
        cases w with
        | arr ts =>
          simp only [he, ht] at hok
          cases hcond : (es.any (fun e => match e with
              | JSON.null => true | _ => false) &&
            ts.any (fun t => match t with
              | JSON.str s => s == "null" | _ => false)) with
          | true =>
            rw [hcond] at hok
            simp only [eq_self_iff_true, if_true] at hok
            cases hok
            have hobjx : isObj x = true := isObj_of_getF ht
            have htY : getF (setF x "type" (.arr (ts.filter (fun t =>
                match t with | JSON.str s => s != "null" | _ => true))))
                "type" = some (.arr (ts.filter (fun t =>
                match t with | JSON.str s => s != "null" | _ => true))) :=
              getF_setF_self hobjx _ _
            have heY : getF (setF x "type" (.arr (ts.filter (fun t =>
                match t with | JSON.str s => s != "null" | _ => true))))
                "enum" = getF x "enum" := getF_setF_ne _ _ (by decide)
            refine ⟨?_, childSub_setF_nonchild x _ _ (by decide)⟩
            simp only [acc1, Bool.and_eq_true]
            constructor
            · unfold ctB
              rw [htY]
              unfold ctB at hx
              rw [ht] at hx
              simp only [List.all_eq_true] at hx ⊢
              intro t htm
              exact hx t (List.mem_filter.1 htm).1
            · unfold j1B
              rw [heY, he, htY]
              have hno : (ts.filter (fun t => match t with
                  | JSON.str s => s != "null" | _ => true)).any
                  (fun t => match t with
                  | JSON.str s => s == "null" | _ => false) = false := by
                cases hany : (ts.filter (fun t => match t with
                    | JSON.str s => s != "null" | _ => true)).any
                    (fun t => match t with
                    | JSON.str s => s == "null" | _ => false) with
                | false => rfl
                | true =>
                  exfalso
                  rw [List.any_eq_true] at hany
                  obtain ⟨t, htm, hteq⟩ := hany
                  have hpred := (List.mem_filter.1 htm).2
                  cases t with
                  | str s =>
                    have hteq2 : (s == "null") = true := hteq
                    have hpred2 : (s != "null") = true := hpred
                    simp only [bne] at hpred2
                    rw [hteq2] at hpred2
                    cases hpred2
                  | null => cases hteq
                  | bool b => cases hteq
                  | num n => cases hteq
                  | arr l => cases hteq
                  | obj m => cases hteq
              show (!(es.any (fun e => match e with
                  | JSON.null => true | _ => false) &&
                (ts.filter (fun t => match t with
                  | JSON.str s => s != "null" | _ => true)).any
                  (fun t => match t with
                  | JSON.str s => s == "null" | _ => false))) = true
              rw [hno, Bool.and_false]
              rfl
          | false =>
            rw [hcond] at hok
            simp only [Bool.false_eq_true, if_false] at hok
            cases hok
            refine ⟨?_, fun c hc => hc⟩
            simp only [acc1, Bool.and_eq_true]
            refine ⟨hx, ?_⟩
            unfold j1B
            rw [he, ht]
            show (!(es.any (fun e => match e with
                | JSON.null => true | _ => false) &&
              ts.any (fun t => match t with
                | JSON.str s => s == "null" | _ => false))) = true
            rw [hcond]
            rfl
        | null =>
          simp only [he, ht] at hok
          cases hok
          exact ⟨by simp only [acc1, Bool.and_eq_true]
                    exact ⟨hx, by simp [j1B, he, ht]⟩,
                 fun c hc => hc⟩
        | bool b =>
          simp only [he, ht] at hok
          cases hok
          exact ⟨by simp only [acc1, Bool.and_eq_true]
                    exact ⟨hx, by simp [j1B, he, ht]⟩,
                 fun c hc => hc⟩
        | num n =>
          simp only [he, ht] at hok
          cases hok
          exact ⟨by simp only [acc1, Bool.and_eq_true]
                    exact ⟨hx, by simp [j1B, he, ht]⟩,
                 fun c hc => hc⟩
        | str s =>
          simp only [he, ht] at hok
          cases hok
          exact ⟨by simp only [acc1, Bool.and_eq_true]
                    exact ⟨hx, by simp [j1B, he, ht]⟩,
                 fun c hc => hc⟩
        | obj m =>
          simp only [he, ht] at hok
          cases hok
          exact ⟨by simp only [acc1, Bool.and_eq_true]
                    exact ⟨hx, by simp [j1B, he, ht]⟩,
                 fun c hc => hc⟩
    | null =>
      simp only [he] at hok
      cases hok
      exact ⟨by simp only [acc1, Bool.and_eq_true]
                exact ⟨hx, by simp [j1B, he]⟩,
             fun c hc => hc⟩
    | bool b =>
      simp only [he] at hok
      cases hok
      exact ⟨by simp only [acc1, Bool.and_eq_true]
                exact ⟨hx, by simp [j1B, he]⟩,
             fun c hc => hc⟩
    | num n =>
      simp only [he] at hok
      cases hok
      exact ⟨by simp only [acc1, Bool.and_eq_true]
                exact ⟨hx, by simp [j1B, he]⟩,
             fun c hc => hc⟩
    | str s =>
      simp only [he] at hok
      cases hok
      exact ⟨by simp only [acc1, Bool.and_eq_true]
                exact ⟨hx, by simp [j1B, he]⟩,
             fun c hc => hc⟩
    | obj m =>
      simp only [he] at hok
      cases hok
      exact ⟨by simp only [acc1, Bool.and_eq_true]
                exact ⟨hx, by simp [j1B, he]⟩,
             fun c hc => hc⟩

theorem ctB_of_type_nonarr {y v : JSON} (ht : getF y "type" = some v)
    (hv : isArr v = false) : ctB y = true := by
  unfold ctB
  rw [ht]
  cases v with
  | arr l => simp [isArr] at hv
  | null => rfl
  | bool b => rfl
  | num n => rfl
  | str s => rfl
  | obj m => rfl

theorem childSub_setF_emptyChild (x : JSON) (k : String) (v : JSON)
    (hv : fieldChildVals k v = []) :
    ∀ c ∈ childVals (setF x k v), c ∈ childVals x := by
  intro c hc
  rcases childVals_setF_sub hc with h | h
  · exact h
  · rw [hv] at h
    cases h

theorem nstep2 (x root : JSON) (file : String) (o : Options) (r : Bool)
    (y : JSON) (hx : acc1 x = true)
    (hok : ruleDestructureUnaryTypes x root file o r = .ok y) :
    acc2 y = true ∧ ∀ c ∈ childVals y, c ∈ childVals x := by
  unfold ruleDestructureUnaryTypes at hok
  cases ht : getF x "type" with
  | none =>
    simp only [ht] at hok
    cases hok
    exact ⟨by simp only [acc2, Bool.and_eq_true]
              exact ⟨hx, by simp [j2B, ht]⟩,
           fun c hc => hc⟩
  | some v =>
    cases v with
    | arr l =>
      cases l with
      | nil =>
        simp only [ht] at hok
        cases hok
        exact ⟨by simp only [acc2, Bool.and_eq_true]
                  exact ⟨hx, by simp [j2B, ht]⟩,
               fun c hc => hc⟩
      | cons a t =>
        cases t with
        | nil =>
          simp only [ht] at hok
          cases hok
          have hobjx : isObj x = true := isObj_of_getF ht
          have htY : getF (setF x "type" a) "type" = some a :=
            getF_setF_self hobjx _ _
          have heY : getF (setF x "type" a) "enum" = getF x "enum" :=
            getF_setF_ne _ _ (by decide)
          have hisa : isArr a = false := by
            simp only [acc1, Bool.and_eq_true] at hx
            have hxc := hx.1
            unfold ctB at hxc
            rw [ht] at hxc
            simp only [List.all_cons, List.all_nil, Bool.and_true] at hxc
            cases ha : isArr a
            · rfl
            · rw [ha] at hxc
              cases hxc
          refine ⟨?_, childSub_setF_nonchild x _ _ (by decide)⟩
          simp only [acc2, acc1, Bool.and_eq_true]
          exact ⟨⟨ctB_of_type_nonarr htY hisa, j1B_of_type_nonarr htY hisa⟩,
            j2B_of_type_nonarr htY hisa⟩
        | cons b t2 =>
          simp only [ht] at hok
          cases hok
          exact ⟨by simp only [acc2, Bool.and_eq_true]
                    exact ⟨hx, by simp [j2B, ht]⟩,
                 fun c hc => hc⟩
    | null =>
      simp only [ht] at hok
      cases hok
      exact ⟨by simp only [acc2, Bool.and_eq_true]
                exact ⟨hx, by simp [j2B, ht]⟩,
             fun c hc => hc⟩
    | bool b =>
      simp only [ht] at hok
      cases hok
      exact ⟨by simp only [acc2, Bool.and_eq_true]
                exact ⟨hx, by simp [j2B, ht]⟩,
             fun c hc => hc⟩
    | num n =>
      simp only [ht] at hok
      cases hok
      exact ⟨by simp only [acc2, Bool.and_eq_true]
                exact ⟨hx, by simp [j2B, ht]⟩,
             fun c hc => hc⟩
    | str s =>
      simp only [ht] at hok
      cases hok
      exact ⟨by simp only [acc2, Bool.and_eq_true]
                exact ⟨hx, by simp [j2B, ht]⟩,
             fun c hc => hc⟩
    | obj m =>
      simp only [ht] at hok
      cases hok
      exact ⟨by simp only [acc2, Bool.and_eq_true]
                exact ⟨hx, by simp [j2B, ht]⟩,
             fun c hc => hc⟩

theorem nstep3 (x root : JSON) (file : String) (o : Options) (r : Bool)
    (y : JSON) (hx : acc2 x = true)
    (hok : ruleAddEmptyRequired x root file o r = .ok y) :
    acc3 y = true ∧ ∀ c ∈ childVals y, c ∈ childVals x := by
  unfold ruleAddEmptyRequired at hok
  cases hcond : (isObjectType x && !(hasKey x "required")) with
  | true =>
    rw [hcond] at hok
    simp only [eq_self_iff_true, if_true] at hok
    cases hok
    simp only [Bool.and_eq_true] at hcond
    have hobjx : isObj x = true := isObj_of_isObjectType hcond.1
    have hty : getF (setF x "required" (.arr [])) "type" = getF x "type" :=
      getF_setF_ne _ _ (by decide)
    have hey : getF (setF x "required" (.arr [])) "enum" = getF x "enum" :=
      getF_setF_ne _ _ (by decide)
    have hacc2 : acc2 (setF x "required" (.arr [])) = acc2 x := by
      simp only [acc2, acc1]
      rw [ctB_congr hty, j1B_congr hey hty, j2B_congr hty]
    have hj3 : j3B (setF x "required" (.arr [])) = true := by
      unfold j3B
      rw [hasKey_setF_self hobjx]
      simp
    refine ⟨?_, childSub_setF_nonchild x _ _ (by decide)⟩
    simp only [acc3, Bool.and_eq_true]
    exact ⟨by rw [hacc2]; exact hx, hj3⟩
  | false =>
    rw [hcond] at hok
    simp only [Bool.false_eq_true, if_false] at hok
    cases hok
    refine ⟨?_, fun c hc => hc⟩
    simp only [acc3, Bool.and_eq_true]
    refine ⟨hx, ?_⟩
    unfold j3B
    rw [hcond]
    rfl

theorem nstep4 (x root : JSON) (file : String) (o : Options) (r : Bool)
    (y : JSON) (hx : acc3 x = true)
    (hok : ruleRequiredFalseToEmpty x root file o r = .ok y) :
    acc4 y = true ∧ ∀ c ∈ childVals y, c ∈ childVals x := by
  unfold ruleRequiredFalseToEmpty at hok
  cases hr : getF x "required" with
  | none =>
    simp only [hr] at hok
    cases hok
    exact ⟨by simp only [acc4, Bool.and_eq_true]
              exact ⟨hx, by simp [j4B, hr]⟩,
           fun c hc => hc⟩
  | some v =>
    cases v with
    | bool b =>
      cases b with
      | false =>
        simp only [hr] at hok
        cases hok
        have hobjx : isObj x = true := isObj_of_getF hr
        have hty : getF (setF x "required" (.arr [])) "type" =
            getF x "type" := getF_setF_ne _ _ (by decide)
        have hey : getF (setF x "required" (.arr [])) "enum" =
            getF x "enum" := getF_setF_ne _ _ (by decide)
        have hpy : (getF (setF x "required" (.arr [])) "properties").isSome =
            (getF x "properties").isSome := by
          rw [getF_setF_ne _ _ (by decide)]
        have hrkx : hasKey x "required" = true := by
          rw [hasKey_eq_isSome_getF, hr]
          rfl
        have hrky : hasKey (setF x "required" (.arr [])) "required" = true :=
          hasKey_setF_self hobjx _ _
        have hacc3 : acc3 (setF x "required" (.arr [])) = acc3 x := by
          simp only [acc3, acc2, acc1]
          rw [ctB_congr hty, j1B_congr hey hty, j2B_congr hty,
            j3B_congr (isObjectType_congr hpy hty) (hrky.trans hrkx.symm)]
        have hj4 : j4B (setF x "required" (.arr [])) = true := by
          unfold j4B
          rw [getF_setF_self hobjx]
        refine ⟨?_, childSub_setF_nonchild x _ _ (by decide)⟩
        simp only [acc4, Bool.and_eq_true]
        exact ⟨by rw [hacc3]; exact hx, hj4⟩
      | true =>
        simp only [hr] at hok
        cases hok
        exact ⟨by simp only [acc4, Bool.and_eq_true]
                  exact ⟨hx, by simp [j4B, hr]⟩,
               fun c hc => hc⟩
    | null =>
      simp only [hr] at hok
      cases hok
      exact ⟨by simp only [acc4, Bool.and_eq_true]
                exact ⟨hx, by simp [j4B, hr]⟩,
             fun c hc => hc⟩
    | num n =>
      simp only [hr] at hok
      cases hok
      exact ⟨by simp only [acc4, Bool.and_eq_true]
                exact ⟨hx, by simp [j4B, hr]⟩,
             fun c hc => hc⟩
    | str s =>
      simp only [hr] at hok
      cases hok
      exact ⟨by simp only [acc4, Bool.and_eq_true]
                exact ⟨hx, by simp [j4B, hr]⟩,
             fun c hc => hc⟩
    | arr l =>
      simp only [hr] at hok
      cases hok
      exact ⟨by simp only [acc4, Bool.and_eq_true]
                exact ⟨hx, by simp [j4B, hr]⟩,
             fun c hc => hc⟩
    | obj m =>
      simp only [hr] at hok
      cases hok
      exact ⟨by simp only [acc4, Bool.and_eq_true]
                exact ⟨hx, by simp [j4B, hr]⟩,
             fun c hc => hc⟩

theorem nstep5 (x root : JSON) (file : String) (o : Options) (r : Bool)
    (y : JSON) (hx : acc4 x = true)
    (hok : ruleDefaultAdditionalProps x root file o r = .ok y) :
    acc5 y = true ∧ ∀ c ∈ childVals y, c ∈ childVals x := by
  unfold ruleDefaultAdditionalProps at hok
  cases hcond : (isObjectType x && !(hasKey x "additionalProperties") &&
      (getF x "patternProperties").isNone) with
  | true =>
    rw [hcond] at hok
    simp only [eq_self_iff_true, if_true] at hok
    cases hok
    simp only [Bool.and_eq_true] at hcond
    have hobjx : isObj x = true := isObj_of_isObjectType hcond.1.1
    have hty : getF (setF x "additionalProperties" (.bool true)) "type" =
        getF x "type" := getF_setF_ne _ _ (by decide)
    have hey : getF (setF x "additionalProperties" (.bool true)) "enum" =
        getF x "enum" := getF_setF_ne _ _ (by decide)
    have hpy : (getF (setF x "additionalProperties" (.bool true))
        "properties").isSome = (getF x "properties").isSome := by
      rw [getF_setF_ne _ _ (by decide)]
    have hrk : hasKey (setF x "additionalProperties" (.bool true))
        "required" = hasKey x "required" := hasKey_setF_ne _ _ (by decide)
    have hrg : getF (setF x "additionalProperties" (.bool true)) "required" =
        getF x "required" := getF_setF_ne _ _ (by decide)
    have hacc4 : acc4 (setF x "additionalProperties" (.bool true)) =
        acc4 x := by
      simp only [acc4, acc3, acc2, acc1]
      rw [ctB_congr hty, j1B_congr hey hty, j2B_congr hty,
        j3B_congr (isObjectType_congr hpy hty) hrk, j4B_congr hrg]
    have hj5 : j5B (setF x "additionalProperties" (.bool true)) = true := by
      unfold j5B
      rw [hasKey_setF_self hobjx]
      simp
    refine ⟨?_, childSub_setF_emptyChild x _ _ rfl⟩
    simp only [acc5, Bool.and_eq_true]
    exact ⟨by rw [hacc4]; exact hx, hj5⟩
  | false =>
    rw [hcond] at hok
    simp only [Bool.false_eq_true, if_false] at hok
    cases hok
    refine ⟨?_, fun c hc => hc⟩
    simp only [acc5, Bool.and_eq_true]
    refine ⟨hx, ?_⟩
    unfold j5B
    rw [hcond]
    rfl

theorem nstep6 (x root : JSON) (file : String) (o : Options) (r : Bool)
    (y : JSON) (hx : acc5 x = true)
    (hok : ruleDefaultTopLevelId x root file o r = .ok y) :
    acc5 y = true ∧ ∀ c ∈ childVals y, c ∈ childVals x := by
  unfold ruleDefaultTopLevelId at hok
  cases hcond : (r && !(truthyO (getF x "id"))) with
  | true =>
    rw [hcond] at hok
    simp only [eq_self_iff_true, if_true] at hok
    cases hok
    have hty : getF (setF x "id" (.str (toSafeString (justName file))))
        "type" = getF x "type" := getF_setF_ne _ _ (by decide)
    have hey : getF (setF x "id" (.str (toSafeString (justName file))))
        "enum" = getF x "enum" := getF_setF_ne _ _ (by decide)
    have hpy : (getF (setF x "id" (.str (toSafeString (justName file))))
        "properties").isSome = (getF x "properties").isSome := by
      rw [getF_setF_ne _ _ (by decide)]
    have hrk : hasKey (setF x "id" (.str (toSafeString (justName file))))
        "required" = hasKey x "required" := hasKey_setF_ne _ _ (by decide)
    have hrg : getF (setF x "id" (.str (toSafeString (justName file))))
        "required" = getF x "required" := getF_setF_ne _ _ (by decide)
    have hak : hasKey (setF x "id" (.str (toSafeString (justName file))))
        "additionalProperties" = hasKey x "additionalProperties" :=
      hasKey_setF_ne _ _ (by decide)
    have hpp : getF (setF x "id" (.str (toSafeString (justName file))))
        "patternProperties" = getF x "patternProperties" :=
      getF_setF_ne _ _ (by decide)
    have hacc5 : acc5 (setF x "id" (.str (toSafeString (justName file)))) =
        acc5 x := by
      simp only [acc5, acc4, acc3, acc2, acc1]
      rw [ctB_congr hty, j1B_congr hey hty, j2B_congr hty,
        j3B_congr (isObjectType_congr hpy hty) hrk, j4B_congr hrg,
        j5B_congr (isObjectType_congr hpy hty) hak hpp]
    exact ⟨by rw [hacc5]; exact hx,
      childSub_setF_nonchild x _ _ (by decide)⟩
  | false =>
    rw [hcond] at hok
    simp only [Bool.false_eq_true, if_false] at hok
    cases hok
    exact ⟨hx, fun c hc => hc⟩

theorem nstep7 (x root : JSON) (file : String) (o : Options) (r : Bool)
    (y : JSON) (hx : acc5 x = true)
    (hok : ruleEscapeBlockComment x root file o r = .ok y) :
    acc7 y = true ∧ ∀ c ∈ childVals y, c ∈ childVals x := by
  unfold ruleEscapeBlockComment at hok
  cases hd : getF x "description" with
  | none =>
    simp only [hd] at hok
    cases hok
    exact ⟨by simp only [acc7, Bool.and_eq_true]
              exact ⟨hx, by simp [j7B, hd]⟩,
           fun c hc => hc⟩
  | some v =>
    cases v with
    | str d =>
      simp only [hd] at hok
      cases hok
      have hobjx : isObj x = true := isObj_of_getF hd
      have hty : getF (setF x "description" (.str (escapeBlockComment d)))
          "type" = getF x "type" := getF_setF_ne _ _ (by decide)
      have hey : getF (setF x "description" (.str (escapeBlockComment d)))
          "enum" = getF x "enum" := getF_setF_ne _ _ (by decide)
      have hpy : (getF (setF x "description" (.str (escapeBlockComment d)))
          "properties").isSome = (getF x "properties").isSome := by
        rw [getF_setF_ne _ _ (by decide)]
      have hrk : hasKey (setF x "description" (.str (escapeBlockComment d)))
          "required" = hasKey x "required" := hasKey_setF_ne _ _ (by decide)
      have hrg : getF (setF x "description" (.str (escapeBlockComment d)))
          "required" = getF x "required" := getF_setF_ne _ _ (by decide)
      have hak : hasKey (setF x "description" (.str (escapeBlockComment d)))
          "additionalProperties" = hasKey x "additionalProperties" :=
        hasKey_setF_ne _ _ (by decide)
      have hpp : getF (setF x "description" (.str (escapeBlockComment d)))
          "patternProperties" = getF x "patternProperties" :=
        getF_setF_ne _ _ (by decide)
      have hacc5 : acc5 (setF x "description"
          (.str (escapeBlockComment d))) = acc5 x := by
        simp only [acc5, acc4, acc3, acc2, acc1]
        rw [ctB_congr hty, j1B_congr hey hty, j2B_congr hty,
          j3B_congr (isObjectType_congr hpy hty) hrk, j4B_congr hrg,
          j5B_congr (isObjectType_congr hpy hty) hak hpp]
      have hj7 : j7B (setF x "description" (.str (escapeBlockComment d))) =
          true := by
        unfold j7B
        rw [getF_setF_self hobjx]
        exact escapeBlockComment_beq_idem d
      refine ⟨?_, childSub_setF_nonchild x _ _ (by decide)⟩
      simp only [acc7, Bool.and_eq_true]
      exact ⟨by rw [hacc5]; exact hx, hj7⟩
    | null =>
      simp only [hd] at hok
      cases hok
      exact ⟨by simp only [acc7, Bool.and_eq_true]
                exact ⟨hx, by simp [j7B, hd]⟩,
             fun c hc => hc⟩
    | bool b =>
      simp only [hd] at hok
      cases hok
      exact ⟨by simp only [acc7, Bool.and_eq_true]
                exact ⟨hx, by simp [j7B, hd]⟩,
             fun c hc => hc⟩
    | num n =>
      simp only [hd] at hok
      cases hok
      exact ⟨by simp only [acc7, Bool.and_eq_true]
                exact ⟨hx, by simp [j7B, hd]⟩,
             fun c hc => hc⟩
    | arr l =>
      simp only [hd] at hok
      cases hok
      exact ⟨by simp only [acc7, Bool.and_eq_true]
                exact ⟨hx, by simp [j7B, hd]⟩,
             fun c hc => hc⟩
    | obj m =>
      simp only [hd] at hok
      cases hok
      exact ⟨by simp only [acc7, Bool.and_eq_true]
                exact ⟨hx, by simp [j7B, hd]⟩,
             fun c hc => hc⟩

theorem nstep8 (x root : JSON) (file : String) (o : Options) (r : Bool)
    (y : JSON) (hx : acc7 x = true)
    (hok : ruleRemoveMaxMinItems x root file o r = .ok y) :
    acc8 o y = true ∧ ∀ c ∈ childVals y, c ∈ childVals x := by
  unfold ruleRemoveMaxMinItems at hok
  cases hig : o.ignoreMinAndMaxItems with
  | false =>
    rw [hig] at hok
    simp only [Bool.false_eq_true, if_false] at hok
    cases hok
    refine ⟨?_, fun c hc => hc⟩
    simp only [acc8, Bool.and_eq_true]
    refine ⟨hx, ?_⟩
    unfold j8B
    rw [hig]
    rfl
  | true =>
    rw [hig] at hok
    simp only [eq_self_iff_true, if_true] at hok
    cases hok
    have hget : ∀ k : String, ¬ k = "minItems" → ¬ k = "maxItems" →
        getF (delF (delF x "maxItems") "minItems") k = getF x k := by
      intro k h1 h2
      rw [getF_delF_ne _ h1, getF_delF_ne _ h2]
    have hkey : ∀ k : String, ¬ k = "minItems" → ¬ k = "maxItems" →
        hasKey (delF (delF x "maxItems") "minItems") k = hasKey x k := by
      intro k h1 h2
      rw [hasKey_delF_ne _ h1, hasKey_delF_ne _ h2]
    have hty := hget "type" (by decide) (by decide)
    have hpy : (getF (delF (delF x "maxItems") "minItems")
        "properties").isSome = (getF x "properties").isSome := by
      rw [hget "properties" (by decide) (by decide)]
    have hacc7 : acc7 (delF (delF x "maxItems") "minItems") = acc7 x := by
      simp only [acc7, acc5, acc4, acc3, acc2, acc1]
      rw [ctB_congr hty, j1B_congr (hget "enum" (by decide) (by decide)) hty,
        j2B_congr hty,
        j3B_congr (isObjectType_congr hpy hty)
          (hkey "required" (by decide) (by decide)),
        j4B_congr (hget "required" (by decide) (by decide)),
        j5B_congr (isObjectType_congr hpy hty)
          (hkey "additionalProperties" (by decide) (by decide))
          (hget "patternProperties" (by decide) (by decide)),
        j7B_congr (hget "description" (by decide) (by decide))]
    have hj8 : j8B o (delF (delF x "maxItems") "minItems") = true := by
      unfold j8B
      have hkmax : hasKey (delF (delF x "maxItems") "minItems") "maxItems" =
          false := by
        rw [hasKey_delF_ne _ (by decide), hasKey_delF_self]
      have hkmin : hasKey (delF (delF x "maxItems") "minItems") "minItems" =
          false := hasKey_delF_self _ _
      rw [hig, hkmax, hkmin]
      rfl
    refine ⟨?_, fun c hc => childSub_delF _ _ c (childSub_delF _ _ c hc)⟩
    simp only [acc8, Bool.and_eq_true]
    exact ⟨by rw [hacc7]; exact hx, hj8⟩

theorem nstep9 (x root : JSON) (file : String) (o : Options) (r : Bool)
    (y : JSON) (hx : acc8 o x = true)
    (hok : ruleNormaliseMinItems x root file o r = .ok y) :
    acc9 o y = true ∧ ∀ c ∈ childVals y, c ∈ childVals x := by
  unfold ruleNormaliseMinItems at hok
  cases hig : o.ignoreMinAndMaxItems with
  | true =>
    rw [hig] at hok
    simp only [eq_self_iff_true, if_true] at hok
    cases hok
    refine ⟨?_, fun c hc => hc⟩
    simp only [acc9, Bool.and_eq_true]
    refine ⟨hx, ?_⟩
    unfold j9B
    rw [hig]
    rfl
  | false =>
    rw [hig] at hok
    simp only [Bool.false_eq_true, if_false] at hok
    cases hA : isArrayType x with
    | false =>
      rw [hA] at hok
      simp only [Bool.false_eq_true, if_false] at hok
      cases hok
      refine ⟨?_, fun c hc => hc⟩
      simp only [acc9, Bool.and_eq_true]
      refine ⟨hx, ?_⟩
      unfold j9B
      rw [hig, hA]
      rfl
    | true =>
      rw [hA] at hok
      simp only [eq_self_iff_true, if_true] at hok
      have hobjx : isObj x = true := isObj_of_isArrayType hA
      cases hm : getF x "minItems" with
      | some v =>
        rw [hm] at hok
        cases v with
        | num m =>
          cases hok
          have hget : ∀ k : String, ¬ k = "minItems" →
              getF (setF x "minItems" (.num m)) k = getF x k := by
            intro k h1
            rw [getF_setF_ne _ _ h1]
          have hty := hget "type" (by decide)
          have hpy : (getF (setF x "minItems" (.num m))
              "properties").isSome = (getF x "properties").isSome := by
            rw [hget "properties" (by decide)]
          have hacc8 : acc7 (setF x "minItems" (.num m)) = acc7 x := by
            simp only [acc7, acc5, acc4, acc3, acc2, acc1]
            rw [ctB_congr hty, j1B_congr (hget "enum" (by decide)) hty,
              j2B_congr hty,
              j3B_congr (isObjectType_congr hpy hty)
                (hasKey_setF_ne _ _ (by decide)),
              j4B_congr (hget "required" (by decide)),
              j5B_congr (isObjectType_congr hpy hty)
                (hasKey_setF_ne _ _ (by decide))
                (hget "patternProperties" (by decide)),
              j7B_congr (hget "description" (by decide))]
          have hj8 : j8B o (setF x "minItems" (.num m)) = true := by
            unfold j8B
            rw [hig]
            rfl
          have hj9 : j9B o (setF x "minItems" (.num m)) = true := by
            unfold j9B
            rw [getF_setF_self hobjx]
            simp
          refine ⟨?_, childSub_setF_nonchild x _ _ (by decide)⟩
          simp only [acc9, acc8, Bool.and_eq_true]
          refine ⟨⟨?_, hj8⟩, hj9⟩
          rw [hacc8]
          simp only [acc8, Bool.and_eq_true] at hx
          exact hx.1
        | null =>
          cases hok
          have hget : ∀ k : String, ¬ k = "minItems" →
              getF (setF x "minItems" (.num 0)) k = getF x k := by
            intro k h1
            rw [getF_setF_ne _ _ h1]
          have hty := hget "type" (by decide)
          have hpy : (getF (setF x "minItems" (.num 0))
              "properties").isSome = (getF x "properties").isSome := by
            rw [hget "properties" (by decide)]
          have hacc8 : acc7 (setF x "minItems" (.num 0)) = acc7 x := by
            simp only [acc7, acc5, acc4, acc3, acc2, acc1]
            rw [ctB_congr hty, j1B_congr (hget "enum" (by decide)) hty,
              j2B_congr hty,
              j3B_congr (isObjectType_congr hpy hty)
                (hasKey_setF_ne _ _ (by decide)),
              j4B_congr (hget "required" (by decide)),
              j5B_congr (isObjectType_congr hpy hty)
                (hasKey_setF_ne _ _ (by decide))
                (hget "patternProperties" (by decide)),
              j7B_congr (hget "description" (by decide))]
          have hj8 : j8B o (setF x "minItems" (.num 0)) = true := by
            unfold j8B
            rw [hig]
            rfl
          have hj9 : j9B o (setF x "minItems" (.num 0)) = true := by
            unfold j9B
            rw [getF_setF_self hobjx]
            simp
          refine ⟨?_, childSub_setF_nonchild x _ _ (by decide)⟩
          simp only [acc9, acc8, Bool.and_eq_true]
          refine ⟨⟨?_, hj8⟩, hj9⟩
          rw [hacc8]
          simp only [acc8, Bool.and_eq_true] at hx
          exact hx.1
        | bool b =>
          cases hok
          have hget : ∀ k : String, ¬ k = "minItems" →
              getF (setF x "minItems" (.num 0)) k = getF x k := by
            intro k h1
            rw [getF_setF_ne _ _ h1]
          have hty := hget "type" (by decide)
          have hpy : (getF (setF x "minItems" (.num 0))
              "properties").isSome = (getF x "properties").isSome := by
            rw [hget "properties" (by decide)]
          have hacc8 : acc7 (setF x "minItems" (.num 0)) = acc7 x := by
            simp only [acc7, acc5, acc4, acc3, acc2, acc1]
            rw [ctB_congr hty, j1B_congr (hget "enum" (by decide)) hty,
              j2B_congr hty,
              j3B_congr (isObjectType_congr hpy hty)
                (hasKey_setF_ne _ _ (by decide)),
              j4B_congr (hget "required" (by decide)),
              j5B_congr (isObjectType_congr hpy hty)
                (hasKey_setF_ne _ _ (by decide))
                (hget "patternProperties" (by decide)),
              j7B_congr (hget "description" (by decide))]
          have hj8 : j8B o (setF x "minItems" (.num 0)) = true := by
            unfold j8B
            rw [hig]
            rfl
          have hj9 : j9B o (setF x "minItems" (.num 0)) = true := by
            unfold j9B
            rw [getF_setF_self hobjx]
            simp
          refine ⟨?_, childSub_setF_nonchild x _ _ (by decide)⟩
          simp only [acc9, acc8, Bool.and_eq_true]
          refine ⟨⟨?_, hj8⟩, hj9⟩
          rw [hacc8]
          simp only [acc8, Bool.and_eq_true] at hx
          exact hx.1
        | str s =>
          cases hok
          have hget : ∀ k : String, ¬ k = "minItems" →
              getF (setF x "minItems" (.num 0)) k = getF x k := by
            intro k h1
            rw [getF_setF_ne _ _ h1]
          have hty := hget "type" (by decide)
          have hpy : (getF (setF x "minItems" (.num 0))
              "properties").isSome = (getF x "properties").isSome := by
            rw [hget "properties" (by decide)]
          have hacc8 : acc7 (setF x "minItems" (.num 0)) = acc7 x := by
            simp only [acc7, acc5, acc4, acc3, acc2, acc1]
            rw [ctB_congr hty, j1B_congr (hget "enum" (by decide)) hty,
              j2B_congr hty,
              j3B_congr (isObjectType_congr hpy hty)
                (hasKey_setF_ne _ _ (by decide)),
              j4B_congr (hget "required" (by decide)),
              j5B_congr (isObjectType_congr hpy hty)
                (hasKey_setF_ne _ _ (by decide))
                (hget "patternProperties" (by decide)),
              j7B_congr (hget "description" (by decide))]
          have hj8 : j8B o (setF x "minItems" (.num 0)) = true := by
            unfold j8B
            rw [hig]
            rfl
          have hj9 : j9B o (setF x "minItems" (.num 0)) = true := by
            unfold j9B
            rw [getF_setF_self hobjx]
            simp
          refine ⟨?_, childSub_setF_nonchild x _ _ (by decide)⟩
          simp only [acc9, acc8, Bool.and_eq_true]
          refine ⟨⟨?_, hj8⟩, hj9⟩
          rw [hacc8]
          simp only [acc8, Bool.and_eq_true] at hx
          exact hx.1
        | arr l =>
          cases hok
          have hget : ∀ k : String, ¬ k = "minItems" →
              getF (setF x "minItems" (.num 0)) k = getF x k := by
            intro k h1
            rw [getF_setF_ne _ _ h1]
          have hty := hget "type" (by decide)
          have hpy : (getF (setF x "minItems" (.num 0))
              "properties").isSome = (getF x "properties").isSome := by
            rw [hget "properties" (by decide)]
          have hacc8 : acc7 (setF x "minItems" (.num 0)) = acc7 x := by
            simp only [acc7, acc5, acc4, acc3, acc2, acc1]
            rw [ctB_congr hty, j1B_congr (hget "enum" (by decide)) hty,
              j2B_congr hty,
              j3B_congr (isObjectType_congr hpy hty)
                (hasKey_setF_ne _ _ (by decide)),
              j4B_congr (hget "required" (by decide)),
              j5B_congr (isObjectType_congr hpy hty)
                (hasKey_setF_ne _ _ (by decide))
                (hget "patternProperties" (by decide)),
              j7B_congr (hget "description" (by decide))]
          have hj8 : j8B o (setF x "minItems" (.num 0)) = true := by
            unfold j8B
            rw [hig]
            rfl
          have hj9 : j9B o (setF x "minItems" (.num 0)) = true := by
            unfold j9B
            rw [getF_setF_self hobjx]
            simp
          refine ⟨?_, childSub_setF_nonchild x _ _ (by decide)⟩
          simp only [acc9, acc8, Bool.and_eq_true]
          refine ⟨⟨?_, hj8⟩, hj9⟩
          rw [hacc8]
          simp only [acc8, Bool.and_eq_true] at hx
          exact hx.1
        | obj mm =>
          cases hok
          have hget : ∀ k : String, ¬ k = "minItems" →
              getF (setF x "minItems" (.num 0)) k = getF x k := by
            intro k h1
            rw [getF_setF_ne _ _ h1]
          have hty := hget "type" (by decide)
          have hpy : (getF (setF x "minItems" (.num 0))
              "properties").isSome = (getF x "properties").isSome := by
            rw [hget "properties" (by decide)]
          have hacc8 : acc7 (setF x "minItems" (.num 0)) = acc7 x := by
            simp only [acc7, acc5, acc4, acc3, acc2, acc1]
            rw [ctB_congr hty, j1B_congr (hget "enum" (by decide)) hty,
              j2B_congr hty,
              j3B_congr (isObjectType_congr hpy hty)
                (hasKey_setF_ne _ _ (by decide)),
              j4B_congr (hget "required" (by decide)),
              j5B_congr (isObjectType_congr hpy hty)
                (hasKey_setF_ne _ _ (by decide))
                (hget "patternProperties" (by decide)),
              j7B_congr (hget "description" (by decide))]
          have hj8 : j8B o (setF x "minItems" (.num 0)) = true := by
            unfold j8B
            rw [hig]
            rfl
          have hj9 : j9B o (setF x "minItems" (.num 0)) = true := by
            unfold j9B
            rw [getF_setF_self hobjx]
            simp
          refine ⟨?_, childSub_setF_nonchild x _ _ (by decide)⟩
          simp only [acc9, acc8, Bool.and_eq_true]
          refine ⟨⟨?_, hj8⟩, hj9⟩
          rw [hacc8]
          simp only [acc8, Bool.and_eq_true] at hx
          exact hx.1
      | none =>
        rw [hm] at hok
        cases hok
        have hget : ∀ k : String, ¬ k = "minItems" →
            getF (setF x "minItems" (.num 0)) k = getF x k := by
          intro k h1
          rw [getF_setF_ne _ _ h1]
        have hty := hget "type" (by decide)
        have hpy : (getF (setF x "minItems" (.num 0))
            "properties").isSome = (getF x "properties").isSome := by
          rw [hget "properties" (by decide)]
        have hacc8 : acc7 (setF x "minItems" (.num 0)) = acc7 x := by
          simp only [acc7, acc5, acc4, acc3, acc2, acc1]
          rw [ctB_congr hty, j1B_congr (hget "enum" (by decide)) hty,
            j2B_congr hty,
            j3B_congr (isObjectType_congr hpy hty)
              (hasKey_setF_ne _ _ (by decide)),
            j4B_congr (hget "required" (by decide)),
            j5B_congr (isObjectType_congr hpy hty)
              (hasKey_setF_ne _ _ (by decide))
              (hget "patternProperties" (by decide)),
            j7B_congr (hget "description" (by decide))]
        have hj8 : j8B o (setF x "minItems" (.num 0)) = true := by
          unfold j8B
          rw [hig]
          rfl
        have hj9 : j9B o (setF x "minItems" (.num 0)) = true := by
          unfold j9B
          rw [getF_setF_self hobjx]
          simp
        refine ⟨?_, childSub_setF_nonchild x _ _ (by decide)⟩
        simp only [acc9, acc8, Bool.and_eq_true]
        refine ⟨⟨?_, hj8⟩, hj9⟩
        rw [hacc8]
        simp only [acc8, Bool.and_eq_true] at hx
        exact hx.1

theorem childSub_expand {x items : JSON} (l : List JSON)
    (hit : getF x "items" = some items) (hl : ∀ c ∈ l, c = items) (z : JSON)
    (hz : z = setF x "additionalItems" items ∨ z = x) :
    ∀ c ∈ childVals (setF z "items" (.arr l)), c ∈ childVals x := by
  have hzc : ∀ c ∈ childVals z, c ∈ childVals x := by
    rcases hz with rfl | rfl
    · intro c hc
      rcases childVals_setF_sub hc with h | h
      · exact h
      · have hco : isObj c = true := fieldChildVals_isObj h
        have hci : c = items := by
          cases items with
          | obj m =>
            simpa [fieldChildVals, mapChildKeys, listChildKeys, oneChildKeys]
              using h
          | null => simp [fieldChildVals, mapChildKeys, listChildKeys,
              oneChildKeys] at h
          | bool b => simp [fieldChildVals, mapChildKeys, listChildKeys,
              oneChildKeys] at h
          | num n => simp [fieldChildVals, mapChildKeys, listChildKeys,
              oneChildKeys] at h
          | str c0 => simp [fieldChildVals, mapChildKeys, listChildKeys,
              oneChildKeys] at h
          | arr l0 => simp [fieldChildVals, mapChildKeys, listChildKeys,
              oneChildKeys] at h
        subst hci
        exact items_child hit hco
    · intro c hc
      exact hc
  intro c hc
  rcases childVals_setF_sub hc with h | h
  · exact hzc c h
  · have hco : isObj c = true := fieldChildVals_isObj h
    have hcl : c ∈ l := by
      have : c ∈ l.filter isObj := by
        simpa [fieldChildVals, mapChildKeys, listChildKeys] using h
      exact (List.mem_filter.1 this).1
    have hci : c = items := hl c hcl
    subst hci
    exact items_child hit hco

theorem childSub_truncate {x s1 : JSON} (l : List JSON) (n : Int)
    (hsub : ∀ c ∈ childVals s1, c ∈ childVals x)
    (hti : getF s1 "items" = some (.arr l)) :
    ∀ c ∈ childVals (setF s1 "items" (.arr (l.take n.toNat))),
      c ∈ childVals x := by
  intro c hc
  rcases childVals_setF_sub hc with h | h
  · exact hsub c h
  · have hco : isObj c = true := fieldChildVals_isObj h
    have hcl : c ∈ l.take n.toNat := by
      have : c ∈ (l.take n.toNat).filter isObj := by
        simpa [fieldChildVals, mapChildKeys, listChildKeys] using h
      exact (List.mem_filter.1 this).1
    have hcl2 : c ∈ l := List.take_subset _ _ hcl
    have : c ∈ fieldChildVals "items" (.arr l) := by
      simp [fieldChildVals, mapChildKeys, listChildKeys, List.mem_filter,
        hcl2, hco]
    exact hsub c (mem_childVals_of_getF hti this)

theorem ruleNormalizeItems_anal (x root : JSON) (file : String)
    (o : Options) (r : Bool) (y : JSON)
    (hok : ruleNormalizeItems x root file o r = .ok y) :
    (∀ c ∈ childVals y, c ∈ childVals x) ∧ isObj y = isObj x ∧
    (∀ k : String, ¬ k = "items" → ¬ k = "additionalItems" →
      getF y k = getF x k) ∧
    (getF y "items").isSome = (getF x "items").isSome ∧
    j10B o y = true := by
  unfold ruleNormalizeItems at hok
  cases hig : o.ignoreMinAndMaxItems with
  | true =>
    rw [hig] at hok
    simp only [eq_self_iff_true, if_true] at hok
    cases hok
    exact ⟨fun c hc => hc, rfl, fun k _ _ => rfl, rfl, by
      unfold j10B
      rw [hig]
      rfl⟩
  | false =>
    rw [hig] at hok
    simp only [Bool.false_eq_true, if_false] at hok
    cases hit : getF x "items" with
    | none =>
      simp only [hit] at hok
      have hok2 : Except.ok x = Except.ok y := hok
      cases hok2
      exact ⟨fun c hc => hc, rfl, fun k _ _ => rfl, by rw [hit], by
        unfold j10B j10fst j10snd
        rw [hig, hit]
        rfl⟩
    | some it =>
      simp only [hit] at hok
      cases hcond : (truthy it && !isArr it &&
          ((match getF x "maxItems" with
            | some (JSON.num n) => decide (0 ≤ n)
            | _ => false) ||
           (match getF x "minItems" with
            | some (JSON.num m) => decide (0 < m)
            | _ => false))) with
      | false =>
        rw [hcond] at hok
        simp only [Bool.false_eq_true, if_false] at hok
        rw [hit] at hok
        have hfst : j10fst x = true := by
          unfold j10fst hasMaxB hasMinB
          rw [hit]
          show (!(truthy it && !isArr it &&
            ((match getF x "maxItems" with
            | some (JSON.num n) => decide (0 ≤ n)
            | _ => false) ||
             (match getF x "minItems" with
            | some (JSON.num m) => decide (0 < m)
            | _ => false)))) = true
          rw [hcond]
          rfl
        cases it with
        | null =>
          have hok2 : Except.ok x = Except.ok y := hok
          cases hok2
          exact ⟨fun c hc => hc, rfl, fun k _ _ => rfl, by rw [hit], by
            unfold j10B j10snd
            rw [hig, hfst, hit]
            rfl⟩
        | bool b =>
          have hok2 : Except.ok x = Except.ok y := hok
          cases hok2
          exact ⟨fun c hc => hc, rfl, fun k _ _ => rfl, by rw [hit], by
            unfold j10B j10snd
            rw [hig, hfst, hit]
            rfl⟩
        | num n0 =>
          have hok2 : Except.ok x = Except.ok y := hok
          cases hok2
          exact ⟨fun c hc => hc, rfl, fun k _ _ => rfl, by rw [hit], by
            unfold j10B j10snd
            rw [hig, hfst, hit]
            rfl⟩
        | str s0 =>
          have hok2 : Except.ok x = Except.ok y := hok
          cases hok2
          exact ⟨fun c hc => hc, rfl, fun k _ _ => rfl, by rw [hit], by
            unfold j10B j10snd
            rw [hig, hfst, hit]
            rfl⟩
        | obj m0 =>
          have hok2 : Except.ok x = Except.ok y := hok
          cases hok2
          exact ⟨fun c hc => hc, rfl, fun k _ _ => rfl, by rw [hit], by
            unfold j10B j10snd
            rw [hig, hfst, hit]
            rfl⟩
        | arr l =>
          cases hM : getF x "maxItems" with
          | none =>
            rw [hM] at hok
            have hok2 : Except.ok x = Except.ok y := hok
            cases hok2
            exact ⟨fun c hc => hc, rfl, fun k _ _ => rfl, by rw [hit], by
              unfold j10B j10snd
              rw [hig, hfst, hit, hM]
              rfl⟩
          | some v =>
            rw [hM] at hok
            cases v with
            | null =>
              have hok2 : Except.ok x = Except.ok y := hok
              cases hok2
              exact ⟨fun c hc => hc, rfl, fun k _ _ => rfl, by rw [hit], by
                unfold j10B j10snd
                rw [hig, hfst, hit, hM]
                rfl⟩
            | bool b =>
              have hok2 : Except.ok x = Except.ok y := hok
              cases hok2
              exact ⟨fun c hc => hc, rfl, fun k _ _ => rfl, by rw [hit], by
                unfold j10B j10snd
                rw [hig, hfst, hit, hM]
                rfl⟩
            | str s0 =>
              have hok2 : Except.ok x = Except.ok y := hok
              cases hok2
              exact ⟨fun c hc => hc, rfl, fun k _ _ => rfl, by rw [hit], by
                unfold j10B j10snd
                rw [hig, hfst, hit, hM]
                rfl⟩
            | arr l0 =>
              have hok2 : Except.ok x = Except.ok y := hok
              cases hok2
              exact ⟨fun c hc => hc, rfl, fun k _ _ => rfl, by rw [hit], by
                unfold j10B j10snd
                rw [hig, hfst, hit, hM]
                rfl⟩
            | obj m0 =>
              have hok2 : Except.ok x = Except.ok y := hok
              cases hok2
              exact ⟨fun c hc => hc, rfl, fun k _ _ => rfl, by rw [hit], by
                unfold j10B j10snd
                rw [hig, hfst, hit, hM]
                rfl⟩
            | num n =>
              have hok2 : (if decide (0 ≤ n) && decide (n < (l.length : Int))
                  then Except.ok (setF x "items" (.arr (l.take n.toNat)))
                  else Except.ok x) = Except.ok y := hok
              cases hC2 : (decide (0 ≤ n) && decide (n < (l.length : Int))) with
              | true =>
                rw [hC2] at hok2
                simp only [eq_self_iff_true, if_true] at hok2
                cases hok2
                simp only [Bool.and_eq_true, decide_eq_true_eq] at hC2
                have hobjx : isObj x = true := isObj_of_getF hit
                refine ⟨childSub_truncate l n (fun c hc => hc) hit, ?_, ?_,
                  ?_, ?_⟩
                · rw [isObj_setF]
                · intro k hk1 hk2
                  rw [getF_setF_ne _ _ hk1]
                · rw [getF_setF_self hobjx]
                  rfl
                · have hfsty : j10fst (setF x "items"
                      (.arr (l.take n.toNat))) = true := by
                    unfold j10fst
                    rw [getF_setF_self hobjx]
                    simp [truthy, isArr]
                  have hsndy : j10snd (setF x "items"
                      (.arr (l.take n.toNat))) = true := by
                    unfold j10snd
                    rw [getF_setF_self hobjx, getF_setF_ne _ _ (by decide),
                      hM]
                    show (!(decide (0 ≤ n) &&
                      decide (n < ((l.take n.toNat).length : Int)))) = true
                    have hnn : ¬ (n < (((l.take n.toNat).length : Nat) :
                        Int)) := by
                      rw [List.length_take]
                      omega
                    rw [decide_eq_false hnn, Bool.and_false]
                    rfl
                  unfold j10B
                  rw [hig, hfsty, hsndy]
                  rfl
              | false =>
                rw [hC2] at hok2
                simp only [Bool.false_eq_true, if_false] at hok2
                cases hok2
                refine ⟨fun c hc => hc, rfl, fun k _ _ => rfl, by rw [hit],
                  ?_⟩
                have hsndx : j10snd x = true := by
                  unfold j10snd
                  rw [hit, hM]
                  show (!(decide (0 ≤ n) &&
                    decide (n < (l.length : Int)))) = true
                  rw [hC2]
                  rfl
                unfold j10B
                rw [hig, hfst, hsndx]
                rfl
      | true =>
        rw [hcond] at hok
        simp only [eq_self_iff_true, if_true] at hok
        have hobjx : isObj x = true := isObj_of_getF hit
        cases hfill : jsArrayFill (jsOr (getF x "maxItems")
            (jsOr (getF x "minItems") (.num 0))) it with
        | error e =>
          simp only [hfill] at hok
          have hok2 : (Except.error e : Except Unit JSON) = Except.ok y := hok
          cases hok2
        | ok l =>
          simp only [hfill] at hok
          have hl : ∀ c ∈ l, c = it := jsArrayFill_elems hfill
          cases hM : getF x "maxItems" with
          | none =>
            simp only [hM, Bool.not_false, eq_self_iff_true, if_true] at hok
            have hti : getF (setF (setF x "additionalItems" it) "items"
                (.arr l)) "items" = some (.arr l) :=
              getF_setF_self (by rw [isObj_setF]; exact hobjx) _ _
            simp only [hti] at hok
            have hok2 : Except.ok (setF (setF x "additionalItems" it) "items"
                (.arr l)) = Except.ok y := hok
            cases hok2
            refine ⟨childSub_expand l hit hl _ (Or.inl rfl), ?_, ?_, ?_, ?_⟩
            · rw [isObj_setF, isObj_setF]
            · intro k hk1 hk2
              rw [getF_setF_ne _ _ hk1, getF_setF_ne _ _ hk2]
            · rw [hti]
              exact rfl
            · have hfsty : j10fst (setF (setF x "additionalItems" it) "items"
                  (.arr l)) = true := by
                unfold j10fst
                rw [hti]
                simp [truthy, isArr]
              have hsndy : j10snd (setF (setF x "additionalItems" it) "items"
                  (.arr l)) = true := by
                unfold j10snd
                rw [hti, getF_setF_ne _ _ (by decide), getF_setF_ne _ _ (by decide),
                  hM]
              unfold j10B
              rw [hig, hfsty, hsndy]
              rfl
          | some v =>
            cases v with
            | num n =>
              simp only [hM] at hok
              cases hn0 : decide (0 ≤ n) with
              | true =>
                rw [hn0] at hok
                simp only [Bool.not_true, Bool.false_eq_true, if_false,
                  Bool.true_and] at hok
                have hti2 : getF (setF x "items" (.arr l)) "items" =
                    some (.arr l) := getF_setF_self hobjx _ _
                simp only [hti2, Bool.true_and] at hok
                cases hlt : decide (n < (l.length : Int)) with
                | true =>
                  rw [hlt] at hok
                  simp only [eq_self_iff_true, if_true] at hok
                  have hok2 : Except.ok (setF (setF x "items" (.arr l))
                      "items" (.arr (l.take n.toNat))) = Except.ok y := hok
                  cases hok2
                  have hio : isObj (setF x "items" (.arr l)) = true := by
                    rw [isObj_setF]
                    exact hobjx
                  refine ⟨childSub_truncate l n
                    (childSub_expand l hit hl x (Or.inr rfl)) hti2, ?_, ?_,
                    ?_, ?_⟩
                  · rw [isObj_setF, isObj_setF]
                  · intro k hk1 hk2
                    rw [getF_setF_ne _ _ hk1, getF_setF_ne _ _ hk1]
                  · rw [getF_setF_self hio]
                    rfl
                  · have hfsty : j10fst (setF (setF x "items" (.arr l))
                        "items" (.arr (l.take n.toNat))) = true := by
                      unfold j10fst
                      rw [getF_setF_self hio]
                      simp [truthy, isArr]
                    have hsndy : j10snd (setF (setF x "items" (.arr l))
                        "items" (.arr (l.take n.toNat))) = true := by
                      unfold j10snd
                      rw [getF_setF_self hio, getF_setF_ne _ _ (by decide),
                        getF_setF_ne _ _ (by decide), hM]
                      show (!(decide (0 ≤ n) &&
                        decide (n < ((l.take n.toNat).length : Int)))) = true
                      have h0n : (0 : Int) ≤ n := of_decide_eq_true hn0
                      have hltP : n < (l.length : Int) := of_decide_eq_true hlt
                      have hnn : ¬ (n < (((l.take n.toNat).length : Nat) :
                          Int)) := by
                        rw [List.length_take]
                        omega
                      rw [decide_eq_false hnn, Bool.and_false]
                      rfl
                    unfold j10B
                    rw [hig, hfsty, hsndy]
                    rfl
                | false =>
                  rw [hlt] at hok
                  simp only [Bool.false_eq_true, if_false] at hok
                  have hok2 : Except.ok (setF x "items" (.arr l)) =
                      Except.ok y := hok
                  cases hok2
                  refine ⟨childSub_expand l hit hl x (Or.inr rfl), ?_, ?_,
                    ?_, ?_⟩
                  · rw [isObj_setF]
                  · intro k hk1 hk2
                    rw [getF_setF_ne _ _ hk1]
                  · rw [getF_setF_self hobjx]
                    rfl
                  · have hfsty : j10fst (setF x "items" (.arr l)) = true := by
                      unfold j10fst
                      rw [getF_setF_self hobjx]
                      simp [truthy, isArr]
                    have hsndy : j10snd (setF x "items" (.arr l)) = true := by
                      unfold j10snd
                      rw [getF_setF_self hobjx, getF_setF_ne _ _ (by decide),
                        hM]
                      show (!(decide (0 ≤ n) &&
                        decide (n < (l.length : Int)))) = true
                      rw [hlt, Bool.and_false]
                      rfl
                    unfold j10B
                    rw [hig, hfsty, hsndy]
                    rfl
              | false =>
                rw [hn0] at hok
                simp only [Bool.not_false, eq_self_iff_true, if_true,
                  Bool.false_and, Bool.false_eq_true, if_false] at hok
                have hti : getF (setF (setF x "additionalItems" it) "items"
                    (.arr l)) "items" = some (.arr l) :=
                  getF_setF_self (by rw [isObj_setF]; exact hobjx) _ _
                simp only [hti, Bool.false_and, Bool.false_eq_true,
                  if_false] at hok
                have hok2 : Except.ok (setF (setF x "additionalItems" it) "items"
                    (.arr l)) = Except.ok y := hok
                cases hok2
                refine ⟨childSub_expand l hit hl _ (Or.inl rfl), ?_, ?_, ?_, ?_⟩
                · rw [isObj_setF, isObj_setF]
                · intro k hk1 hk2
                  rw [getF_setF_ne _ _ hk1, getF_setF_ne _ _ hk2]
                · rw [hti]
                  exact rfl
                · have hfsty : j10fst (setF (setF x "additionalItems" it) "items"
                      (.arr l)) = true := by
                    unfold j10fst
                    rw [hti]
                    simp [truthy, isArr]
                  have hsndy : j10snd (setF (setF x "additionalItems" it) "items"
                      (.arr l)) = true := by
                    unfold j10snd
                    rw [hti, getF_setF_ne _ _ (by decide), getF_setF_ne _ _ (by decide),
                      hM]
                    show (!(decide (0 ≤ n) && decide (n < ((l.length : Nat) : Int)))) = true
                    rw [hn0, Bool.false_and]
                    rfl
                  unfold j10B
                  rw [hig, hfsty, hsndy]
                  rfl
            | null =>
              simp only [hM, Bool.not_false, eq_self_iff_true, if_true] at hok
              have hti : getF (setF (setF x "additionalItems" it) "items"
                  (.arr l)) "items" = some (.arr l) :=
                getF_setF_self (by rw [isObj_setF]; exact hobjx) _ _
              simp only [hti] at hok
              have hok2 : Except.ok (setF (setF x "additionalItems" it) "items"
                  (.arr l)) = Except.ok y := hok
              cases hok2
              refine ⟨childSub_expand l hit hl _ (Or.inl rfl), ?_, ?_, ?_, ?_⟩
              · rw [isObj_setF, isObj_setF]
              · intro k hk1 hk2
                rw [getF_setF_ne _ _ hk1, getF_setF_ne _ _ hk2]
              · rw [hti]
                exact rfl
              · have hfsty : j10fst (setF (setF x "additionalItems" it) "items"
                    (.arr l)) = true := by
                  unfold j10fst
                  rw [hti]
                  simp [truthy, isArr]
                have hsndy : j10snd (setF (setF x "additionalItems" it) "items"
                    (.arr l)) = true := by
                  unfold j10snd
                  rw [hti, getF_setF_ne _ _ (by decide), getF_setF_ne _ _ (by decide),
                    hM]
                unfold j10B
                rw [hig, hfsty, hsndy]
                rfl
            | bool b =>
              simp only [hM, Bool.not_false, eq_self_iff_true, if_true] at hok
              have hti : getF (setF (setF x "additionalItems" it) "items"
                  (.arr l)) "items" = some (.arr l) :=
                getF_setF_self (by rw [isObj_setF]; exact hobjx) _ _
              simp only [hti] at hok
              have hok2 : Except.ok (setF (setF x "additionalItems" it) "items"
                  (.arr l)) = Except.ok y := hok
              cases hok2
              refine ⟨childSub_expand l hit hl _ (Or.inl rfl), ?_, ?_, ?_, ?_⟩
              · rw [isObj_setF, isObj_setF]
              · intro k hk1 hk2
                rw [getF_setF_ne _ _ hk1, getF_setF_ne _ _ hk2]
              · rw [hti]
                exact rfl
              · have hfsty : j10fst (setF (setF x "additionalItems" it) "items"
                    (.arr l)) = true := by
                  unfold j10fst
                  rw [hti]
                  simp [truthy, isArr]
                have hsndy : j10snd (setF (setF x "additionalItems" it) "items"
                    (.arr l)) = true := by
                  unfold j10snd
                  rw [hti, getF_setF_ne _ _ (by decide), getF_setF_ne _ _ (by decide),
                    hM]
                unfold j10B
                rw [hig, hfsty, hsndy]
                rfl
            | str s0 =>
              simp only [hM, Bool.not_false, eq_self_iff_true, if_true] at hok
              have hti : getF (setF (setF x "additionalItems" it) "items"
                  (.arr l)) "items" = some (.arr l) :=
                getF_setF_self (by rw [isObj_setF]; exact hobjx) _ _
              simp only [hti] at hok
              have hok2 : Except.ok (setF (setF x "additionalItems" it) "items"
                  (.arr l)) = Except.ok y := hok
              cases hok2
              refine ⟨childSub_expand l hit hl _ (Or.inl rfl), ?_, ?_, ?_, ?_⟩
              · rw [isObj_setF, isObj_setF]
              · intro k hk1 hk2
                rw [getF_setF_ne _ _ hk1, getF_setF_ne _ _ hk2]
              · rw [hti]
                exact rfl
              · have hfsty : j10fst (setF (setF x "additionalItems" it) "items"
                    (.arr l)) = true := by
                  unfold j10fst
                  rw [hti]
                  simp [truthy, isArr]
                have hsndy : j10snd (setF (setF x "additionalItems" it) "items"
                    (.arr l)) = true := by
                  unfold j10snd
                  rw [hti, getF_setF_ne _ _ (by decide), getF_setF_ne _ _ (by decide),
                    hM]
                unfold j10B
                rw [hig, hfsty, hsndy]
                rfl
            | arr l0 =>
              simp only [hM, Bool.not_false, eq_self_iff_true, if_true] at hok
              have hti : getF (setF (setF x "additionalItems" it) "items"
                  (.arr l)) "items" = some (.arr l) :=
                getF_setF_self (by rw [isObj_setF]; exact hobjx) _ _
              simp only [hti] at hok
              have hok2 : Except.ok (setF (setF x "additionalItems" it) "items"
                  (.arr l)) = Except.ok y := hok
              cases hok2
              refine ⟨childSub_expand l hit hl _ (Or.inl rfl), ?_, ?_, ?_, ?_⟩
              · rw [isObj_setF, isObj_setF]
              · intro k hk1 hk2
                rw [getF_setF_ne _ _ hk1, getF_setF_ne _ _ hk2]
              · rw [hti]
                exact rfl
              · have hfsty : j10fst (setF (setF x "additionalItems" it) "items"
                    (.arr l)) = true := by
                  unfold j10fst
                  rw [hti]
                  simp [truthy, isArr]
                have hsndy : j10snd (setF (setF x "additionalItems" it) "items"
                    (.arr l)) = true := by
                  unfold j10snd
                  rw [hti, getF_setF_ne _ _ (by decide), getF_setF_ne _ _ (by decide),
                    hM]
                unfold j10B
                rw [hig, hfsty, hsndy]
                rfl
            | obj m0 =>
              simp only [hM, Bool.not_false, eq_self_iff_true, if_true] at hok
              have hti : getF (setF (setF x "additionalItems" it) "items"
                  (.arr l)) "items" = some (.arr l) :=
                getF_setF_self (by rw [isObj_setF]; exact hobjx) _ _
              simp only [hti] at hok
              have hok2 : Except.ok (setF (setF x "additionalItems" it) "items"
                  (.arr l)) = Except.ok y := hok
              cases hok2
              refine ⟨childSub_expand l hit hl _ (Or.inl rfl), ?_, ?_, ?_, ?_⟩
              · rw [isObj_setF, isObj_setF]
              · intro k hk1 hk2
                rw [getF_setF_ne _ _ hk1, getF_setF_ne _ _ hk2]
              · rw [hti]
                exact rfl
              · have hfsty : j10fst (setF (setF x "additionalItems" it) "items"
                    (.arr l)) = true := by
                  unfold j10fst
                  rw [hti]
                  simp [truthy, isArr]
                have hsndy : j10snd (setF (setF x "additionalItems" it) "items"
                    (.arr l)) = true := by
                  unfold j10snd
                  rw [hti, getF_setF_ne _ _ (by decide), getF_setF_ne _ _ (by decide),
                    hM]
                unfold j10B
                rw [hig, hfsty, hsndy]
                rfl

theorem nstep10 (x root : JSON) (file : String) (o : Options) (r : Bool)
    (y : JSON) (hx : acc9 o x = true)
    (hok : ruleNormalizeItems x root file o r = .ok y) :
    acc10 o y = true ∧ ∀ c ∈ childVals y, c ∈ childVals x := by
  obtain ⟨hsub, hobj, hget, hsome, hj10⟩ :=
    ruleNormalizeItems_anal x root file o r y hok
  refine ⟨?_, hsub⟩
  have hty := hget "type" (by decide) (by decide)
  have hpy : (getF y "properties").isSome = (getF x "properties").isSome := by
    rw [hget "properties" (by decide) (by decide)]
  have hacc9 : acc9 o y = acc9 o x := by
    simp only [acc9, acc8, acc7, acc5, acc4, acc3, acc2, acc1]
    rw [ctB_congr hty,
      j1B_congr (hget "enum" (by decide) (by decide)) hty,
      j2B_congr hty,
      j3B_congr (isObjectType_congr hpy hty)
        (hasKey_congr_getF (hget "required" (by decide) (by decide))),
      j4B_congr (hget "required" (by decide) (by decide)),
      j5B_congr (isObjectType_congr hpy hty)
        (hasKey_congr_getF
          (hget "additionalProperties" (by decide) (by decide)))
        (hget "patternProperties" (by decide) (by decide)),
      j7B_congr (hget "description" (by decide) (by decide)),
      j8B_congr o
        (hasKey_congr_getF (hget "maxItems" (by decide) (by decide)))
        (hasKey_congr_getF (hget "minItems" (by decide) (by decide))),
      j9B_congr o (isArrayType_congr hsome hty)
        (hget "minItems" (by decide) (by decide))]
  simp only [acc10, Bool.and_eq_true]
  exact ⟨by rw [hacc9]; exact hx, hj10⟩

theorem nstep11 (x root : JSON) (file : String) (o : Options) (r : Bool)
    (y : JSON) (hx : acc10 o x = true)
    (hok : ruleDefsToDefinitions x root file o r = .ok y) :
    acc11 o y = true ∧ ∀ c ∈ childVals y, c ∈ childVals x := by
  unfold ruleDefsToDefinitions at hok
  cases hd : getF x "$defs" with
  | none =>
    simp only [hd] at hok
    cases hok
    refine ⟨?_, fun c hc => hc⟩
    simp only [acc11, Bool.and_eq_true]
    refine ⟨hx, ?_⟩
    unfold j11B
    rw [hd]
    rfl
  | some d =>
    simp only [hd] at hok
    cases htr : truthy d with
    | false =>
      rw [htr] at hok
      simp only [Bool.false_eq_true, if_false] at hok
      cases hok
      refine ⟨?_, fun c hc => hc⟩
      simp only [acc11, Bool.and_eq_true]
      refine ⟨hx, ?_⟩
      unfold j11B
      rw [hd]
      show (!truthy d) = true
      rw [htr]
      rfl
    | true =>
      rw [htr] at hok
      simp only [eq_self_iff_true, if_true] at hok
      cases hok
      have hobjx : isObj x = true := isObj_of_getF hd
      have hget : ∀ k : String, ¬ k = "$defs" → ¬ k = "definitions" →
          getF (delF (setF x "definitions" d) "$defs") k = getF x k := by
        intro k h1 h2
        rw [getF_delF_ne _ h1, getF_setF_ne _ _ h2]
      have hkey : ∀ k : String, ¬ k = "$defs" → ¬ k = "definitions" →
          hasKey (delF (setF x "definitions" d) "$defs") k = hasKey x k := by
        intro k h1 h2
        rw [hasKey_delF_ne _ h1, hasKey_setF_ne _ _ h2]
      have hty := hget "type" (by decide) (by decide)
      have hpy : (getF (delF (setF x "definitions" d) "$defs")
          "properties").isSome = (getF x "properties").isSome := by
        rw [hget "properties" (by decide) (by decide)]
      have hsome : (getF (delF (setF x "definitions" d) "$defs")
          "items").isSome = (getF x "items").isSome := by
        rw [hget "items" (by decide) (by decide)]
      have hacc10 : acc10 o (delF (setF x "definitions" d) "$defs") =
          acc10 o x := by
        simp only [acc10, acc9, acc8, acc7, acc5, acc4, acc3, acc2, acc1]
        rw [ctB_congr hty,
          j1B_congr (hget "enum" (by decide) (by decide)) hty,
          j2B_congr hty,
          j3B_congr (isObjectType_congr hpy hty)
            (hkey "required" (by decide) (by decide)),
          j4B_congr (hget "required" (by decide) (by decide)),
          j5B_congr (isObjectType_congr hpy hty)
            (hkey "additionalProperties" (by decide) (by decide))
            (hget "patternProperties" (by decide) (by decide)),
          j7B_congr (hget "description" (by decide) (by decide)),
          j8B_congr o (hkey "maxItems" (by decide) (by decide))
            (hkey "minItems" (by decide) (by decide)),
          j9B_congr o (isArrayType_congr hsome hty)
            (hget "minItems" (by decide) (by decide)),
          j10B_congr o (hget "items" (by decide) (by decide))
            (hget "maxItems" (by decide) (by decide))
            (hget "minItems" (by decide) (by decide))]
      have hj11 : j11B (delF (setF x "definitions" d) "$defs") = true := by
        unfold j11B
        rw [getF_delF_self]
        rfl
      refine ⟨?_, ?_⟩
      · simp only [acc11, Bool.and_eq_true]
        exact ⟨by rw [hacc10]; exact hx, hj11⟩
      · intro c hc
        rcases childVals_setF_sub (childVals_delF_sub hc) with h | h
        · exact h
        · have heq : fieldChildVals "definitions" d =
              fieldChildVals "$defs" d := rfl
          rw [heq] at h
          exact mem_childVals_of_getF hd h

theorem j1B_of_enum_single {y c : JSON} (he : getF y "enum" = some (.arr [c]))
    (hc : truthy c = true) : j1B y = true := by
  unfold j1B
  rw [he]
  cases ht : getF y "type" with
  | none => rfl
  | some w =>
    cases w with
    | arr ts =>
      show (!([c].any (fun e => match e with
          | JSON.null => true | _ => false) &&
        ts.any (fun t => match t with
          | JSON.str s => s == "null" | _ => false))) = true
      have hnull : [c].any (fun e => match e with
          | JSON.null => true | _ => false) = false := by
        cases c with
        | null => simp [truthy] at hc
        | bool b => rfl
        | num n => rfl
        | str s => rfl
        | arr l => rfl
        | obj m => rfl
      rw [hnull, Bool.false_and]
      rfl
    | null => rfl
    | bool b => rfl
    | num n => rfl
    | str s => rfl
    | obj m => rfl

theorem nstep12 (x root : JSON) (file : String) (o : Options) (r : Bool)
    (y : JSON) (hx : acc11 o x = true)
    (hok : ruleConstToEnum x root file o r = .ok y) :
    invAll o y = true ∧ ∀ c ∈ childVals y, c ∈ childVals x := by
  unfold ruleConstToEnum at hok
  cases hc : getF x "const" with
  | none =>
    simp only [hc] at hok
    cases hok
    refine ⟨?_, fun c hc2 => hc2⟩
    simp only [invAll, Bool.and_eq_true]
    refine ⟨hx, ?_⟩
    unfold j12B
    rw [hc]
    rfl
  | some c =>
    simp only [hc] at hok
    cases htr : truthy c with
    | false =>
      rw [htr] at hok
      simp only [Bool.false_eq_true, if_false] at hok
      cases hok
      refine ⟨?_, fun c2 hc2 => hc2⟩
      simp only [invAll, Bool.and_eq_true]
      refine ⟨hx, ?_⟩
      unfold j12B
      rw [hc]
      show (!truthy c) = true
      rw [htr]
      rfl
    | true =>
      rw [htr] at hok
      simp only [eq_self_iff_true, if_true] at hok
      cases hok
      have hobjx : isObj x = true := isObj_of_getF hc
      have hget : ∀ k : String, ¬ k = "const" → ¬ k = "enum" →
          getF (delF (setF x "enum" (.arr [c])) "const") k = getF x k := by
        intro k h1 h2
        rw [getF_delF_ne _ h1, getF_setF_ne _ _ h2]
      have hkey : ∀ k : String, ¬ k = "const" → ¬ k = "enum" →
          hasKey (delF (setF x "enum" (.arr [c])) "const") k =
            hasKey x k := by
        intro k h1 h2
        rw [hasKey_delF_ne _ h1, hasKey_setF_ne _ _ h2]
      have heY : getF (delF (setF x "enum" (.arr [c])) "const") "enum" =
          some (.arr [c]) := by
        rw [getF_delF_ne _ (by decide), getF_setF_self hobjx]
      have hty := hget "type" (by decide) (by decide)
      have hpy : (getF (delF (setF x "enum" (.arr [c])) "const")
          "properties").isSome = (getF x "properties").isSome := by
        rw [hget "properties" (by decide) (by decide)]
      have hsome : (getF (delF (setF x "enum" (.arr [c])) "const")
          "items").isSome = (getF x "items").isSome := by
        rw [hget "items" (by decide) (by decide)]
      simp only [acc11, acc10, acc9, acc8, acc7, acc5, acc4, acc3, acc2,
        acc1, Bool.and_eq_true] at hx
      obtain ⟨⟨⟨⟨⟨⟨⟨⟨⟨⟨hct, hj1⟩, hj2⟩, hj3⟩, hj4⟩, hj5⟩, hj7⟩, hj8⟩,
        hj9⟩, hj10⟩, hj11⟩ := hx
      refine ⟨?_, ?_⟩
      · simp only [invAll, acc11, acc10, acc9, acc8, acc7, acc5, acc4, acc3,
          acc2, acc1, Bool.and_eq_true]
        refine ⟨⟨⟨⟨⟨⟨⟨⟨⟨⟨⟨?_, ?_⟩, ?_⟩, ?_⟩, ?_⟩, ?_⟩, ?_⟩, ?_⟩, ?_⟩,
          ?_⟩, ?_⟩, ?_⟩
        · rw [ctB_congr hty]
          exact hct
        · exact j1B_of_enum_single heY htr
        · rw [j2B_congr hty]
          exact hj2
        · rw [j3B_congr (isObjectType_congr hpy hty)
            (hkey "required" (by decide) (by decide))]
          exact hj3
        · rw [j4B_congr (hget "required" (by decide) (by decide))]
          exact hj4
        · rw [j5B_congr (isObjectType_congr hpy hty)
            (hkey "additionalProperties" (by decide) (by decide))
            (hget "patternProperties" (by decide) (by decide))]
          exact hj5
        · rw [j7B_congr (hget "description" (by decide) (by decide))]
          exact hj7
        · rw [j8B_congr o (hkey "maxItems" (by decide) (by decide))
            (hkey "minItems" (by decide) (by decide))]
          exact hj8
        · rw [j9B_congr o (isArrayType_congr hsome hty)
            (hget "minItems" (by decide) (by decide))]
          exact hj9
        · rw [j10B_congr o (hget "items" (by decide) (by decide))
            (hget "maxItems" (by decide) (by decide))
            (hget "minItems" (by decide) (by decide))]
          exact hj10
        · rw [j11B_congr (hget "$defs" (by decide) (by decide))]
          exact hj11
        · unfold j12B
          rw [getF_delF_self]
          rfl
      · intro c2 hc2
        rcases childVals_setF_sub (childVals_delF_sub hc2) with h | h
        · exact h
        · have : fieldChildVals "enum" (.arr [c]) = [] := rfl
          rw [this] at h
          cases h

/-! ### Frame facts of the rules: object-ness is always preserved, and the
passes after the id rule never touch the id field -/

theorem nframe1 (x root : JSON) (file : String) (o : Options) (r : Bool)
    (y : JSON) (hok : ruleRemoveNullFromType x root file o r = .ok y) :
    isObj y = isObj x := by
  unfold ruleRemoveNullFromType at hok
  split at hok
  · split at hok
    · cases hok
      exact isObj_setF _ _ _
    · cases hok
      rfl
  · cases hok
    rfl

theorem nframe2 (x root : JSON) (file : String) (o : Options) (r : Bool)
    (y : JSON) (hok : ruleDestructureUnaryTypes x root file o r = .ok y) :
    isObj y = isObj x := by
  unfold ruleDestructureUnaryTypes at hok
  split at hok
  · cases hok
    exact isObj_setF _ _ _
  · cases hok
    rfl

theorem nframe3 (x root : JSON) (file : String) (o : Options) (r : Bool)
    (y : JSON) (hok : ruleAddEmptyRequired x root file o r = .ok y) :
    isObj y = isObj x := by
  unfold ruleAddEmptyRequired at hok
  split at hok
  · cases hok
    exact isObj_setF _ _ _
  · cases hok
    rfl

theorem nframe4 (x root : JSON) (file : String) (o : Options) (r : Bool)
    (y : JSON) (hok : ruleRequiredFalseToEmpty x root file o r = .ok y) :
    isObj y = isObj x := by
  unfold ruleRequiredFalseToEmpty at hok
  split at hok
  · cases hok
    exact isObj_setF _ _ _
  · cases hok
    rfl

theorem nframe5 (x root : JSON) (file : String) (o : Options) (r : Bool)
    (y : JSON) (hok : ruleDefaultAdditionalProps x root file o r = .ok y) :
    isObj y = isObj x := by
  unfold ruleDefaultAdditionalProps at hok
  split at hok
  · cases hok
    exact isObj_setF _ _ _
  · cases hok
    rfl

theorem nframe6 (x root : JSON) (file : String) (o : Options) (r : Bool)
    (y : JSON) (hok : ruleDefaultTopLevelId x root file o r = .ok y) :
    isObj y = isObj x := by
  unfold ruleDefaultTopLevelId at hok
  split at hok
  · cases hok
    exact isObj_setF _ _ _
  · cases hok
    rfl

theorem nframe7 (x root : JSON) (file : String) (o : Options) (r : Bool)
    (y : JSON) (hok : ruleEscapeBlockComment x root file o r = .ok y) :
    isObj y = isObj x ∧ getF y "id" = getF x "id" := by
  unfold ruleEscapeBlockComment at hok
  split at hok
  · cases hok
    exact ⟨isObj_setF _ _ _, getF_setF_ne _ _ (by decide)⟩
  · cases hok
    exact ⟨rfl, rfl⟩

theorem nframe8 (x root : JSON) (file : String) (o : Options) (r : Bool)
    (y : JSON) (hok : ruleRemoveMaxMinItems x root file o r = .ok y) :
    isObj y = isObj x ∧ getF y "id" = getF x "id" := by
  unfold ruleRemoveMaxMinItems at hok
  split at hok
  · cases hok
    refine ⟨?_, ?_⟩
    · rw [isObj_delF, isObj_delF]
    · rw [getF_delF_ne _ (by decide), getF_delF_ne _ (by decide)]
  · cases hok
    exact ⟨rfl, rfl⟩

theorem nframe9 (x root : JSON) (file : String) (o : Options) (r : Bool)
    (y : JSON) (hok : ruleNormaliseMinItems x root file o r = .ok y) :
    isObj y = isObj x ∧ getF y "id" = getF x "id" := by
  unfold ruleNormaliseMinItems at hok
  split at hok
  · cases hok
    exact ⟨rfl, rfl⟩
  · split at hok
    · cases hok
      exact ⟨isObj_setF _ _ _, getF_setF_ne _ _ (by decide)⟩
    · cases hok
      exact ⟨rfl, rfl⟩

theorem nframe10 (x root : JSON) (file : String) (o : Options) (r : Bool)
    (y : JSON) (hok : ruleNormalizeItems x root file o r = .ok y) :
    isObj y = isObj x ∧ getF y "id" = getF x "id" := by
  obtain ⟨_, hobj, hget, _, _⟩ := ruleNormalizeItems_anal x root file o r y hok
  exact ⟨hobj, hget "id" (by decide) (by decide)⟩

theorem nframe11 (x root : JSON) (file : String) (o : Options) (r : Bool)
    (y : JSON) (hok : ruleDefsToDefinitions x root file o r = .ok y) :
    isObj y = isObj x ∧ getF y "id" = getF x "id" := by
  unfold ruleDefsToDefinitions at hok
  split at hok
  · split at hok
    · cases hok
      refine ⟨?_, ?_⟩
      · rw [isObj_delF, isObj_setF]
      · rw [getF_delF_ne _ (by decide), getF_setF_ne _ _ (by decide)]
    · cases hok
      exact ⟨rfl, rfl⟩
  · cases hok
    exact ⟨rfl, rfl⟩

theorem nframe12 (x root : JSON) (file : String) (o : Options) (r : Bool)
    (y : JSON) (hok : ruleConstToEnum x root file o r = .ok y) :
    isObj y = isObj x ∧ getF y "id" = getF x "id" := by
  unfold ruleConstToEnum at hok
  split at hok
  · split at hok
    · cases hok
      refine ⟨?_, ?_⟩
      · rw [isObj_delF, isObj_setF]
      · rw [getF_delF_ne _ (by decide), getF_setF_ne _ _ (by decide)]
    · cases hok
      exact ⟨rfl, rfl⟩
  · cases hok
    exact ⟨rfl, rfl⟩

/-! ### Fixpoint lemmas: on an invariant-satisfying node every rule is the
identity -/

theorem nnoop1 (x root : JSON) (file : String) (o : Options) (r : Bool)
    (hj : j1B x = true) :
    ruleRemoveNullFromType x root file o r = .ok x := by
  unfold ruleRemoveNullFromType
  cases he : getF x "enum" with
  | none => rfl
  | some v =>
    cases v with
    | arr es =>
      cases ht : getF x "type" with
      | none => rfl
      | some w =>
        cases w with
        | arr ts =>
          unfold j1B at hj
          simp only [he, ht] at hj
          rw [Bool.not_eq_true'] at hj
          simp only [hj, Bool.false_eq_true, if_false]
        | null => rfl
        | bool b => rfl
        | num n => rfl
        | str s => rfl
        | obj m => rfl
    | null => rfl
    | bool b => rfl
    | num n => rfl
    | str s => rfl
    | obj m => rfl

theorem nnoop2 (x root : JSON) (file : String) (o : Options) (r : Bool)
    (hj : j2B x = true) :
    ruleDestructureUnaryTypes x root file o r = .ok x := by
  unfold ruleDestructureUnaryTypes
  cases ht : getF x "type" with
  | none => rfl
  | some v =>
    cases v with
    | arr l =>
      cases l with
      | nil => rfl
      | cons a t =>
        cases t with
        | nil =>
          exfalso
          unfold j2B at hj
          simp only [ht] at hj
          cases hj
        | cons b t2 => rfl
    | null => rfl
    | bool b => rfl
    | num n => rfl
    | str s => rfl
    | obj m => rfl

theorem nnoop3 (x root : JSON) (file : String) (o : Options) (r : Bool)
    (hj : j3B x = true) :
    ruleAddEmptyRequired x root file o r = .ok x := by
  unfold ruleAddEmptyRequired
  cases hcond : (isObjectType x && !(hasKey x "required")) with
  | true =>
    exfalso
    unfold j3B at hj
    rw [hcond] at hj
    simp at hj
  | false => simp

theorem nnoop4 (x root : JSON) (file : String) (o : Options) (r : Bool)
    (hj : j4B x = true) :
    ruleRequiredFalseToEmpty x root file o r = .ok x := by
  unfold ruleRequiredFalseToEmpty
  cases hr : getF x "required" with
  | none => rfl
  | some v =>
    cases v with
    | bool b =>
      cases b with
      | false =>
        exfalso
        unfold j4B at hj
        simp only [hr] at hj
        cases hj
      | true => rfl
    | null => rfl
    | num n => rfl
    | str s => rfl
    | arr l => rfl
    | obj m => rfl

theorem nnoop5 (x root : JSON) (file : String) (o : Options) (r : Bool)
    (hj : j5B x = true) :
    ruleDefaultAdditionalProps x root file o r = .ok x := by
  unfold ruleDefaultAdditionalProps
  cases hcond : (isObjectType x && !(hasKey x "additionalProperties") &&
      (getF x "patternProperties").isNone) with
  | true =>
    exfalso
    unfold j5B at hj
    rw [hcond] at hj
    simp at hj
  | false => simp

theorem nnoop6_nonroot (x root : JSON) (file : String) (o : Options) :
    ruleDefaultTopLevelId x root file o false = .ok x := by
  unfold ruleDefaultTopLevelId
  simp

theorem nnoop6_root (x root : JSON) (file : String) (o : Options)
    (h : RootIdP file x) :
    ruleDefaultTopLevelId x root file o true = .ok x := by
  unfold ruleDefaultTopLevelId
  rcases h with htr | hid | hno
  · simp [htr]
  · cases htruthy : truthyO (getF x "id") with
    | true => simp [htruthy]
    | false =>
      simp only [htruthy, Bool.not_false, Bool.and_true, eq_self_iff_true,
        if_true]
      rw [setF_of_getF_eq hid]
  · cases htruthy : truthyO (getF x "id") with
    | true => simp [htruthy]
    | false =>
      simp only [htruthy, Bool.not_false, Bool.and_true, eq_self_iff_true,
        if_true]
      rw [setF_nonobj hno]

theorem nnoop7 (x root : JSON) (file : String) (o : Options) (r : Bool)
    (hj : j7B x = true) :
    ruleEscapeBlockComment x root file o r = .ok x := by
  unfold ruleEscapeBlockComment
  cases hd : getF x "description" with
  | none => rfl
  | some v =>
    cases v with
    | str d =>
      unfold j7B at hj
      simp only [hd] at hj
      have heq : escapeBlockComment d = d := eq_of_beq hj
      show Except.ok (setF x "description" (.str (escapeBlockComment d))) =
        Except.ok x
      rw [heq, setF_of_getF_eq hd]
    | null => rfl
    | bool b => rfl
    | num n => rfl
    | arr l => rfl
    | obj m => rfl

theorem nnoop8 (x root : JSON) (file : String) (o : Options) (r : Bool)
    (hj : j8B o x = true) :
    ruleRemoveMaxMinItems x root file o r = .ok x := by
  unfold ruleRemoveMaxMinItems
  cases hig : o.ignoreMinAndMaxItems with
  | false => simp
  | true =>
    unfold j8B at hj
    rw [hig] at hj
    simp only [Bool.not_true, Bool.false_or, Bool.and_eq_true,
      Bool.not_eq_true'] at hj
    have g1 : getF x "maxItems" = none := getF_none_of_hasKey_false hj.1
    have g2 : getF (delF x "maxItems") "minItems" = none := by
      rw [getF_delF_ne _ (by decide)]
      exact getF_none_of_hasKey_false hj.2
    simp only [eq_self_iff_true, if_true]
    rw [delF_of_getF_none g2, delF_of_getF_none g1]

theorem nnoop9 (x root : JSON) (file : String) (o : Options) (r : Bool)
    (hj : j9B o x = true) :
    ruleNormaliseMinItems x root file o r = .ok x := by
  unfold ruleNormaliseMinItems
  cases hig : o.ignoreMinAndMaxItems with
  | true => simp
  | false =>
    simp only [Bool.false_eq_true, if_false]
    cases hA : isArrayType x with
    | false => simp [hA]
    | true =>
      simp only [hA, eq_self_iff_true, if_true]
      unfold j9B at hj
      rw [hig, hA] at hj
      simp only [Bool.not_true, Bool.false_or] at hj
      cases hm : getF x "minItems" with
      | none =>
        exfalso
        simp only [hm] at hj
        cases hj
      | some v =>
        cases v with
        | num m =>
          exact congrArg Except.ok (setF_of_getF_eq hm)
        | null =>
          exfalso
          simp only [hm] at hj
          cases hj
        | bool b =>
          exfalso
          simp only [hm] at hj
          cases hj
        | str s =>
          exfalso
          simp only [hm] at hj
          cases hj
        | arr l =>
          exfalso
          simp only [hm] at hj
          cases hj
        | obj mm =>
          exfalso
          simp only [hm] at hj
          cases hj

theorem nnoop10 (x root : JSON) (file : String) (o : Options) (r : Bool)
    (hj : j10B o x = true) :
    ruleNormalizeItems x root file o r = .ok x := by
  unfold ruleNormalizeItems
  cases hig : o.ignoreMinAndMaxItems with
  | true => simp
  | false =>
    unfold j10B at hj
    rw [hig] at hj
    simp only [Bool.false_or, Bool.and_eq_true] at hj
    obtain ⟨hfst, hsnd⟩ := hj
    simp only [Bool.false_eq_true, if_false]
    cases hit : getF x "items" with
    | none => simp only [hit]
    | some it =>
      unfold j10fst at hfst
      simp only [hit] at hfst
      rw [Bool.not_eq_true'] at hfst
      have hcond : (truthy it && !isArr it &&
          ((match getF x "maxItems" with
            | some (JSON.num n) => decide (0 ≤ n)
            | _ => false) ||
           (match getF x "minItems" with
            | some (JSON.num m) => decide (0 < m)
            | _ => false))) = false := hfst
      unfold j10snd at hsnd
      simp only [hit] at hsnd
      simp only [hit, hcond, Bool.false_eq_true, if_false]
      cases it with
      | null => rfl
      | bool b => rfl
      | num n0 => rfl
      | str s0 => rfl
      | obj m0 => rfl
      | arr l =>
        cases hM : getF x "maxItems" with
        | none => simp only [hM]
        | some v =>
          cases v with
          | num n =>
            simp only [hM] at hsnd ⊢
            rw [Bool.not_eq_true'] at hsnd
            rw [hsnd]
            simp
          | null => simp only [hM]
          | bool b => simp only [hM]
          | str s0 => simp only [hM]
          | arr l0 => simp only [hM]
          | obj m0 => simp only [hM]

theorem nnoop11 (x root : JSON) (file : String) (o : Options) (r : Bool)
    (hj : j11B x = true) :
    ruleDefsToDefinitions x root file o r = .ok x := by
  unfold ruleDefsToDefinitions
  cases hd : getF x "$defs" with
  | none => rfl
  | some d =>
    unfold j11B at hj
    rw [hd] at hj
    rw [Bool.not_eq_true'] at hj
    have htr : truthy d = false := hj
    simp only [htr, Bool.false_eq_true, if_false]

theorem nnoop12 (x root : JSON) (file : String) (o : Options) (r : Bool)
    (hj : j12B x = true) :
    ruleConstToEnum x root file o r = .ok x := by
  unfold ruleConstToEnum
  cases hc : getF x "const" with
  | none => rfl
  | some c =>
    unfold j12B at hj
    rw [hc] at hj
    rw [Bool.not_eq_true'] at hj
    have htr : truthy c = false := hj
    simp only [htr, Bool.false_eq_true, if_false]

theorem invAll_split {o : Options} {x : JSON} (h : invAll o x = true) :
    ctB x = true ∧ j1B x = true ∧ j2B x = true ∧ j3B x = true ∧
    j4B x = true ∧ j5B x = true ∧ j7B x = true ∧ j8B o x = true ∧
    j9B o x = true ∧ j10B o x = true ∧ j11B x = true ∧ j12B x = true := by
  simp only [invAll, acc11, acc10, acc9, acc8, acc7, acc5, acc4, acc3, acc2,
    acc1, Bool.and_eq_true] at h
  obtain ⟨⟨⟨⟨⟨⟨⟨⟨⟨⟨⟨hct, h1⟩, h2⟩, h3⟩, h4⟩, h5⟩, h7⟩, h8⟩, h9⟩, h10⟩,
    h11⟩, h12⟩ := h
  exact ⟨hct, h1, h2, h3, h4, h5, h7, h8, h9, h10, h11, h12⟩

/-! ### Pass-level wrappers for the idempotence proof -/

theorem runRules_cons_ok {file : String} {o : Options} {nm : String}
    {rl : RuleFn} {rest : List (String × RuleFn)} {t u : JSON}
    (h : runRules file o ((nm, rl) :: rest) t = .ok u) :
    ∃ t1, applyRule file o rl t = .ok t1 ∧
      runRules file o rest t1 = .ok u := by
  simp only [runRules] at h
  cases ha : applyRule file o rl t with
  | error e =>
    rw [ha] at h
    cases h
  | ok t1 =>
    rw [ha] at h
    exact ⟨t1, rfl, h⟩

theorem applyRule_establish (file : String) (o : Options) (rl : RuleFn)
    (C J : JSON → Bool)
    (hrule : ∀ x root r y, C x = true → rl x root file o r = .ok y →
      J y = true ∧ (∀ c ∈ childVals y, c ∈ childVals x))
    (hCJ : ∀ x, J x = true → C x = true)
    (hobjf : ∀ x root r y, rl x root file o r = .ok y → isObj y = isObj x)
    (hCshape : ∀ y t, NodeShapeEq y t → C y = true → C t = true)
    (hJshape : ∀ y t, NodeShapeEq y t → J y = true → J t = true)
    (t u : JSON) (hC : AllNodes C t = true)
    (h : applyRule file o rl t = .ok u) : AllNodes J u = true := by
  unfold applyRule at h
  exact (traverse_establish
    (fun x r y hx hfx => ⟨hCJ y (hrule x t r y hx hfx).1,
      (hrule x t r y hx hfx).1, (hrule x t r y hx hfx).2⟩)
    (fun x r y hobj hfx => by rw [hobjf x t r y hfx]; exact hobj)
    hCshape hJshape (jsize t) t true u (le_refl _) hC h).2

theorem applyRule_keep_rootIdP (file : String) (o : Options) (rl : RuleFn)
    (hframe : ∀ x root r y, rl x root file o r = .ok y →
      isObj y = isObj x ∧ getF y "id" = getF x "id")
    (t u : JSON) (h : applyRule file o rl t = .ok u)
    (hr : RootIdP file t) : RootIdP file u := by
  unfold applyRule at h
  obtain ⟨y, hy, hsh, hio⟩ := traverse_root_shape
    (fun x r y hobj hfx => by rw [(hframe x t r y hfx).1]; exact hobj)
    (jsize t) t true u h
  obtain ⟨ho, hid⟩ := hframe t t true y hy
  have hidu : getF u "id" = getF t "id" := by
    rw [hsh.1 "id" (by decide), hid]
  have hiou : isObj u = isObj t := by
    rw [hio, ho]
  rcases hr with h1 | h1 | h1
  · exact Or.inl (by rw [hidu]; exact h1)
  · exact Or.inr (Or.inl (by rw [hidu]; exact h1))
  · exact Or.inr (Or.inr (by rw [hiou]; exact h1))

theorem applyRule_id_establish (file : String) (o : Options)
    (t u : JSON) (h : applyRule file o ruleDefaultTopLevelId t = .ok u) :
    RootIdP file u := by
  unfold applyRule at h
  obtain ⟨y, hy, hsh, hio⟩ := traverse_root_shape
    (fun x r y hobj hfx => by
      rw [nframe6 x t file o r y hfx]
      exact hobj)
    (jsize t) t true u h
  unfold ruleDefaultTopLevelId at hy
  cases htr : truthyO (getF t "id") with
  | true =>
    rw [htr] at hy
    simp only [Bool.not_true, Bool.and_false, Bool.false_eq_true,
      if_false] at hy
    cases hy
    exact Or.inl (by rw [hsh.1 "id" (by decide)]; exact htr)
  | false =>
    rw [htr] at hy
    simp only [Bool.not_false, Bool.and_true, Bool.true_and,
      eq_self_iff_true, if_true] at hy
    cases hy
    cases hobj : isObj t with
    | true =>
      refine Or.inr (Or.inl ?_)
      rw [hsh.1 "id" (by decide), getF_setF_self hobj]
    | false =>
      refine Or.inr (Or.inr ?_)
      rw [hio, isObj_setF]
      exact hobj

theorem applyRule_noop (file : String) (o : Options) (rl : RuleFn)
    (P : JSON → Bool) (t : JSON)
    (hrule : ∀ x, P x = true → rl x t file o false = .ok x)
    (hroot : rl t t file o true = .ok t)
    (hP : AllNodes P t = true) : applyRule file o rl t = .ok t := by
  unfold applyRule
  exact traverse_noop_root hrule t hroot (jsize t) (le_refl _) hP

/-! ### Claim C1: idempotence -/

/-- C1: counterexample to unconditional idempotence.  On the schema
`{type: [["string"]]}` (a type array whose element is itself an array) the
first normalization destructures the unary type array to `type: ["string"]`,
and a second normalization destructures again to `type: "string"`, so
`normalize (normalize S) ≠ normalize S`. -/
theorem c1_idempotence_cex :
    ∃ t u : JSON,
      normalize (.obj [("type", .arr [.arr [.str "string"]])]) "f"
          defaultOptions [] = .ok t ∧
      normalize t "f" defaultOptions [] = .ok u ∧ ¬ u = t := by
  refine ⟨.obj [("type", .arr [.str "string"]), ("id", .str "f")],
    .obj [("type", .str "string"), ("id", .str "f")], rfl, rfl, ?_⟩
  intro h
  simp at h

/-- C1 (amended): normalization is idempotent on schemas whose `type` arrays
contain no array elements (type names, per the data model): if such a schema
normalizes successfully, the result is a fixed point of normalization. -/
theorem c1_idempotence_amended (s t : JSON) (file : String) (o : Options)
    (hct : AllNodes ctB s = true)
    (hok : normalize s file o [] = .ok t) :
    normalize t file o [] = .ok t := by
  unfold normalize cloneDeep at hok
  cases hrr : runRules file o rules s with
  | error e =>
    rw [hrr] at hok
    cases hok
  | ok t0 =>
    rw [hrr] at hok
    simp only [runRules] at hok
    cases hok
    rw [rules_eq] at hrr
    obtain ⟨u1, hp1, hrr1⟩ := runRules_cons_ok hrr
    obtain ⟨u2, hp2, hrr2⟩ := runRules_cons_ok hrr1
    obtain ⟨u3, hp3, hrr3⟩ := runRules_cons_ok hrr2
    obtain ⟨u4, hp4, hrr4⟩ := runRules_cons_ok hrr3
    obtain ⟨u5, hp5, hrr5⟩ := runRules_cons_ok hrr4
    obtain ⟨u6, hp6, hrr6⟩ := runRules_cons_ok hrr5
    obtain ⟨u7, hp7, hrr7⟩ := runRules_cons_ok hrr6
    obtain ⟨u8, hp8, hrr8⟩ := runRules_cons_ok hrr7
    obtain ⟨u9, hp9, hrr9⟩ := runRules_cons_ok hrr8
    obtain ⟨u10, hp10, hrr10⟩ := runRules_cons_ok hrr9
    obtain ⟨u11, hp11, hrr11⟩ := runRules_cons_ok hrr10
    obtain ⟨u12, hp12, hrr12⟩ := runRules_cons_ok hrr11
    simp only [runRules] at hrr12
    cases hrr12
    have hA1 : AllNodes acc1 u1 = true :=
      applyRule_establish file o ruleRemoveNullFromType ctB acc1
        (fun x root r y hx hfx => nstep1 x root file o r y hx hfx)
        (fun x hx => by simp only [acc1, Bool.and_eq_true] at hx; exact hx.1)
        (fun x root r y hfx => nframe1 x root file o r y hfx)
        (fun y t2 h hy => ctB_shape h hy)
        (fun y t2 h hy => acc1_shape h hy)
        s u1 hct hp1
    have hA2 : AllNodes acc2 u2 = true :=
      applyRule_establish file o ruleDestructureUnaryTypes acc1 acc2
        (fun x root r y hx hfx => nstep2 x root file o r y hx hfx)
        (fun x hx => by simp only [acc2, Bool.and_eq_true] at hx; exact hx.1)
        (fun x root r y hfx => nframe2 x root file o r y hfx)
        (fun y t2 h hy => acc1_shape h hy)
        (fun y t2 h hy => acc2_shape h hy)
        u1 u2 hA1 hp2
    have hA3 : AllNodes acc3 u3 = true :=
      applyRule_establish file o ruleAddEmptyRequired acc2 acc3
        (fun x root r y hx hfx => nstep3 x root file o r y hx hfx)
        (fun x hx => by simp only [acc3, Bool.and_eq_true] at hx; exact hx.1)
        (fun x root r y hfx => nframe3 x root file o r y hfx)
        (fun y t2 h hy => acc2_shape h hy)
        (fun y t2 h hy => acc3_shape h hy)
        u2 u3 hA2 hp3
    have hA4 : AllNodes acc4 u4 = true :=
      applyRule_establish file o ruleRequiredFalseToEmpty acc3 acc4
        (fun x root r y hx hfx => nstep4 x root file o r y hx hfx)
        (fun x hx => by simp only [acc4, Bool.and_eq_true] at hx; exact hx.1)
        (fun x root r y hfx => nframe4 x root file o r y hfx)
        (fun y t2 h hy => acc3_shape h hy)
        (fun y t2 h hy => acc4_shape h hy)
        u3 u4 hA3 hp4
    have hA5 : AllNodes acc5 u5 = true :=
      applyRule_establish file o ruleDefaultAdditionalProps acc4 acc5
        (fun x root r y hx hfx => nstep5 x root file o r y hx hfx)
        (fun x hx => by simp only [acc5, Bool.and_eq_true] at hx; exact hx.1)
        (fun x root r y hfx => nframe5 x root file o r y hfx)
        (fun y t2 h hy => acc4_shape h hy)
        (fun y t2 h hy => acc5_shape h hy)
        u4 u5 hA4 hp5
    have hA6 : AllNodes acc5 u6 = true :=
      applyRule_establish file o ruleDefaultTopLevelId acc5 acc5
        (fun x root r y hx hfx => nstep6 x root file o r y hx hfx)
        (fun x hx => hx)
        (fun x root r y hfx => nframe6 x root file o r y hfx)
        (fun y t2 h hy => acc5_shape h hy)
        (fun y t2 h hy => acc5_shape h hy)
        u5 u6 hA5 hp6
    have hA7 : AllNodes acc7 u7 = true :=
      applyRule_establish file o ruleEscapeBlockComment acc5 acc7
        (fun x root r y hx hfx => nstep7 x root file o r y hx hfx)
        (fun x hx => by simp only [acc7, Bool.and_eq_true] at hx; exact hx.1)
        (fun x root r y hfx => (nframe7 x root file o r y hfx).1)
        (fun y t2 h hy => acc5_shape h hy)
        (fun y t2 h hy => acc7_shape h hy)
        u6 u7 hA6 hp7
    have hA8 : AllNodes (acc8 o) u8 = true :=
      applyRule_establish file o ruleRemoveMaxMinItems acc7 (acc8 o)
        (fun x root r y hx hfx => nstep8 x root file o r y hx hfx)
        (fun x hx => by simp only [acc8, Bool.and_eq_true] at hx; exact hx.1)
        (fun x root r y hfx => (nframe8 x root file o r y hfx).1)
        (fun y t2 h hy => acc7_shape h hy)
        (fun y t2 h hy => acc8_shape o h hy)
        u7 u8 hA7 hp8
    have hA9 : AllNodes (acc9 o) u9 = true :=
      applyRule_establish file o ruleNormaliseMinItems (acc8 o) (acc9 o)
        (fun x root r y hx hfx => nstep9 x root file o r y hx hfx)
        (fun x hx => by simp only [acc9, Bool.and_eq_true] at hx; exact hx.1)
        (fun x root r y hfx => (nframe9 x root file o r y hfx).1)
        (fun y t2 h hy => acc8_shape o h hy)
        (fun y t2 h hy => acc9_shape o h hy)
        u8 u9 hA8 hp9
    have hA10 : AllNodes (acc10 o) u10 = true :=
      applyRule_establish file o ruleNormalizeItems (acc9 o) (acc10 o)
        (fun x root r y hx hfx => nstep10 x root file o r y hx hfx)
        (fun x hx => by simp only [acc10, Bool.and_eq_true] at hx; exact hx.1)
        (fun x root r y hfx => (nframe10 x root file o r y hfx).1)
        (fun y t2 h hy => acc9_shape o h hy)
        (fun y t2 h hy => acc10_shape o h hy)
        u9 u10 hA9 hp10
    have hA11 : AllNodes (acc11 o) u11 = true :=
      applyRule_establish file o ruleDefsToDefinitions (acc10 o) (acc11 o)
        (fun x root r y hx hfx => nstep11 x root file o r y hx hfx)
        (fun x hx => by simp only [acc11, Bool.and_eq_true] at hx; exact hx.1)
        (fun x root r y hfx => (nframe11 x root file o r y hfx).1)
        (fun y t2 h hy => acc10_shape o h hy)
        (fun y t2 h hy => acc11_shape o h hy)
        u10 u11 hA10 hp11
    have hA12 : AllNodes (invAll o) t = true :=
      applyRule_establish file o ruleConstToEnum (acc11 o) (invAll o)
        (fun x root r y hx hfx => nstep12 x root file o r y hx hfx)
        (fun x hx => by simp only [invAll, Bool.and_eq_true] at hx; exact hx.1)
        (fun x root r y hfx => (nframe12 x root file o r y hfx).1)
        (fun y t2 h hy => acc11_shape o h hy)
        (fun y t2 h hy => invAll_shape o h hy)
        u11 t hA11 hp12
    have hR6 : RootIdP file u6 := applyRule_id_establish file o u5 u6 hp6
    have hR7 : RootIdP file u7 :=
      applyRule_keep_rootIdP file o ruleEscapeBlockComment
        (fun x root r y hfx => nframe7 x root file o r y hfx) u6 u7 hp7 hR6
    have hR8 : RootIdP file u8 :=
      applyRule_keep_rootIdP file o ruleRemoveMaxMinItems
        (fun x root r y hfx => nframe8 x root file o r y hfx) u7 u8 hp8 hR7
    have hR9 : RootIdP file u9 :=
      applyRule_keep_rootIdP file o ruleNormaliseMinItems
        (fun x root r y hfx => nframe9 x root file o r y hfx) u8 u9 hp9 hR8
    have hR10 : RootIdP file u10 :=
      applyRule_keep_rootIdP file o ruleNormalizeItems
        (fun x root r y hfx => nframe10 x root file o r y hfx) u9 u10 hp10 hR9
    have hR11 : RootIdP file u11 :=
      applyRule_keep_rootIdP file o ruleDefsToDefinitions
        (fun x root r y hfx => nframe11 x root file o r y hfx) u10 u11 hp11
        hR10
    have hR12 : RootIdP file t :=
      applyRule_keep_rootIdP file o ruleConstToEnum
        (fun x root r y hfx => nframe12 x root file o r y hfx) u11 t hp12 hR11
    have hroot : invAll o t = true := allNodes_node hA12
    have n1 : applyRule file o ruleRemoveNullFromType t = .ok t :=
      applyRule_noop file o _ (invAll o) t
        (fun x hx => nnoop1 x t file o false (invAll_split hx).2.1)
        (nnoop1 t t file o true (invAll_split hroot).2.1) hA12
    have n2 : applyRule file o ruleDestructureUnaryTypes t = .ok t :=
      applyRule_noop file o _ (invAll o) t
        (fun x hx => nnoop2 x t file o false (invAll_split hx).2.2.1)
        (nnoop2 t t file o true (invAll_split hroot).2.2.1) hA12
    have n3 : applyRule file o ruleAddEmptyRequired t = .ok t :=
      applyRule_noop file o _ (invAll o) t
        (fun x hx => nnoop3 x t file o false (invAll_split hx).2.2.2.1)
        (nnoop3 t t file o true (invAll_split hroot).2.2.2.1) hA12
    have n4 : applyRule file o ruleRequiredFalseToEmpty t = .ok t :=
      applyRule_noop file o _ (invAll o) t
        (fun x hx => nnoop4 x t file o false (invAll_split hx).2.2.2.2.1)
        (nnoop4 t t file o true (invAll_split hroot).2.2.2.2.1) hA12
    have n5 : applyRule file o ruleDefaultAdditionalProps t = .ok t :=
      applyRule_noop file o _ (invAll o) t
        (fun x hx => nnoop5 x t file o false (invAll_split hx).2.2.2.2.2.1)
        (nnoop5 t t file o true (invAll_split hroot).2.2.2.2.2.1) hA12
    have n6 : applyRule file o ruleDefaultTopLevelId t = .ok t :=
      applyRule_noop file o _ (invAll o) t
        (fun x hx => nnoop6_nonroot x t file o)
        (nnoop6_root t t file o hR12) hA12
    have n7 : applyRule file o ruleEscapeBlockComment t = .ok t :=
      applyRule_noop file o _ (invAll o) t
        (fun x hx => nnoop7 x t file o false (invAll_split hx).2.2.2.2.2.2.1)
        (nnoop7 t t file o true (invAll_split hroot).2.2.2.2.2.2.1) hA12
    have n8 : applyRule file o ruleRemoveMaxMinItems t = .ok t :=
      applyRule_noop file o _ (invAll o) t
        (fun x hx =>
          nnoop8 x t file o false (invAll_split hx).2.2.2.2.2.2.2.1)
        (nnoop8 t t file o true (invAll_split hroot).2.2.2.2.2.2.2.1) hA12
    have n9 : applyRule file o ruleNormaliseMinItems t = .ok t :=
      applyRule_noop file o _ (invAll o) t
        (fun x hx =>
          nnoop9 x t file o false (invAll_split hx).2.2.2.2.2.2.2.2.1)
        (nnoop9 t t file o true (invAll_split hroot).2.2.2.2.2.2.2.2.1) hA12
    have n10 : applyRule file o ruleNormalizeItems t = .ok t :=
      applyRule_noop file o _ (invAll o) t
        (fun x hx =>
          nnoop10 x t file o false (invAll_split hx).2.2.2.2.2.2.2.2.2.1)
        (nnoop10 t t file o true
          (invAll_split hroot).2.2.2.2.2.2.2.2.2.1) hA12
    have n11 : applyRule file o ruleDefsToDefinitions t = .ok t :=
      applyRule_noop file o _ (invAll o) t
        (fun x hx =>
          nnoop11 x t file o false (invAll_split hx).2.2.2.2.2.2.2.2.2.2.1)
        (nnoop11 t t file o true
          (invAll_split hroot).2.2.2.2.2.2.2.2.2.2.1) hA12
    have n12 : applyRule file o ruleConstToEnum t = .ok t :=
      applyRule_noop file o _ (invAll o) t
        (fun x hx =>
          nnoop12 x t file o false (invAll_split hx).2.2.2.2.2.2.2.2.2.2.2)
        (nnoop12 t t file o true
          (invAll_split hroot).2.2.2.2.2.2.2.2.2.2.2) hA12
    unfold normalize cloneDeep
    rw [rules_eq]
    simp only [runRules, n1, n2, n3, n4, n5, n6, n7, n8, n9, n10, n11, n12]

/-- Closed instance of the amended idempotence theorem at a concrete
well-formed schema. -/
theorem c1_idempotence_amended_witness :
    normalize (.obj [("type", .str "string"), ("id", .str "f")]) "f"
      defaultOptions [] =
      .ok (.obj [("type", .str "string"), ("id", .str "f")]) :=
  c1_idempotence_amended (.obj [("type", .str "string")])
    (.obj [("type", .str "string"), ("id", .str "f")]) "f" defaultOptions
    (by rfl) (by rfl)

end JS2TS
